import Mathlib

/-!
# MDWave (GenesisAudioCompare): loading, realignment and block processing

A shallow embedding of the parts of `mdwave.c` that load a WAV file
(`LoadFile`), splice the sample buffer at internal sync points
(`MoveSampleBlockInternal`, `MoveSampleBlockExternal`, `ProcessInternal`),
transform one block (`ProcessSamples`) and walk the timeline over the file
(`ProcessFile`), of the function that runs them (`ExecuteMDWave`), of its
command line (`commandline_wave`, with
`CleanParameters` of `cline.c`) and `FlattenProfile`, and of two functions of
`plot.c`: `movingAverage` and `InsertElementInPlace`.

Conventions of the embedding:

* C integers (`long int`, `int`, `uint32_t`) are `Int`; the values involved are
  byte offsets inside one audio file, far below the 64-bit range.
* C `double` values are exact rationals (`ℚ`); IEEE rounding is not modelled,
  except in the frame rate test of `LoadFile`, whose comparison decides the
  return value: it is computed on `Double`, with binary64 rounding after each
  operation.
* The sample buffer `Signal->Samples` is a `List Int` of bytes. `memcpy` and
  `memset` are bounds-checked: an access outside the buffer is undefined
  behaviour in C and makes the embedded function return `none`.
* A function returning `int` through a mutated `Signal` returns
  `some (ret, Signal')`.
* Functions of the repository that live in files other than `mdwave.c`
  (`freq.c`, `sync.c`, ...) are fields of the parameter records `Lib` and
  `Engine`; so are the FFTW calls and the file system. The constants of the
  headers (`START_HZ`, `END_HZ`, ...) are the fields of `Limits`, and what
  `ExecuteMDWave` needs besides is the record `Host`.
* A loop of `ProcessFile` is a recursive function over its body; the body
  returns how it ends (`Flow`) and the state. The state carries two history
  variables, `copied` and `written`, that the code does not have.
-/

namespace MDWave

/-! ## Data model -/

/-- The `fmt ` sub-chunk of the WAV header, fields used by `mdwave.c`;
`SamplesPerSec` is an unsigned 32-bit field. -/
structure fmt_hdr where
  AudioFormat : Int
  NumOfChan : Int
  SamplesPerSec : Nat
  bitsPerSample : Int
deriving DecidableEq

/-- The `data` sub-chunk header; `DataSize` is an unsigned 32-bit field. -/
structure data_hdr where
  DataSize : Nat
deriving DecidableEq

/-- The WAV header kept in `Signal->header`. -/
structure wav_hdr where
  fmt : fmt_hdr
  data : data_hdr
deriving DecidableEq

/-- One entry of a block's frequency table (`AudioArray->freq[j]`), fields
used by `mdwave.c`. -/
structure Frequency where
  hertz : ℚ
  amplitude : ℚ
deriving DecidableEq

/-- The per-block result `AudioBlocks` (`Signal->Blocks[i]`): sub-index, type,
frequency table, and the `fftwValues` kept by the forward pass (spectrum as
pairs (real, imaginary), transform size, duration). -/
structure AudioBlocks where
  index : Int
  type : Int
  freq : List Frequency
  spectrum : List (ℚ × ℚ)
  size : Int
  seconds : ℚ
deriving DecidableEq

/-- The fields of `AudioSignal` that `mdwave.c` reads or writes.
`MaxMagnitude` stands for `MaxMagnitude.magnitude`. -/
structure AudioSignal where
  header : wav_hdr
  AudioChannels : Int
  Samples : List Int
  SamplesStart : Int
  startOffset : Int
  endOffset : Int
  framerate : ℚ
  role : Int
  endHz : ℚ
  nyquistLimit : Int
  hasFloor : Int
  SourceFile : String
  floorAmplitude : ℚ
  MaxMagnitude : ℚ
  Blocks : List AudioBlocks
deriving DecidableEq

/-- The fields of `parameters` (the configuration) used by the embedded code.
`totalChunks` stands for `types.totalChunks`; `model_plan` and `reverse_plan`
tell whether the cached FFTW plans are non-NULL. -/
structure parameters where
  startHz : ℚ
  endHz : ℚ
  nyquistLimit : Int
  smallFile : Int
  ignoreFrameRateDiff : Int
  referenceFramerate : ℚ
  verbose : Int
  clock : Int
  smallerFramerate : ℚ
  executefft : Int
  invert : Int
  chunks : Int
  ignoreFloor : Int
  significantAmplitude : ℚ
  channel : Char
  window : Char
  MaxFreq : Int
  ZeroPad : Int
  maxBlanked : Int
  model_plan : Bool
  reverse_plan : Bool
  totalChunks : Int
deriving DecidableEq

/-- Functions and constants the embedded code calls but that are defined in
other files of the repository (`freq.c`, `sync.c`, `mdfourier.h`) or in libc.
`DetectSignalStart` returns the pair (return value, value left in `*endPulse`,
which the caller initialises to 0). `malloc n` tells whether the allocation of
`n` bytes returns a non-NULL pointer. -/
structure Lib where
  WAVE_FORMAT_PCM : Int
  INVALID_CHANNELS : Int
  NO_INDEX : Int
  malloc : Int → Bool
  GetInternalSyncTotalLength : Int → parameters → Int
  GetInternalSyncTone : Int → parameters → Int
  GetInternalSyncLen : Int → parameters → ℚ
  GetLastSyncElementIndex : parameters → Int
  FramesToSeconds : ℚ → ℚ → ℚ
  SecondsToBytes : Int → ℚ → Int → Int
  DetectSignalStart : List Int → wav_hdr → Int → Int → parameters → Int × Int
  DetectPulse : List Int → wav_hdr → Int → parameters → Int
  DetectEndPulse : List Int → Int → wav_hdr → Int → parameters → Int
  GetMSPerFrame : AudioSignal → parameters → ℚ
  CalculateFrameRate : AudioSignal → parameters → ℚ
  GetSignalTotalDuration : ℚ → parameters → ℚ
  GetFirstSyncIndex : parameters → Int
  GetLastSyncIndex : parameters → Int
  GetFirstSilenceIndex : parameters → Int

/-- Further functions and constants used by `ProcessFile` and `ProcessSamples`
that are defined outside `mdwave.c` (`freq.c`, `windows.c`, `mdfourier.h`,
FFTW, the file system).

* `fftw_execute_r2c n signal` and `fftw_execute_c2r n spectrum` are the results
  of executing a forward and a backward plan of size `n`; `fftw_plan_r2c n` and
  `fftw_plan_c2r n` tell whether creating such a plan succeeds.
* `GetZeroPadValues mono seconds rate` returns (zeropadding, new
  `monoSignalSize`, new `seconds`).
* `SecondsToBytesCarry rate seconds channels (leftover, discard, decimals)` is
  `SecondsToBytes` called with its three rounding accumulators; it returns the
  byte count and the accumulators it leaves.
* `getWindowByLength rate kind config frames framerate` is the window the
  manager built by `initWindows rate kind config` returns, `none` for NULL.
* `mkdirChunks` tells whether the `Chunks` folder exists after
  `CreateChunksFolder`, and `writeProcessed` whether the processed file could
  be written (lines 945-965). -/
structure Engine where
  TYPE_SILENCE : Int
  TYPE_INTERNAL_KNOWN : Int
  TYPE_INTERNAL_UNKNOWN : Int
  fftw_malloc : Int → Bool
  fftw_plan_r2c : Int → Bool
  fftw_plan_c2r : Int → Bool
  fftw_execute_r2c : Int → List ℚ → List (ℚ × ℚ)
  fftw_execute_c2r : Int → List (ℚ × ℚ) → List ℚ
  GetZeroPadValues : Int → ℚ → Int → Int × Int × ℚ
  roundFloat : ℚ → ℚ
  CalculateMagnitude : ℚ × ℚ → Int → ℚ
  CalculateAmplitude : ℚ → ℚ → ℚ
  FillFrequencyStructures : AudioBlocks → parameters → AudioBlocks
  GetLongestElementFrames : parameters → Int
  GetBlockFrames : parameters → Int → Int
  GetBlockType : parameters → Int → Int
  GetBlockSubIndex : parameters → Int → Int
  SecondsToBytesCarry : Int → ℚ → Int → Int × Int × ℚ → Int × (Int × Int × ℚ)
  GetByteSizeDifferenceByFrameRate : ℚ → Int → Int → Int → parameters → Int
  initWindows : Nat → Char → parameters → Bool
  getWindowByLength : Nat → Char → parameters → Int → ℚ → Option (List ℚ)
  CompareFrameRates : ℚ → ℚ → parameters → parameters
  GlobalNormalize : AudioSignal → parameters → AudioSignal
  CalcuateFrequencyBrackets : AudioSignal → parameters → AudioSignal
  FindFloor : AudioSignal → parameters → AudioSignal
  mkdirChunks : parameters → Bool
  writeProcessed : AudioSignal → parameters → Bool

/-! ## Bounds-checked memory primitives -/

/-- The byte at index `i` of a buffer, `none` outside the buffer. -/
def byteAt (buf : List Int) (i : Int) : Option Int :=
  if 0 ≤ i then buf[i.toNat]? else none

/-- Read `n` bytes starting at `src` (the source side of `memcpy`). -/
def memRead (buf : List Int) (src n : Int) : Option (List Int) :=
  if 0 ≤ src ∧ 0 ≤ n ∧ src + n ≤ buf.length then
    some ((buf.drop src.toNat).take n.toNat)
  else none

/-- Store the bytes `data` starting at `dst` (the destination side of `memcpy`). -/
def memWrite (buf : List Int) (dst : Int) (data : List Int) : Option (List Int) :=
  if 0 ≤ dst ∧ dst + data.length ≤ buf.length then
    some (buf.take dst.toNat ++ data ++ buf.drop (dst.toNat + data.length))
  else none

/-- The C call `memset(buf + dst, c, n)`. -/
def memset (buf : List Int) (dst c n : Int) : Option (List Int) :=
  if 0 ≤ n then memWrite buf dst (List.replicate n.toNat c) else none

/-! ## Internal sync realignment (mdwave.c, lines 489-714) -/

/-- Embedding of `MoveSampleBlockInternal` (mdwave.c:489). -/
def MoveSampleBlockInternal (lib : Lib) (Signal : AudioSignal)
    (element pos internalSyncOffset : Int) (config : parameters) :
    Option (Int × AudioSignal) :=
  let frames := lib.GetInternalSyncTotalLength element config
  if frames = 0 then some (0, Signal) else
  let seconds := lib.FramesToSeconds frames config.referenceFramerate
  let bytes := lib.SecondsToBytes Signal.header.fmt.SamplesPerSec seconds Signal.AudioChannels
  let bytes := if pos + bytes > Signal.header.data.DataSize
    then Signal.header.data.DataSize - pos else bytes
  if bytes ≤ internalSyncOffset then some (0, Signal) else
  let buffsize := bytes - internalSyncOffset
  if !lib.malloc buffsize then some (0, Signal) else
  (memRead Signal.Samples (pos + internalSyncOffset) buffsize).bind fun sampleBuffer =>
  (memset Signal.Samples pos 0 bytes).bind fun zeroed =>
  (memWrite zeroed pos sampleBuffer).bind fun stored =>
  some (1, { Signal with Samples := stored })

/-- Embedding of `MoveSampleBlockExternal` (mdwave.c:550). -/
def MoveSampleBlockExternal (lib : Lib) (Signal : AudioSignal)
    (element pos internalSyncOffset paddingSize : Int) (config : parameters) :
    Option (Int × AudioSignal) :=
  let frames := lib.GetInternalSyncTotalLength element config
  if frames = 0 then some (0, Signal) else
  let seconds := lib.FramesToSeconds frames config.referenceFramerate
  let bytes := lib.SecondsToBytes Signal.header.fmt.SamplesPerSec seconds Signal.AudioChannels
  let bytes := if pos + bytes > Signal.header.data.DataSize
    then Signal.header.data.DataSize - pos else bytes
  if bytes ≤ internalSyncOffset then some (0, Signal) else
  let bytes := if pos + internalSyncOffset + bytes - paddingSize > Signal.header.data.DataSize
    then Signal.header.data.DataSize - (pos + internalSyncOffset) + paddingSize else bytes
  let buffsize := bytes - paddingSize
  if !lib.malloc buffsize then some (0, Signal) else
  (memRead Signal.Samples (pos + internalSyncOffset) buffsize).bind fun sampleBuffer =>
  (memset Signal.Samples (pos + internalSyncOffset) 0 buffsize).bind fun zeroed =>
  (memWrite zeroed pos sampleBuffer).bind fun stored =>
  some (1, { Signal with Samples := stored })

/-- The byte length of an internal sync block as both `MoveSampleBlock`
functions compute it before their bounds test: the length of the block's
frames converted to bytes, clamped to `DataSize - pos`. -/
def blockBytes (lib : Lib) (Signal : AudioSignal) (element pos : Int)
    (config : parameters) : Int :=
  let bytes := lib.SecondsToBytes Signal.header.fmt.SamplesPerSec
    (lib.FramesToSeconds (lib.GetInternalSyncTotalLength element config)
      config.referenceFramerate) Signal.AudioChannels
  if pos + bytes > Signal.header.data.DataSize
    then Signal.header.data.DataSize - pos else bytes

/-- The number of bytes `MoveSampleBlockExternal` copies (its `buffsize`) once
its bounds test has passed: the block length, clamped a second time so that
the copied window ends inside the buffer, minus the padding. -/
def movedBytes (lib : Lib) (Signal : AudioSignal) (element pos internalSyncOffset paddingSize : Int)
    (config : parameters) : Int :=
  let bytes := blockBytes lib Signal element pos config
  let bytes := if pos + internalSyncOffset + bytes - paddingSize > Signal.header.data.DataSize
    then Signal.header.data.DataSize - (pos + internalSyncOffset) + paddingSize else bytes
  bytes - paddingSize

/-- What a `ProcessInternal` call leaves behind: its return value, the signal,
and the caller's `*syncinternal` and `*advanceFrames`. -/
structure InternalResult where
  ret : Int
  Signal : AudioSignal
  syncinternal : Int
  advanceFrames : Int
deriving DecidableEq

/-- The common tail of both branches of `ProcessInternal` (mdwave.c:660-661,
708-711): `if(!MoveSampleBlock...(...)) return 0;`, then
`*advanceFrames += internalSyncOffset; return 1`. -/
def finishInternal (moved : Option (Int × AudioSignal)) (advanceFrames internalSyncOffset : Int) :
    Option InternalResult :=
  moved.bind fun r =>
    if r.1 = 0 then some ⟨0, r.2, 1, advanceFrames⟩
    else some ⟨1, r.2, 1, advanceFrames + internalSyncOffset⟩

/-- Embedding of `ProcessInternal` (mdwave.c:614). -/
def ProcessInternal (lib : Lib) (Signal : AudioSignal) (element pos : Int)
    (syncinternal advanceFrames knownLength : Int) (config : parameters) :
    Option InternalResult :=
  if syncinternal ≠ 0 then some ⟨1, Signal, 0, advanceFrames⟩
  else
    let syncTone := lib.GetInternalSyncTone element config
    let syncLen := lib.GetInternalSyncLen element config
    let detected := lib.DetectSignalStart Signal.Samples Signal.header pos syncTone config
    let internalSyncOffset := detected.1
    let endPulse := detected.2
    if internalSyncOffset = -1 then some ⟨0, Signal, 1, advanceFrames⟩ else
    let pulseLength := endPulse - internalSyncOffset
    let syncLength := lib.SecondsToBytes Signal.header.fmt.SamplesPerSec syncLen
      Signal.AudioChannels
    let internalSyncOffset := internalSyncOffset - pos
    let lastsync := lib.GetLastSyncElementIndex config
    if lastsync = lib.NO_INDEX then some ⟨0, Signal, 1, advanceFrames⟩ else
    if knownLength ≠ 0 then
      let internalSyncOffset := internalSyncOffset + syncLength
      finishInternal (MoveSampleBlockInternal lib Signal element pos internalSyncOffset config)
        advanceFrames internalSyncOffset
    else
      let halfSyncLength := Int.tdiv syncLength 2
      let pulseLength := if pulseLength > halfSyncLength then halfSyncLength else pulseLength
      let internalSyncOffset := internalSyncOffset + pulseLength
      let internalSyncOffset := internalSyncOffset + halfSyncLength
      finishInternal
        (MoveSampleBlockExternal lib Signal element pos internalSyncOffset
          (halfSyncLength + pulseLength) config)
        advanceFrames internalSyncOffset

/-- The sync-tone length in bytes as `ProcessInternal` computes it. -/
def syncLengthBytes (lib : Lib) (Signal : AudioSignal) (element : Int) (config : parameters) :
    Int :=
  lib.SecondsToBytes Signal.header.fmt.SamplesPerSec (lib.GetInternalSyncLen element config)
    Signal.AudioChannels

/-- The pair (signal start, end of pulse) that `DetectSignalStart` reports to
`ProcessInternal` for the block starting at `pos`. -/
def detectedPulse (lib : Lib) (Signal : AudioSignal) (element pos : Int) (config : parameters) :
    Int × Int :=
  lib.DetectSignalStart Signal.Samples Signal.header pos
    (lib.GetInternalSyncTone element config) config

/-- The skip of the known-length mode, as the specification words it: the
delay of the detected signal start behind `pos`, plus the sync-tone length. -/
def knownSkip (lib : Lib) (Signal : AudioSignal) (element pos : Int) (config : parameters) :
    Int :=
  ((detectedPulse lib Signal element pos config).1 - pos) +
    syncLengthBytes lib Signal element config

/-- The padding of the unknown-length mode, as the specification words it: the
pulse's own length capped at half the sync-tone length, plus half the
sync-tone length. -/
def unknownPadding (lib : Lib) (Signal : AudioSignal) (element pos : Int)
    (config : parameters) : Int :=
  min ((detectedPulse lib Signal element pos config).2 -
        (detectedPulse lib Signal element pos config).1)
      (Int.tdiv (syncLengthBytes lib Signal element config) 2) +
    Int.tdiv (syncLengthBytes lib Signal element config) 2

/-- The skip of the unknown-length mode, as the specification words it: the
delay of the detected signal start behind `pos`, plus the padding. -/
def unknownSkip (lib : Lib) (Signal : AudioSignal) (element pos : Int) (config : parameters) :
    Int :=
  ((detectedPulse lib Signal element pos config).1 - pos) +
    unknownPadding lib Signal element pos config

/-- One `ProcessInternal` call of a run: the block, the running position and
the `knownLength` argument. -/
structure InternalCall where
  element : Int
  pos : Int
  knownLength : Int
deriving DecidableEq

/-- The state threaded through successive `ProcessInternal` calls by
`ProcessFile`: the signal, `syncinternal` and `syncAdvance`. -/
structure InternalState where
  Signal : AudioSignal
  syncinternal : Int
  syncAdvance : Int
deriving DecidableEq

/-- A sequence of `ProcessInternal` calls, each continuing from the state the
previous one left. -/
def runInternal (lib : Lib) (config : parameters) :
    InternalState → List InternalCall → Option InternalState
  | st, [] => some st
  | st, c :: cs =>
    (ProcessInternal lib st.Signal c.element c.pos st.syncinternal st.syncAdvance
      c.knownLength config).bind fun r =>
      runInternal lib config ⟨r.Signal, r.syncinternal, r.advanceFrames⟩ cs

/-- The skips of the calls of a run that realigned successfully (flag clear
on entry, return value non-zero), in order; a call that only clears the flag
or that fails contributes no entry. -/
def realignedSkips (lib : Lib) (config : parameters) :
    InternalState → List InternalCall → List Int
  | _, [] => []
  | st, c :: cs =>
    match ProcessInternal lib st.Signal c.element c.pos st.syncinternal st.syncAdvance
      c.knownLength config with
    | none => []
    | some r =>
      let skip := if c.knownLength ≠ 0 then knownSkip lib st.Signal c.element c.pos config
        else unknownSkip lib st.Signal c.element c.pos config
      (if st.syncinternal = 0 ∧ r.ret ≠ 0 then [skip] else []) ++
        realignedSkips lib config ⟨r.Signal, r.syncinternal, r.advanceFrames⟩ cs

/-! ## Double-precision arithmetic -/

/-- A value of the C type `double` (IEEE 754 binary64): a finite number, an
infinity with its sign, or a NaN. The sign of a zero is not represented. -/
inductive Double where
  | finite (value : ℚ)
  | infinite (negative : Bool)
  | nan
deriving DecidableEq

/-- The power `2^e` for an integer exponent. -/
def pow2 (e : Int) : ℚ :=
  if 0 ≤ e then ((2 ^ e.toNat : Nat) : ℚ) else 1 / ((2 ^ (-e).toNat : Nat) : ℚ)

/-- The number of binary digits of `n`, for `fuel` at least that number. -/
def bitLength : Nat → Nat → Nat
  | 0, _ => 0
  | fuel + 1, n => if n = 0 then 0 else bitLength fuel (n / 2) + 1

/-- The exponent `e` with `2^e ≤ |x| < 2^(e+1)`, for `x` other than zero. -/
def binade (x : ℚ) : Int :=
  let e : Int := (bitLength x.num.natAbs x.num.natAbs : Int) - (bitLength x.den x.den : Int)
  if pow2 e ≤ |x| then e else e - 1

/-- Rounding to the nearest integer, a tie going to the even one. -/
def roundTiesEven (x : ℚ) : Int :=
  if x - (⌊x⌋ : ℚ) < 1 / 2 then ⌊x⌋
  else if 1 / 2 < x - (⌊x⌋ : ℚ) then ⌊x⌋ + 1
  else if ⌊x⌋ % 2 = 0 then ⌊x⌋ else ⌊x⌋ + 1

/-- The binary64 value an exact result is rounded to (round to nearest, ties
to even): a significand of 53 bits, exponents from -1022 with gradual
underflow below, and an infinity when the rounded magnitude reaches
`2^1024`. -/
def toDouble (x : ℚ) : Double :=
  if x = 0 then .finite 0 else
  let ulp := pow2 (max (binade x) (-1022) - 52)
  let r : ℚ := (roundTiesEven (x / ulp) : ℚ) * ulp
  if pow2 1024 ≤ |r| then .infinite (decide (x < 0)) else .finite r

/-- The product `a * b` of two doubles. -/
def Double.mul : Double → Double → Double
  | .finite a, .finite b => toDouble (a * b)
  | .nan, _ => .nan
  | _, .nan => .nan
  | .infinite s, .finite b => if b = 0 then .nan else .infinite (s != decide (b < 0))
  | .finite a, .infinite s => if a = 0 then .nan else .infinite (s != decide (a < 0))
  | .infinite s, .infinite t => .infinite (s != t)

/-- The quotient `a / b` of two doubles. A non-zero number divided by zero is
an infinity, here with the sign of the dividend, and `0 / 0` is a NaN. -/
def Double.div : Double → Double → Double
  | .finite a, .finite b =>
    if b = 0 then (if a = 0 then .nan else .infinite (decide (a < 0))) else toDouble (a / b)
  | .nan, _ => .nan
  | _, .nan => .nan
  | .infinite s, .finite b => .infinite (s != decide (b < 0))
  | .finite _, .infinite _ => .finite 0
  | .infinite _, .infinite _ => .nan

/-- The difference `a - b` of two doubles. -/
def Double.sub : Double → Double → Double
  | .finite a, .finite b => toDouble (a - b)
  | .nan, _ => .nan
  | _, .nan => .nan
  | .infinite s, .finite _ => .infinite s
  | .finite _, .infinite s => .infinite (!s)
  | .infinite s, .infinite t => if s = t then .nan else .infinite s

/-- The C function `fabs`. -/
def Double.abs : Double → Double
  | .finite a => .finite |a|
  | .infinite _ => .infinite false
  | .nan => .nan

/-- The comparison `a > b` of two doubles; it is false when either is a NaN. -/
def Double.gt : Double → Double → Bool
  | .finite a, .finite b => decide (a > b)
  | .nan, _ => false
  | _, .nan => false
  | .infinite s, .finite _ => !s
  | .finite _, .infinite s => s
  | .infinite s, .infinite t => !s && t

/-- The value of `fabs(100.0 - framerate*100.0/expected)` (line 431 of
`LoadFile`), each operation rounded as the C type `double` rounds it. -/
def framerateDifference (framerate expected : ℚ) : Double :=
  Double.abs (Double.sub (.finite 100)
    (Double.div (Double.mul (.finite framerate) (.finite 100)) (.finite expected)))

/-! ## Loading a file (mdwave.c, lines 252-487) -/

/-- What `LoadFile` obtains from the `FILE *`. The chunk walk of lines 264-313
(RIFF/WAVE tags, search for the `fmt` chunk, reads of the `fmt` and `data`
headers) is summarised by `parsed`, which says whether every read and tag
test succeeded, and by `header`, the contents it leaves in `Signal->header`.
`dataStart` is the file position after the headers and `payload` the bytes
that follow it. -/
structure WavFile where
  parsed : Bool
  header : wav_hdr
  dataStart : Int
  payload : List Int
deriving DecidableEq

/-- The outcome of `LoadFile`: its return value and the signal and
configuration it leaves behind. -/
structure LoadResult where
  ret : Int
  Signal : AudioSignal
  config : parameters
deriving DecidableEq

/-- Lines 321-322 of `LoadFile`: a channel count of 1 or 2 is stored in the
signal. -/
def LoadFile_channels (Signal : AudioSignal) : AudioSignal :=
  if Signal.header.fmt.NumOfChan = 2 ∨ Signal.header.fmt.NumOfChan = 1
    then { Signal with AudioChannels := Signal.header.fmt.NumOfChan } else Signal

/-- Lines 336-348 of `LoadFile`: the range check against the Nyquist limit. -/
def LoadFile_range (Signal : AudioSignal) (config : parameters) : AudioSignal × parameters :=
  if ((Signal.header.fmt.SamplesPerSec / 2 : Nat) : ℚ) < config.endHz then
    let Signal := { Signal with
      endHz := ((Signal.header.fmt.SamplesPerSec / 2 : Nat) : ℚ), nyquistLimit := 1 }
    (Signal, { config with endHz := Signal.endHz, nyquistLimit := 1 })
  else (Signal, config)

/-- Lines 350-365 of `LoadFile`: the default frame rate and the test of the
estimated file length against the expected duration. -/
def LoadFile_length (lib : Lib) (Signal : AudioSignal) (config : parameters) :
    AudioSignal × parameters :=
  let Signal := { Signal with framerate := lib.GetMSPerFrame Signal config }
  let seconds : ℚ := (Signal.header.data.DataSize : ℚ) / 2 /
    (Signal.header.fmt.SamplesPerSec : ℚ) / (Signal.AudioChannels : ℚ)
  if seconds < lib.GetSignalTotalDuration Signal.framerate config
    then (Signal, { config with smallFile := 1 }) else (Signal, config)

/-- Lines 367-380 of `LoadFile`: allocation of the sample buffer and the read
of `DataSize` bytes into it. The Boolean is false when `LoadFile` returns 0
here. After a short read the rest of the allocation is indeterminate and is
not represented. -/
def LoadFile_samples (lib : Lib) (f : WavFile) (Signal : AudioSignal) : Bool × AudioSignal :=
  if !lib.malloc Signal.header.data.DataSize then (false, Signal) else
  let Signal := { Signal with
    Samples := f.payload.take Signal.header.data.DataSize,
    SamplesStart := f.dataStart }
  if f.payload.length < Signal.header.data.DataSize then (false, Signal) else
  (true, Signal)

/-- Lines 252-388 of `LoadFile`: header and format checks, the range check
against the Nyquist limit, the default frame rate, and the read of the sample
block. The Boolean tells whether execution continues past line 388; when it
is false `LoadFile` has returned 0. -/
def LoadFile_read (lib : Lib) (file : Option WavFile) (Signal : AudioSignal)
    (config : parameters) : Bool × AudioSignal × parameters :=
  match file with
  | none => (false, Signal, config)
  | some f =>
    let Signal := { Signal with header := f.header }
    if !f.parsed then (false, Signal, config) else
    if Signal.header.fmt.AudioFormat ≠ lib.WAVE_FORMAT_PCM then (false, Signal, config) else
    let Signal := LoadFile_channels Signal
    if Signal.AudioChannels = lib.INVALID_CHANNELS then (false, Signal, config) else
    if Signal.header.fmt.bitsPerSample ≠ 16 then (false, Signal, config) else
    let ranged := LoadFile_range Signal config
    let timed := LoadFile_length lib ranged.1 ranged.2
    let loaded := LoadFile_samples lib f timed.1
    (loaded.1, loaded.2, timed.2)

/-- Lines 390-475 of `LoadFile`: detection of the sync pulse trains and of the
frame rate, or of the signal start when the profile has no sync. The Boolean
is false when `LoadFile` returns 0 from these lines. -/
def LoadFile_sync (lib : Lib) (Signal : AudioSignal) (config : parameters) :
    Bool × AudioSignal :=
  if lib.GetFirstSyncIndex config ≠ lib.NO_INDEX then
    let Signal := { Signal with
      startOffset := lib.DetectPulse Signal.Samples Signal.header Signal.role config }
    if Signal.startOffset = -1 then (false, Signal) else
    if lib.GetLastSyncIndex config ≠ lib.NO_INDEX then
      let Signal := { Signal with
        endOffset := lib.DetectEndPulse Signal.Samples Signal.startOffset Signal.header
          Signal.role config }
      if Signal.endOffset = -1 then (false, Signal) else
      let Signal := { Signal with framerate := lib.CalculateFrameRate Signal config }
      let expected := lib.GetMSPerFrame Signal config
      let diff := framerateDifference Signal.framerate expected
      if Double.gt diff (.finite 2) = true ∧ config.ignoreFrameRateDiff = 0 then
        (false, Signal) else
      (true, Signal)
    else (false, Signal)
  else
    let Signal := { Signal with framerate := lib.GetMSPerFrame Signal config }
    let Signal := { Signal with
      startOffset := (lib.DetectSignalStart Signal.Samples Signal.header 0 0 config).1 }
    if Signal.startOffset = -1 then (false, Signal) else
    let Signal := { Signal with
      endOffset := lib.SecondsToBytes Signal.header.fmt.SamplesPerSec
        (lib.GetSignalTotalDuration Signal.framerate config) Signal.AudioChannels }
    (true, Signal)

/-- Embedding of `LoadFile` (mdwave.c:252). -/
def LoadFile (lib : Lib) (file : Option WavFile) (Signal : AudioSignal) (config : parameters)
    (fileName : String) : LoadResult :=
  let read := LoadFile_read lib file Signal config
  if !read.1 then ⟨0, read.2.1, read.2.2⟩ else
  let sync := LoadFile_sync lib read.2.1 read.2.2
  if !sync.1 then ⟨0, sync.2, read.2.2⟩ else
  let Signal := sync.2
  let Signal := if lib.GetFirstSilenceIndex read.2.2 ≠ lib.NO_INDEX
    then { Signal with hasFloor := 1 } else Signal
  ⟨1, { Signal with SourceFile := fileName }, read.2.2⟩

/-- The signal as `LoadFile` holds it when both pulse trains have been found
(after line 425): the loaded signal with the two detected offsets stored. -/
def withSyncOffsets (lib : Lib) (Signal : AudioSignal) (config : parameters) : AudioSignal :=
  let Signal := { Signal with
    startOffset := lib.DetectPulse Signal.Samples Signal.header Signal.role config }
  { Signal with
    endOffset := lib.DetectEndPulse Signal.Samples Signal.startOffset Signal.header
      Signal.role config }

/-- The frame duration `LoadFile` measures from the two pulse trains (line 426). -/
def measuredFramerate (lib : Lib) (Signal : AudioSignal) (config : parameters) : ℚ :=
  lib.CalculateFrameRate (withSyncOffsets lib Signal config) config

/-- The frame duration the profile expects, as `LoadFile` asks for it at line
430, once the measured rate is stored in the signal. -/
def expectedFramerate (lib : Lib) (Signal : AudioSignal) (config : parameters) : ℚ :=
  lib.GetMSPerFrame
    { withSyncOffsets lib Signal config with
      framerate := measuredFramerate lib Signal config } config

/-- Modelled from the spec: the contract of the pulse-train detectors
`DetectPulse` and `DetectEndPulse`, which live in `sync.c` and are not among
the source files. The specification (section 4.1) says that the detector
returns a byte offset marking where a pulse train begins, that the second
call searches only after the start offset, and that it fails (here: returns
-1) when no pulse train is found. So a result other than -1 is an offset
inside the buffer, and the end offset is not before the start it was given. -/
def DetectorContract (lib : Lib) : Prop :=
  (∀ Samples header role config, lib.DetectPulse Samples header role config = -1 ∨
    (0 ≤ lib.DetectPulse Samples header role config ∧
      lib.DetectPulse Samples header role config ≤ Samples.length)) ∧
  (∀ Samples start header role config,
    lib.DetectEndPulse Samples start header role config = -1 ∨
    (start ≤ lib.DetectEndPulse Samples start header role config ∧
      lib.DetectEndPulse Samples start header role config ≤ Samples.length))

/-! ## Spectral processing of one block (mdwave.c, lines 987-1241) -/

/-- The C read `array[i]`, `none` when the index is outside the array. -/
def getAt {α : Type} (l : List α) (i : Int) : Option α :=
  if 0 ≤ i then l[i.toNat]? else none

/-- The C store `array[i] = v`, `none` when the index is outside the array. -/
def setAt {α : Type} (l : List α) (i : Int) (v : α) : Option (List α) :=
  if 0 ≤ i ∧ i < l.length then some (l.set i.toNat v) else none

/-- A C `for` loop whose counter starts at `i` and that runs `n` times:
`body` is applied to the counter and the state, in order. -/
def loopFrom {σ : Type} (body : Int → σ → Option σ) : Nat → Int → σ → Option σ
  | 0, _, st => some st
  | n + 1, i, st => (body i st).bind (loopFrom body n (i + 1))

/-- Conversion of a `double` to `int16_t`: the value is truncated toward zero;
a result outside the 16-bit range is undefined behaviour. -/
def toInt16 (q : ℚ) : Option Int :=
  let t : Int := if 0 ≤ q then ⌊q⌋ else ⌈q⌉
  if -32768 ≤ t ∧ t ≤ 32767 then some t else none

/-- The C function `round`: to the nearest integer, halves away from zero. -/
def round (q : ℚ) : ℚ :=
  if 0 ≤ q then ((⌊q + 1 / 2⌋ : Int) : ℚ) else ((⌈q - 1 / 2⌉ : Int) : ℚ)

/-- Lines 1077-1080 of `ProcessSamples`: the channel the loops work on. -/
def selectedChannel (Signal : AudioSignal) (config : parameters) : Char :=
  if Signal.AudioChannels = 1 then 'l' else config.channel

/-- The body of the loop at lines 1083-1105 of `ProcessSamples` for frame `i`:
the selected channel is read into `signal[i]`, the other channel is cleared
(or both are overwritten with the mix), and the window is applied. The state
is the pair (`signal`, `samples`). -/
def mixFrame (channel : Char) (AudioChannels : Int) (window : Option (List ℚ)) (i : Int)
    (st : List ℚ × List Int) : Option (List ℚ × List Int) := do
  let mut signal := st.1
  let mut samples := st.2
  if channel = 'l' then
    let v ← getAt samples (i * AudioChannels)
    signal ← setAt signal i (v : ℚ)
    if AudioChannels = 2 then
      samples ← setAt samples (i * 2 + 1) 0
  if channel = 'r' then
    let v ← getAt samples (i * 2 + 1)
    signal ← setAt signal i (v : ℚ)
    samples ← setAt samples (i * 2) 0
  if channel = 's' then
    let l ← getAt samples (i * 2)
    let r ← getAt samples (i * 2 + 1)
    signal ← setAt signal i (((l : ℚ) + (r : ℚ)) / 2)
    let mixed ← getAt signal i
    let stored ← toInt16 mixed
    samples ← setAt samples (i * 2) stored
    samples ← setAt samples (i * 2 + 1) stored
  match window with
  | some w =>
    let x ← getAt signal i
    let c ← getAt w i
    signal ← setAt signal i (x * c)
  | none => pure ()
  return (signal, samples)

/-- The loop at lines 1083-1105 of `ProcessSamples`, over the frames
`0 .. monoSignalSize - zeropadding - 1`. -/
def mixLoop (channel : Char) (AudioChannels : Int) (window : Option (List ℚ))
    (monoSignalSize zeropadding : Int) (signal : List ℚ) (samples : List Int) :
    Option (List ℚ × List Int) :=
  loopFrom (mixFrame channel AudioChannels window) (monoSignalSize - zeropadding).toNat 0
    (signal, samples)

/-- The loop at lines 1125-1131 of `ProcessSamples` over the entries of the
frequency table: it stops at the first entry whose `hertz` is zero and keeps
the smallest amplitude seen, starting from `m`. -/
def minAmplitudeLoop : List Frequency → ℚ → ℚ
  | [], m => m
  | f :: fs, m =>
    if f.hertz = 0 then m
    else minAmplitudeLoop fs (if f.amplitude < m then f.amplitude else m)

/-- Lines 1122-1139 of `ProcessSamples`: the cutoff amplitude of a block. The
frequency table holds `MaxFreq` entries. -/
def CutOff (AudioArray : AudioBlocks) (config : parameters) (Signal : AudioSignal) : ℚ :=
  let MinAmplitude := minAmplitudeLoop (AudioArray.freq.take config.MaxFreq.toNat) 0
  let CutOff := MinAmplitude
  let CutOff := if CutOff < config.significantAmplitude then config.significantAmplitude
    else CutOff
  if config.ignoreFloor = 0 ∧ Signal.hasFloor ≠ 0 ∧ CutOff < Signal.floorAmplitude ∧
      Signal.floorAmplitude ≠ 0 then Signal.floorAmplitude
  else CutOff

/-- Lines 1144-1156 of `ProcessSamples`: whether bin `i`, holding `z`, is
blanked. -/
def blankFlag (eng : Engine) (config : parameters) (Signal : AudioSignal)
    (monoSignalSize startBin endBin : Int) (CutOff : ℚ) (i : Int) (z : ℚ × ℚ) : Bool :=
  let magnitude := eng.CalculateMagnitude z monoSignalSize
  let amplitude := eng.CalculateAmplitude magnitude Signal.MaxMagnitude
  let blank : Bool := decide (amplitude ≤ CutOff)
  let blank : Bool := if i < startBin ∨ i > endBin then true else blank
  if config.invert ≠ 0 then !blank else blank

/-- The body of the loop at lines 1142-1171 of `ProcessSamples` for bin `i`.
The state is the pair (`spectrum`, `blanked`). -/
def blankBin (eng : Engine) (config : parameters) (Signal : AudioSignal)
    (monoSignalSize startBin endBin : Int) (CutOff : ℚ) (i : Int)
    (st : List (ℚ × ℚ) × Int) : Option (List (ℚ × ℚ) × Int) := do
  let z ← getAt st.1 i
  if blankFlag eng config Signal monoSignalSize startBin endBin CutOff i z then
    let filter : ℚ := 0
    let spectrum ← setAt st.1 i (z.1 * filter, z.2 * filter)
    return (spectrum, st.2 + 1)
  else
    return st

/-- The loop at lines 1142-1171 of `ProcessSamples`: bins
`1 .. floor(boxsize*(samplerate/2)) - 1` are visited in order. -/
def blankLoop (eng : Engine) (config : parameters) (Signal : AudioSignal)
    (monoSignalSize samplerate : Int) (boxsize CutOff : ℚ) (spectrum : List (ℚ × ℚ)) :
    Option (List (ℚ × ℚ) × Int) :=
  loopFrom
    (blankBin eng config Signal monoSignalSize ⌊config.startHz * boxsize⌋
      ⌊config.endHz * boxsize⌋ CutOff)
    (⌊boxsize * ((Int.tdiv samplerate 2 : Int) : ℚ)⌋ - 1).toNat 1 (spectrum, 0)

/-- The body of the write-back loops at lines 1180-1205 and 1209-1230 of
`ProcessSamples` for frame `i`; `channel` is the variable the arm tests. -/
def writeFrame (channel : Char) (AudioChannels monoSignalSize : Int) (signal : List ℚ)
    (i : Int) (samples : List Int) : Option (List Int) := do
  let mut samples := samples
  let x ← getAt signal i
  let value : ℚ := x / (monoSignalSize : ℚ)
  if channel = 'l' then
    let v ← toInt16 (round value)
    samples ← setAt samples (i * AudioChannels) v
    if AudioChannels = 2 then
      samples ← setAt samples (i * 2 + 1) 0
  if channel = 'r' then
    samples ← setAt samples (i * 2) 0
    let v ← toInt16 (round value)
    samples ← setAt samples (i * 2 + 1) v
  if channel = 's' then
    let v ← toInt16 (round value)
    samples ← setAt samples (i * 2) v
    let v ← toInt16 (round value)
    samples ← setAt samples (i * 2 + 1) v
  return samples

/-- Lines 1178-1231 of `ProcessSamples`: the write-back of the reconstructed
signal. With a window the loop tests the local `channel`, without one it
tests `config->channel`. -/
def writeBack (window : Option (List ℚ)) (config : parameters) (Signal : AudioSignal)
    (monoSignalSize zeropadding : Int) (signal : List ℚ) (samples : List Int) :
    Option (List Int) :=
  match window with
  | some _ =>
    loopFrom (writeFrame (selectedChannel Signal config) Signal.AudioChannels monoSignalSize
      signal) (monoSignalSize - zeropadding).toNat 0 samples
  | none =>
    loopFrom (writeFrame config.channel Signal.AudioChannels monoSignalSize signal)
      (monoSignalSize - zeropadding).toNat 0 samples

/-- What a `ProcessSamples` call leaves behind: its return value, the block
result, the sample buffer and the configuration. -/
structure SamplesResult where
  ret : Int
  AudioArray : AudioBlocks
  samples : List Int
  config : parameters
deriving DecidableEq

/-- Lines 1120-1235 of `ProcessSamples`, the reconstruction part: cutoff,
blanking, inverse transform, write-back and the `maxBlanked` statistic. -/
def ProcessSamples_reverse (eng : Engine) (AudioArray : AudioBlocks) (samples : List Int)
    (samplerate : Int) (window : Option (List ℚ)) (config : parameters) (Signal : AudioSignal)
    (monoSignalSize zeropadding : Int) (boxsize : ℚ) (spectrum : List (ℚ × ℚ)) :
    Option SamplesResult :=
  (blankLoop eng config Signal monoSignalSize samplerate boxsize
    (CutOff AudioArray config Signal) spectrum).bind fun blanking =>
  let signal := eng.fftw_execute_c2r monoSignalSize blanking.1
  (writeBack window config Signal monoSignalSize zeropadding signal samples).bind fun samples =>
  let config := if blanking.2 > config.maxBlanked
    then { config with maxBlanked := blanking.2 } else config
  some ⟨1, AudioArray, samples, config⟩

/-- Embedding of `ProcessSamples` (mdwave.c:987). `AudioArray` is the block
the non-NULL pointer refers to, `samples` the 16-bit view of the buffer the
pointer `samples` refers to, `window` is `none` for a NULL window. -/
def ProcessSamples (lib : Lib) (eng : Engine) (AudioArray : AudioBlocks) (samples : List Int)
    (size : Int) (samplerate : Int) (window : Option (List ℚ)) (config : parameters)
    (reverse : Int) (Signal : AudioSignal) : Option SamplesResult :=
  if Signal.AudioChannels = 0 then none else
  let stereoSignalSize := size
  let monoSignalSize := Int.tdiv stereoSignalSize Signal.AudioChannels
  let seconds : ℚ := (size : ℚ) / ((samplerate : ℚ) * (Signal.AudioChannels : ℚ))
  let padded := if config.ZeroPad ≠ 0 then eng.GetZeroPadValues monoSignalSize seconds samplerate
    else (0, monoSignalSize, seconds)
  let zeropadding := padded.1
  let monoSignalSize := padded.2.1
  let seconds := padded.2.2
  let boxsize := eng.roundFloat seconds
  if !lib.malloc (8 * (monoSignalSize + 1)) then some ⟨0, AudioArray, samples, config⟩ else
  if !eng.fftw_malloc (16 * (Int.tdiv monoSignalSize 2 + 1)) then
    some ⟨0, AudioArray, samples, config⟩ else
  let signal : List ℚ := List.replicate (monoSignalSize + 1).toNat 0
  if !config.model_plan ∧ !eng.fftw_plan_r2c monoSignalSize then
    some ⟨0, AudioArray, samples, config⟩ else
  let config := { config with model_plan := true }
  if !eng.fftw_plan_r2c monoSignalSize then some ⟨0, AudioArray, samples, config⟩ else
  if reverse ≠ 0 ∧ !config.reverse_plan ∧ !eng.fftw_plan_c2r monoSignalSize then
    some ⟨0, AudioArray, samples, config⟩ else
  let config := if reverse ≠ 0 then { config with reverse_plan := true } else config
  if reverse ≠ 0 ∧ !eng.fftw_plan_c2r monoSignalSize then
    some ⟨0, AudioArray, samples, config⟩ else
  (mixLoop (selectedChannel Signal config) Signal.AudioChannels window monoSignalSize
    zeropadding signal samples).bind fun mixed =>
  let spectrum := eng.fftw_execute_r2c monoSignalSize mixed.1
  if reverse = 0 then
    let AudioArray := { AudioArray with
      spectrum := spectrum, size := monoSignalSize, seconds := seconds }
    some ⟨1, eng.FillFrequencyStructures AudioArray config, mixed.2, config⟩
  else
    ProcessSamples_reverse eng AudioArray mixed.2 samplerate window config Signal
      monoSignalSize zeropadding boxsize spectrum

/-! ## Segmentation of the file (mdwave.c, lines 737-985) -/

/-- The 16-bit sample stored in two consecutive bytes, low byte first. -/
def int16OfBytes (lo hi : Int) : Int :=
  let v := lo % 256 + 256 * (hi % 256)
  if v ≥ 32768 then v - 65536 else v

/-- The view `(int16_t*)buffer` of a byte buffer: its 16-bit samples. -/
def asSamples : List Int → List Int
  | lo :: hi :: rest => int16OfBytes lo hi :: asSamples rest
  | _ => []

/-- A byte value as a (signed) `char`. -/
def charOfByte (b : Int) : Int :=
  if b % 256 ≥ 128 then b % 256 - 256 else b % 256

/-- The bytes of a list of 16-bit samples, low byte first. -/
def asBytes : List Int → List Int
  | [] => []
  | v :: rest => charOfByte v :: charOfByte (v / 256) :: asBytes rest

/-- The byte buffer after the samples of its 16-bit view have been replaced by
`samples`; a trailing odd byte is kept. -/
def storeSamples (buffer : List Int) (samples : List Int) : List Int :=
  asBytes samples ++ buffer.drop (2 * samples.length)

/-- Embedding of `CreateChunksFolder` (mdwave.c:716). -/
def CreateChunksFolder (eng : Engine) (config : parameters) : Int :=
  if eng.mkdirChunks config then 1 else 0

/-- Kind of a range of the sample buffer that `ProcessFile` writes. -/
inductive RegionKind where
  | splice
  | rewrite
  | clear
deriving DecidableEq

/-- A byte range `[start, start+len)` of the sample buffer and what wrote it. -/
structure Region where
  kind : RegionKind
  start : Int
  len : Int
deriving DecidableEq

/-- Record of a block that was segmented and copied into the scratch buffer:
its index, the frame rate its length was computed with, the running position
and its byte length. -/
structure BlockCopy where
  index : Int
  framerate : ℚ
  pos : Int
  loadedBlockSize : Int
deriving DecidableEq

/-- The variables of `ProcessFile` that its loops read and write. `carry` is
the triple (`leftover`, `discardBytes`, `leftDecimals`). The last two fields
are history variables, which the code does not have and which influence
nothing: `copied` lists the blocks copied into the scratch buffer by the
current loop, `written` the ranges of `Signal->Samples` written so far. -/
structure FileState where
  Signal : AudioSignal
  config : parameters
  buffer : List Int
  windowUsed : Option (List ℚ)
  pos : Int
  syncinternal : Int
  syncAdvance : Int
  carry : Int × Int × ℚ
  copied : List BlockCopy
  written : List Region
deriving DecidableEq

/-- How one pass through a loop body ends: the loop goes on, it is left with
`break`, or the function returns 0. -/
inductive Flow where
  | next
  | stop
  | fail
deriving DecidableEq

/-- A `while(i < totalChunks)` loop of `ProcessFile`: `body` runs for the
counter values `i, i+1, ...`, at most `n` times, until it leaves the loop. -/
def blocksLoop (body : Int → FileState → Option (Flow × FileState)) :
    Nat → Int → FileState → Option (Flow × FileState)
  | 0, _, st => some (Flow.next, st)
  | n + 1, i, st =>
    (body i st).bind fun r =>
      match r.1 with
      | Flow.next => blocksLoop body n (i + 1) r.2
      | Flow.stop => some (Flow.stop, r.2)
      | Flow.fail => some (Flow.fail, r.2)

/-- Lines 785-788 of `ProcessFile`: the frame rate a block of the first loop
is measured with. -/
def blockFramerate (st : FileState) : ℚ :=
  if st.syncinternal = 0 then st.Signal.framerate else st.config.referenceFramerate

/-- The ranges of the sample buffer a successful realignment of
`ProcessInternal` writes: in known-length mode the block that is zeroed and
the destination of the copy, which starts where the block starts; in
unknown-length mode the zeroed source window and the destination of the copy. -/
def spliceRegions (lib : Lib) (Signal : AudioSignal) (element pos knownLength : Int)
    (config : parameters) : List Region :=
  if knownLength ≠ 0 then
    [⟨RegionKind.splice, pos, blockBytes lib Signal element pos config⟩,
     ⟨RegionKind.splice, pos,
        blockBytes lib Signal element pos config - knownSkip lib Signal element pos config⟩]
  else
    [⟨RegionKind.splice, pos + unknownSkip lib Signal element pos config,
        movedBytes lib Signal element pos (unknownSkip lib Signal element pos config)
          (unknownPadding lib Signal element pos config) config⟩,
     ⟨RegionKind.splice, pos,
        movedBytes lib Signal element pos (unknownSkip lib Signal element pos config)
          (unknownPadding lib Signal element pos config) config⟩]

/-- A `ProcessInternal` call of `ProcessFile` (lines 831-841) on the state:
the signal, `syncinternal` and `syncAdvance` are replaced by what the call
leaves; the flow is `fail` when it returns 0. -/
def internalCall (lib : Lib) (i knownLength : Int) (st : FileState) :
    Option (Flow × FileState) :=
  (ProcessInternal lib st.Signal i st.pos st.syncinternal st.syncAdvance knownLength
    st.config).bind fun r =>
  let st' := { st with
    Signal := r.Signal, syncinternal := r.syncinternal, syncAdvance := r.advanceFrames,
    written := if st.syncinternal = 0 ∧ r.ret ≠ 0
      then st.written ++ spliceRegions lib st.Signal i st.pos knownLength st.config
      else st.written }
  some (if r.ret = 0 then Flow.fail else Flow.next, st')

/-- Lines 829-842 of `ProcessFile`: the internal sync calls that follow a
block of the first loop. -/
def internalSyncs (lib : Lib) (eng : Engine) (i type : Int) (st : FileState) :
    Option (Flow × FileState) :=
  if st.config.executefft = 0 then some (Flow.next, st) else
  (if type = eng.TYPE_INTERNAL_KNOWN then internalCall lib i 1 st
    else some (Flow.next, st)).bind fun r =>
  if r.1 ≠ Flow.next then some r else
  if type = eng.TYPE_INTERNAL_UNKNOWN then internalCall lib i 0 r.2 else some r

/-- Lines 811-812 and 918-919 of `ProcessFile`: `ProcessSamples` runs on the
16-bit view of the scratch buffer and on `Signal->Blocks[i]`; the block
result, the scratch buffer and the configuration are replaced by what it
leaves. -/
def samplesCall (lib : Lib) (eng : Engine) (i loadedBlockSize difference reverse : Int)
    (st : FileState) : Option (Flow × FileState) :=
  (getAt st.Signal.Blocks i).bind fun block =>
  (ProcessSamples lib eng block (asSamples st.buffer)
    (Int.tdiv (loadedBlockSize - difference) 2) st.Signal.header.fmt.SamplesPerSec
    st.windowUsed st.config reverse st.Signal).bind fun r =>
  (setAt st.Signal.Blocks i r.AudioArray).bind fun blocks =>
  let st' := { st with
    Signal := { st.Signal with Blocks := blocks },
    buffer := storeSamples st.buffer r.samples,
    config := r.config }
  some (if r.ret = 0 then Flow.fail else Flow.next, st')

/-- Lines 801-807 and 907-913 of `ProcessFile`: the scratch buffer is cleared,
the loop is left when the block would end past `DataSize`, otherwise the
block is copied into the scratch buffer. -/
def loadBlock (i : Int) (framerate : ℚ) (loadedBlockSize : Int) (st : FileState) :
    Option (Flow × FileState) :=
  (memset st.buffer 0 0 st.buffer.length).bind fun cleared =>
  let st := { st with buffer := cleared }
  if st.pos + loadedBlockSize > st.Signal.header.data.DataSize then some (Flow.stop, st) else
  (memRead st.Signal.Samples st.pos loadedBlockSize).bind fun block =>
  (memWrite st.buffer 0 block).bind fun filled =>
  some (Flow.next, { st with
    buffer := filled,
    copied := st.copied ++ [⟨i, framerate, st.pos, loadedBlockSize⟩] })

/-- The body of the first loop of `ProcessFile` (lines 779-844) for block `i`.
`wcfg` is the configuration the window manager was built with. -/
def forwardBlock (lib : Lib) (eng : Engine) (wcfg : parameters) (i : Int) (st : FileState) :
    Option (Flow × FileState) :=
  (getAt st.Signal.Blocks i).bind fun block =>
  let type := eng.GetBlockType st.config i
  (setAt st.Signal.Blocks i
    { block with index := eng.GetBlockSubIndex st.config i, type := type }).bind fun blocks =>
  let st := { st with Signal := { st.Signal with Blocks := blocks } }
  let framerate := blockFramerate st
  let frames := eng.GetBlockFrames st.config i
  let duration := lib.FramesToSeconds framerate frames
  let sized := eng.SecondsToBytesCarry st.Signal.header.fmt.SamplesPerSec duration
    st.Signal.AudioChannels st.carry
  let loadedBlockSize := sized.1
  let st := { st with carry := sized.2 }
  let difference := eng.GetByteSizeDifferenceByFrameRate framerate frames
    st.Signal.header.fmt.SamplesPerSec st.Signal.AudioChannels st.config
  let st := if type ≥ eng.TYPE_SILENCE then
    { st with
      windowUsed := eng.getWindowByLength st.Signal.header.fmt.SamplesPerSec
        wcfg.window wcfg frames st.Signal.framerate } else st
  (loadBlock i framerate loadedBlockSize st).bind fun loaded =>
  if loaded.1 ≠ Flow.next then some loaded else
  (if type ≥ eng.TYPE_SILENCE ∧ st.config.executefft ≠ 0
    then samplesCall lib eng i loadedBlockSize difference 0 loaded.2
    else some (Flow.next, loaded.2)).bind fun processed =>
  if processed.1 ≠ Flow.next then some processed else
  let st := processed.2
  if st.config.chunks ≠ 0 ∧ st.config.invert = 0 ∧ CreateChunksFolder eng st.config = 0 then
    some (Flow.fail, st) else
  let st := { st with pos := st.pos + loadedBlockSize + st.carry.2.1 }
  internalSyncs lib eng i type st

/-- Lines 852-861 of `ProcessFile`: the noise floor raises the significance
threshold. `CreateBaseName` composes file names, which are not part of the
state. -/
def ProcessFile_floor (eng : Engine) (Signal : AudioSignal) (config : parameters) :
    AudioSignal × parameters :=
  if Signal.hasFloor ≠ 0 ∧ config.ignoreFloor = 0 then
    let Signal := eng.FindFloor Signal config
    if Signal.floorAmplitude ≠ 0 ∧ Signal.floorAmplitude > config.significantAmplitude then
      (Signal, { config with significantAmplitude := Signal.floorAmplitude })
    else (Signal, config)
  else (Signal, config)

/-- Lines 847-868 of `ProcessFile`: normalisation, frequency brackets and
noise floor, when the transforms are enabled. -/
def ProcessFile_analysis (eng : Engine) (st : FileState) : FileState :=
  if st.config.executefft = 0 then st else
  let Signal := eng.GlobalNormalize st.Signal st.config
  let Signal := eng.CalcuateFrequencyBrackets Signal st.config
  let floor := ProcessFile_floor eng Signal st.config
  { st with Signal := floor.1, config := floor.2 }

/-- The body of the second loop of `ProcessFile` (lines 895-939) for block
`i`. -/
def reverseBlock (lib : Lib) (eng : Engine) (wcfg : parameters) (i : Int) (st : FileState) :
    Option (Flow × FileState) :=
  (getAt st.Signal.Blocks i).bind fun block =>
  let frames := eng.GetBlockFrames st.config i
  let duration := lib.FramesToSeconds st.Signal.framerate frames
  let st := if block.type ≥ eng.TYPE_SILENCE then
    { st with
      windowUsed := eng.getWindowByLength st.Signal.header.fmt.SamplesPerSec
        wcfg.window wcfg frames st.Signal.framerate } else st
  let sized := eng.SecondsToBytesCarry st.Signal.header.fmt.SamplesPerSec duration
    st.Signal.AudioChannels st.carry
  let loadedBlockSize := sized.1
  let st := { st with carry := sized.2 }
  let difference := eng.GetByteSizeDifferenceByFrameRate st.Signal.framerate frames
    st.Signal.header.fmt.SamplesPerSec st.Signal.AudioChannels st.config
  (loadBlock i st.Signal.framerate loadedBlockSize st).bind fun loaded =>
  if loaded.1 ≠ Flow.next then some loaded else
  (if block.type ≥ eng.TYPE_SILENCE then
    (samplesCall lib eng i loadedBlockSize difference 1 loaded.2).bind fun processed =>
    if processed.1 ≠ Flow.next then some processed else
    (memRead processed.2.buffer 0 loadedBlockSize).bind fun rebuilt =>
    (memWrite processed.2.Signal.Samples processed.2.pos rebuilt).bind fun stored =>
    some (Flow.next, { processed.2 with
      Signal := { processed.2.Signal with Samples := stored },
      written := processed.2.written ++
        [⟨RegionKind.rewrite, processed.2.pos, loadedBlockSize⟩] })
   else some (Flow.next, loaded.2)).bind fun rewritten =>
  if rewritten.1 ≠ Flow.next then some rewritten else
  let st := rewritten.2
  let st := { st with pos := st.pos + loadedBlockSize + st.carry.2.1 }
  if st.config.chunks ≠ 0 ∧ CreateChunksFolder eng st.config = 0 then some (Flow.fail, st) else
  some (Flow.next, st)

/-- Lines 878-965 of `ProcessFile`: the second loop over the blocks, the clear
of the rest of the sample buffer, and the write of the processed file. The
flow is `fail` when `ProcessFile` returns 0 from these lines. -/
def ProcessFile_reverse (lib : Lib) (eng : Engine) (wcfg : parameters) (st : FileState) :
    Option (Flow × FileState) :=
  if st.config.executefft = 0 then some (Flow.next, st) else
  let st := { st with pos := st.Signal.startOffset, carry := (0, 0, 0), copied := [] }
  (blocksLoop (reverseBlock lib eng wcfg) st.config.totalChunks.toNat 0 st).bind fun looped =>
  if looped.1 = Flow.fail then some looped else
  let st := looped.2
  (memset st.Signal.Samples st.pos 0 (st.Signal.header.data.DataSize - st.pos)).bind
    fun cleared =>
  let st := { st with
    Signal := { st.Signal with Samples := cleared },
    written := st.written ++
      [⟨RegionKind.clear, st.pos, st.Signal.header.data.DataSize - st.pos⟩] }
  if !eng.writeProcessed st.Signal st.config then some (Flow.fail, st) else
  some (Flow.next, st)

/-- The state of `ProcessFile` when its first loop starts (after line 775),
for a scratch buffer of `buffersize` bytes. -/
def ProcessFile_start (lib : Lib) (eng : Engine) (Signal : AudioSignal) (config : parameters)
    (buffersize : Int) : FileState where
  Signal := Signal
  config := eng.CompareFrameRates Signal.framerate (lib.GetMSPerFrame Signal config) config
  buffer := List.replicate buffersize.toNat 0
  windowUsed := none
  pos := Signal.startOffset
  syncinternal := 0
  syncAdvance := 0
  carry := (0, 0, 0)
  copied := []
  written := []

/-- What `ProcessFile` leaves behind: its return value and the final state. -/
structure FileResult where
  ret : Int
  state : FileState
deriving DecidableEq

/-- Embedding of `ProcessFile` (mdwave.c:737). -/
def ProcessFile (lib : Lib) (eng : Engine) (Signal : AudioSignal) (config : parameters) :
    Option FileResult :=
  let longest := lib.FramesToSeconds Signal.framerate (eng.GetLongestElementFrames config)
  let idle : FileState :=
    ⟨Signal, config, [], none, Signal.startOffset, 0, 0, (0, 0, 0), [], []⟩
  if longest = 0 then some ⟨0, idle⟩ else
  let buffersize := lib.SecondsToBytes Signal.header.fmt.SamplesPerSec longest
    Signal.AudioChannels
  if !lib.malloc buffersize then some ⟨0, idle⟩ else
  if !eng.initWindows Signal.header.fmt.SamplesPerSec config.window config then
    some ⟨0, idle⟩ else
  let st := ProcessFile_start lib eng Signal config buffersize
  (blocksLoop (forwardBlock lib eng config) st.config.totalChunks.toNat 0 st).bind
    fun looped =>
  if looped.1 = Flow.fail then some ⟨0, looped.2⟩ else
  let st := ProcessFile_analysis eng looped.2
  (ProcessFile_reverse lib eng config st).bind fun rebuilt =>
  if rebuilt.1 = Flow.fail then some ⟨0, rebuilt.2⟩ else
  some ⟨1, rebuilt.2⟩

/-! ## Concrete instances used to evaluate the code -/

/-- A concrete library. Frame durations are in milliseconds
(`FramesToSeconds f r = f * r / 1000`), and a duration is converted to whole
sample frames of two bytes per channel. Internal sync blocks last `frames`
frames, the sync tone lasts `syncLen` seconds, and the signal-start detector
reports a pulse that starts `pulse.1` bytes and ends `pulse.2` bytes after the
position it is given. Pulse-train detection reports the offsets `first` and `last`,
measures `measured` ms per frame against an expected `expected`, and the
timeline lasts `total` seconds. `sync` tells whether the profile defines the
two sync pulse trains. -/
def testLib (frames : Int) (syncLen : ℚ) (pulse : Int × Int) (first last : Int)
    (measured expected total : ℚ) (sync : Bool) : Lib where
  WAVE_FORMAT_PCM := 1
  INVALID_CHANNELS := -1
  NO_INDEX := -100
  malloc := fun n => decide (0 ≤ n)
  GetInternalSyncTotalLength := fun _ _ => frames
  GetInternalSyncTone := fun _ _ => 8820
  GetInternalSyncLen := fun _ _ => syncLen
  GetLastSyncElementIndex := fun _ => 1
  FramesToSeconds := fun f r => mkRat (f.num * r.num) (f.den * r.den * 1000)
  SecondsToBytes := fun rate s ch => 2 * ch * Int.tdiv (s.num * rate) s.den
  DetectSignalStart := fun _ _ pos _ _ => (pos + pulse.1, pos + pulse.2)
  DetectPulse := fun _ _ _ _ => first
  DetectEndPulse := fun _ _ _ _ _ => last
  GetMSPerFrame := fun _ _ => expected
  CalculateFrameRate := fun _ _ => measured
  GetSignalTotalDuration := fun _ _ => total
  GetFirstSyncIndex := fun _ => if sync then 0 else -100
  GetLastSyncIndex := fun _ => if sync then 1 else -100
  GetFirstSilenceIndex := fun _ => -100

/-- A concrete library whose pulse-train detectors keep `DetectorContract`:
the leading pulse train is found at the start of the buffer, the trailing one
at its end. Everything else is as in `testLib`, with a measured
and an expected frame duration of 100 ms. -/
def contractLib : Lib :=
  { testLib 1 0 (0, 0) 0 0 100 100 0 true with
    DetectPulse := fun _ _ _ _ => 0
    DetectEndPulse := fun s start _ _ _ => if start ≤ s.length then s.length else -1 }

/-- A mono 16-bit PCM header with the given sample rate and data size. -/
def testHeader (rate size : Nat) : wav_hdr :=
  ⟨⟨1, 1, rate, 16⟩, ⟨size⟩⟩

/-- A loaded mono signal with the given sample rate and sample bytes. -/
def testSignal (rate : Nat) (samples : List Int) : AudioSignal where
  header := testHeader rate samples.length
  AudioChannels := 1
  Samples := samples
  SamplesStart := 44
  startOffset := 0
  endOffset := samples.length
  framerate := 1000
  role := 1
  endHz := 20000
  nyquistLimit := 0
  hasFloor := 0
  SourceFile := ""
  floorAmplitude := 0
  MaxMagnitude := 0
  Blocks := []

/-- A signal that has not been loaded yet: no samples, and a channel count
that is still `INVALID_CHANNELS`. -/
def freshSignal (lib : Lib) : AudioSignal where
  header := ⟨⟨0, 0, 0, 0⟩, ⟨0⟩⟩
  AudioChannels := lib.INVALID_CHANNELS
  Samples := []
  SamplesStart := 0
  startOffset := 0
  endOffset := 0
  framerate := 0
  role := 1
  endHz := 20000
  nyquistLimit := 0
  hasFloor := 0
  SourceFile := ""
  floorAmplitude := 0
  MaxMagnitude := 0
  Blocks := []

/-- A configuration with a reference frame duration of 1000 ms. -/
def testConfig : parameters where
  startHz := 20
  endHz := 20000
  nyquistLimit := 0
  smallFile := 0
  ignoreFrameRateDiff := 0
  referenceFramerate := 1000
  verbose := 0
  clock := 0
  smallerFramerate := 0
  executefft := 1
  invert := 0
  chunks := 0
  ignoreFloor := 0
  significantAmplitude := -60
  channel := 's'
  window := 't'
  MaxFreq := 4
  ZeroPad := 0
  maxBlanked := 0
  model_plan := false
  reverse_plan := false
  totalChunks := 0

/-- A well-formed mono 16-bit PCM file with the given sample rate whose data
chunk holds the given bytes. -/
def testFile (rate : Nat) (samples : List Int) : WavFile where
  parsed := true
  header := testHeader rate samples.length
  dataStart := 44
  payload := samples

/-- The forward transform of a real signal of size 4, whose twiddle factors
are rational: the bins 0, 1 and 2. -/
def dft4 (x0 x1 x2 x3 : ℚ) : List (ℚ × ℚ) :=
  [(x0 + x1 + x2 + x3, 0), (x0 - x2, x3 - x1), (x0 - x1 + x2 - x3, 0)]

/-- The unnormalised backward transform of size 4 of the bins 0, 1 and 2. -/
def idft4 (X0 X1 X2 : ℚ × ℚ) : List ℚ :=
  [X0.1 + X2.1 + 2 * X1.1, X0.1 - X2.1 - 2 * X1.2, X0.1 + X2.1 - 2 * X1.1,
   X0.1 - X2.1 + 2 * X1.2]

/-- A concrete engine over a timeline of blocks given by their (type, frames).
Transforms of size 4 are the discrete Fourier transform, other sizes give a
zero spectrum and a zero signal. Magnitude and amplitude are rational
stand-ins, increasing in the size of the bin. A second is converted to whole
sample frames with no bytes discarded, zero padding is off, a window of ones
is returned unless the window kind is `n`, and the file system never fails. -/
def testEngine (timeline : List (Int × Int)) : Engine where
  TYPE_SILENCE := 0
  TYPE_INTERNAL_KNOWN := -2
  TYPE_INTERNAL_UNKNOWN := -3
  fftw_malloc := fun n => decide (0 ≤ n)
  fftw_plan_r2c := fun n => decide (0 < n)
  fftw_plan_c2r := fun n => decide (0 < n)
  fftw_execute_r2c := fun n x =>
    match x with
    | [x0, x1, x2, x3, _] => if n = 4 then dft4 x0 x1 x2 x3
        else List.replicate (Int.tdiv n 2 + 1).toNat (0, 0)
    | _ => List.replicate (Int.tdiv n 2 + 1).toNat (0, 0)
  fftw_execute_c2r := fun n X =>
    match X with
    | [X0, X1, X2] => if n = 4 then idft4 X0 X1 X2 ++ [0]
        else List.replicate (n + 1).toNat 0
    | _ => List.replicate (n + 1).toNat 0
  GetZeroPadValues := fun mono seconds _ => (0, mono, seconds)
  roundFloat := fun x => x
  CalculateMagnitude := fun z n => (|z.1| + |z.2|) / n
  CalculateAmplitude := fun m max => m - max
  FillFrequencyStructures := fun b _ => b
  GetLongestElementFrames := fun _ => (timeline.map Prod.snd).foldl max 0
  GetBlockFrames := fun _ i => (timeline.getD i.toNat (0, 0)).2
  GetBlockType := fun _ i => (timeline.getD i.toNat (0, 0)).1
  GetBlockSubIndex := fun _ i => i
  SecondsToBytesCarry := fun rate s ch _ => (2 * ch * Int.tdiv (s.num * rate) s.den, (0, 0, 0))
  GetByteSizeDifferenceByFrameRate := fun _ _ _ _ _ => 0
  initWindows := fun _ _ _ => true
  getWindowByLength := fun _ kind _ _ _ => if kind = 'n' then none else some (List.replicate 64 1)
  CompareFrameRates := fun a _ c => { c with smallerFramerate := a }
  GlobalNormalize := fun S _ => S
  CalcuateFrequencyBrackets := fun S _ => S
  FindFloor := fun S _ => S
  mkdirChunks := fun _ => true
  writeProcessed := fun _ _ => true

/-- The test configuration with the analysed range narrowed to 1 Hz - 2 Hz. -/
def narrowConfig : parameters :=
  { testConfig with startHz := 1, endHz := 2 }

/-- The extracted frequency entries of a block: the entries of its table, at
most `MaxFreq` of them, that come before the first entry with zero hertz. -/
def extractedEntries (AudioArray : AudioBlocks) (config : parameters) : List Frequency :=
  (AudioArray.freq.take config.MaxFreq.toNat).takeWhile fun f => decide (f.hertz ≠ 0)

/-- The cutoff as the specification words it: the maximum of the minimum
amplitude among the extracted entries, the significance threshold and, unless
the floor is ignored, the noise floor of a signal that has one. It is `none`
when no entry was extracted. -/
def statedCutOff (AudioArray : AudioBlocks) (config : parameters) (Signal : AudioSignal) :
    Option ℚ :=
  ((extractedEntries AudioArray config).map fun f => f.amplitude).min?.map fun m =>
    if config.ignoreFloor = 0 ∧ Signal.hasFloor ≠ 0
      then max (max m config.significantAmplitude) Signal.floorAmplitude
      else max m config.significantAmplitude

/-- A block whose frequency table holds one extracted entry, 1000 Hz at
-50 dBFS. -/
def toneBlock : AudioBlocks where
  index := 0
  type := 1
  freq := [⟨1000, -50⟩, ⟨0, 0⟩, ⟨0, 0⟩, ⟨0, 0⟩]
  spectrum := []
  size := 0
  seconds := 0

/-- A signal that has a floor block but whose floor amplitude was not found
(it is still 0). -/
def unflooredSignal : AudioSignal :=
  { testSignal 4 [] with hasFloor := 1, floorAmplitude := 0 }

/-- The test configuration with no window (`-w n`); the channel is the
default `s`. -/
def plainConfig : parameters :=
  { testConfig with window := 'n' }

/-- What `ProcessSamples` stores in a block: its frequency table, spectrum,
size and duration. -/
def blockResult (b : AudioBlocks) : List Frequency × List (ℚ × ℚ) × Int × ℚ :=
  (b.freq, b.spectrum, b.size, b.seconds)

/-- The value of `loadedBlockSize` for block `i` (lines 790-793 and 899-903 of
`ProcessFile`): the block's frames at the given frame rate, converted to
bytes with the carry of the blocks before it. -/
def blockSize (lib : Lib) (eng : Engine) (framerate : ℚ) (i : Int) (st : FileState) : Int :=
  (eng.SecondsToBytesCarry st.Signal.header.fmt.SamplesPerSec
    (lib.FramesToSeconds framerate (eng.GetBlockFrames st.config i))
    st.Signal.AudioChannels st.carry).1

/-- A byte index lies in a region of the sample buffer. -/
def Region.covers (reg : Region) (k : Nat) : Prop :=
  reg.start ≤ k ∧ (k : Int) < reg.start + reg.len

/-- The relation between a state of a loop of `ProcessFile` and a later state
of the same loop that the proofs carry through the loop: the header, the
frame rate and the reference frame rate are the same, the sample buffer has
the same length, the blocks copied since lie inside `[0, DataSize)` and were
measured with one of the two frame rates, and the sample buffer differs only
inside the ranges written since, none of which is the final clear. -/
structure Follows (st st' : FileState) : Prop where
  header : st'.Signal.header = st.Signal.header
  framerate : st'.Signal.framerate = st.Signal.framerate
  reference : st'.config.referenceFramerate = st.config.referenceFramerate
  length : st'.Signal.Samples.length = st.Signal.Samples.length
  copied : ∃ more, st'.copied = st.copied ++ more ∧
    ∀ c ∈ more, 0 ≤ c.pos ∧ 0 ≤ c.loadedBlockSize ∧
      c.pos + c.loadedBlockSize ≤ st.Signal.header.data.DataSize ∧
      (c.framerate = st.Signal.framerate ∨ c.framerate = st.config.referenceFramerate)
  written : ∃ added, st'.written = st.written ++ added ∧
    (∀ reg ∈ added, reg.kind ≠ RegionKind.clear) ∧
    ∀ k : Nat, (∀ reg ∈ added, ¬ reg.covers k) →
      st'.Signal.Samples[k]? = st.Signal.Samples[k]?

/-- A concrete library for runs of `ProcessFile`: as `testLib`, with an
expected frame duration of 1000 ms. -/
def fileLib : Lib :=
  testLib 1 0 (0, 0) 0 0 1000 1000 0 true

/-- A block that has not been processed. -/
def emptyBlock : AudioBlocks where
  index := 0
  type := 0
  freq := []
  spectrum := []
  size := 0
  seconds := 0

/-- A timeline of two content blocks of one frame each. At 4 samples per
second and 1000 ms per frame a block is 4 samples, 8 bytes of a mono signal. -/
def twoBlocks : Engine :=
  testEngine [(1, 1), (1, 1)]

/-- The test configuration for a timeline of two blocks. -/
def twoConfig : parameters :=
  { testConfig with totalChunks := 2 }

/-- A mono recording of 12 bytes at 4 samples per second: one and a half
blocks of the timeline `twoBlocks`. -/
def shortSignal : AudioSignal :=
  { testSignal 4 [1, 0, 2, 0, 3, 0, 4, 0, 5, 0, 6, 0] with
    Blocks := [emptyBlock, emptyBlock] }

/-- The first loop of `ProcessFile` on the short recording. -/
def shortRun : Option (Flow × FileState) :=
  blocksLoop (forwardBlock fileLib twoBlocks twoConfig) 2 0
    (ProcessFile_start fileLib twoBlocks shortSignal twoConfig 8)

/-- The state in which the first loop of `ProcessFile` starts on the short
recording, with a scratch buffer of 8 bytes. -/
def shortStart : FileState :=
  ProcessFile_start fileLib twoBlocks shortSignal twoConfig 8

/-- The flow and the state the first loop leaves on the short recording. -/
def shortStop : Flow × FileState :=
  shortRun.getD (Flow.fail, shortStart)

/-- Modelled from the spec: `GetLongestElementFrames` and `FramesToSeconds`
are part of `freq.c`, which is not among the sources. The longest element of
a timeline whose blocks all have zero frames has zero frames, and zero frames
last zero seconds at any frame rate. -/
def TimelineContract (lib : Lib) (eng : Engine) (config : parameters) : Prop :=
  ((∀ i : Int, 0 ≤ i → i < config.totalChunks → eng.GetBlockFrames config i = 0) →
    eng.GetLongestElementFrames config = 0) ∧
  ∀ framerate : ℚ, lib.FramesToSeconds framerate 0 = 0

/-- A timeline of two blocks that have no frames. -/
def emptyTimeline : Engine :=
  testEngine [(1, 0), (1, 0)]

/-- A timeline of an internal sync block of known length followed by a content
block, one frame each. -/
def syncTimeline : Engine :=
  testEngine [(-2, 1), (1, 1)]

/-- A mono recording of 16 bytes at 4 samples per second: the two blocks of
`syncTimeline`. -/
def syncSignal : AudioSignal :=
  { testSignal 4 [1, 0, 2, 0, 3, 0, 4, 0, 5, 0, 6, 0, 7, 0, 8, 0] with
    Blocks := [emptyBlock, emptyBlock] }

/-- The state in which the first loop of `ProcessFile` starts on `syncSignal`. -/
def syncStart : FileState :=
  ProcessFile_start fileLib syncTimeline syncSignal twoConfig 8

/-- The flow and the state the first loop leaves on `syncSignal`. -/
def syncStop : Flow × FileState :=
  (blocksLoop (forwardBlock fileLib syncTimeline twoConfig) 2 0 syncStart).getD
    (Flow.fail, syncStart)

/-- Modelled from the spec: `GlobalNormalize`, `CalcuateFrequencyBrackets` and
`FindFloor` are part of `freq.c`, which is not among the sources. They
compute per-signal scalars from the block results and leave the sample buffer
alone. -/
def AnalysisContract (eng : Engine) : Prop :=
  ∀ (S : AudioSignal) (c : parameters),
    (eng.GlobalNormalize S c).Samples = S.Samples ∧
    (eng.CalcuateFrequencyBrackets S c).Samples = S.Samples ∧
    (eng.FindFloor S c).Samples = S.Samples

/-- The value the loop at lines 1083-1105 of `ProcessSamples` reads into
`signal[i]` for frame `i`, before the window is applied: the left sample, the
right sample, or the mean of both. -/
def channelSample (channel : Char) (AudioChannels : Int) (samples : List Int) (i : Int) :
    Option ℚ :=
  if channel = 'l' then (getAt samples (i * AudioChannels)).map fun v => (v : ℚ)
  else if channel = 'r' then (getAt samples (i * 2 + 1)).map fun v => (v : ℚ)
  else
    (getAt samples (i * 2)).bind fun l =>
    (getAt samples (i * 2 + 1)).map fun r => ((l : ℚ) + (r : ℚ)) / 2

/-- The windowed input sample of frame `i`: `channelSample` times `window[i]`
when there is a window (lines 1103-1104 of `ProcessSamples`). -/
def windowedSample (channel : Char) (AudioChannels : Int) (window : Option (List ℚ))
    (samples : List Int) (i : Int) : Option ℚ :=
  (channelSample channel AudioChannels samples i).bind fun x =>
    match window with
    | some w => (getAt w i).map fun c => x * c
    | none => some x

/-- The stores of the write-back body (lines 1189-1204 and 1214-1229 of
`ProcessSamples`) for frame `i`, once the rounded value has been converted to
the 16-bit `v`. -/
def storeFrame (channel : Char) (AudioChannels : Int) (v : Int) (i : Int)
    (samples : List Int) : Option (List Int) := do
  let mut samples := samples
  if channel = 'l' then
    samples ← setAt samples (i * AudioChannels) v
    if AudioChannels = 2 then
      samples ← setAt samples (i * 2 + 1) 0
  if channel = 'r' then
    samples ← setAt samples (i * 2) 0
    samples ← setAt samples (i * 2 + 1) v
  if channel = 's' then
    samples ← setAt samples (i * 2) v
    samples ← setAt samples (i * 2 + 1) v
  return samples

/-- The channel the write-back arm of `ProcessSamples` tests: the local
`channel` with a window, `config->channel` without one. -/
def writeChannel (window : Option (List ℚ)) (config : parameters) (Signal : AudioSignal) :
    Char :=
  match window with
  | some _ => selectedChannel Signal config
  | none => config.channel

/-- Constants of `mdfourier.h`, which is not among the sources, that the
command line uses. -/
structure Limits where
  START_HZ : ℚ
  END_HZ : ℚ
  FREQ_COUNT : Int
  MAX_FREQ_COUNT : Int
  SIGNIFICANT_VOLUME : ℚ
deriving DecidableEq

/-- One result of `getopt`: the option character `c` it returns (`?` for an
unknown option or a missing argument), and its argument seen the three ways
the code reads it: `optarg[0]`, `atoi(optarg)` and `atof(optarg)`. -/
structure CliOption where
  c : Char
  first : Char
  asInt : Int
  asDouble : ℚ
deriving DecidableEq

/-- Embedding of `CleanParameters` (cline.c:69) on the fields of the model:
everything is zeroed by `memset` and the defaults are then stored. -/
def CleanParameters (lim : Limits) : parameters where
  startHz := lim.START_HZ
  endHz := lim.END_HZ
  nyquistLimit := 0
  smallFile := 0
  ignoreFrameRateDiff := 0
  referenceFramerate := 0
  verbose := 0
  clock := 0
  smallerFramerate := 0
  executefft := 0
  invert := 0
  chunks := 0
  ignoreFloor := 0
  significantAmplitude := 0
  channel := 's'
  window := 't'
  MaxFreq := lim.FREQ_COUNT
  ZeroPad := 0
  maxBlanked := 0
  model_plan := false
  reverse_plan := false
  totalChunks := 0

/-- The variables the option loop of `commandline_wave` works on: the
configuration, the local `ref`, and whether `EnableLog` was called. -/
structure WaveState where
  config : parameters
  ref : Int
  log : Bool
deriving DecidableEq

/-- The body of the `switch` of `commandline_wave` (mdwave.c:1261-1385) for one
option: whether the loop goes on (`false` stands for `return 0`) and the
state. The options `b`, `y`, `Y`, `P`, `B` and `C` store into fields that are
not part of the model; `r` also stores the file name. An option character
with no `case` falls to `default`. -/
def waveOption (lim : Limits) (o : CliOption) (st : WaveState) : Bool × WaveState :=
  let config := st.config
  if o.c = 'h' then (false, st)
  else if o.c = 'b' then (true, st)
  else if o.c = 'n' then (true, { st with config := { config with executefft := 0 } })
  else if o.c = 'v' then (true, { st with config := { config with verbose := 1 } })
  else if o.c = 'c' then (true, { st with config := { config with chunks := 1 } })
  else if o.c = 'k' then (true, { st with config := { config with clock := 1 } })
  else if o.c = 'l' then (true, { st with log := true })
  else if o.c = 'z' then (true, { st with config := { config with ZeroPad := 1 } })
  else if o.c = 'i' then (true, { st with config := { config with ignoreFloor := 1 } })
  else if o.c = 'y' then (true, st)
  else if o.c = 's' then
    let startHz : ℚ := (o.asInt : ℚ)
    let startHz := if startHz < 1 ∨ startHz > lim.END_HZ - 100 then lim.START_HZ else startHz
    (true, { st with config := { config with startHz := startHz } })
  else if o.c = 'e' then
    let endHz := o.asDouble
    let endHz := if endHz < lim.START_HZ * 2 ∨ endHz > lim.END_HZ then lim.END_HZ else endHz
    (true, { st with config := { config with endHz := endHz } })
  else if o.c = 'f' then
    let MaxFreq := o.asInt
    let MaxFreq := if MaxFreq < 1 ∨ MaxFreq > lim.MAX_FREQ_COUNT then lim.MAX_FREQ_COUNT
      else MaxFreq
    (true, { st with config := { config with MaxFreq := MaxFreq } })
  else if o.c = 'p' then
    let amplitude := o.asDouble
    let amplitude := if amplitude ≤ -120 ∨ amplitude ≥ -1 then lim.SIGNIFICANT_VOLUME
      else amplitude
    (true, { st with config := { config with significantAmplitude := amplitude } })
  else if o.c = 'Y' then (true, st)
  else if o.c = 'a' then
    if o.first = 'l' ∨ o.first = 'r' ∨ o.first = 's' then
      (true, { st with config := { config with channel := o.first } })
    else (false, st)
  else if o.c = 'w' then
    if o.first = 'n' ∨ o.first = 'f' ∨ o.first = 'h' ∨ o.first = 't' then
      (true, { st with config := { config with window := o.first } })
    else (false, st)
  else if o.c = 'r' then (true, { st with ref := 1 })
  else if o.c = 'P' then (true, st)
  else if o.c = 'B' then (true, st)
  else if o.c = 'C' then (true, st)
  else if o.c = 'I' then
    (true, { st with config := { config with ignoreFrameRateDiff := 1 } })
  else (false, st)

/-- The `while` loop over the options of `commandline_wave`: it ends at the
first option that returns 0. -/
def waveOptions (lim : Limits) : List CliOption → WaveState → Bool × WaveState
  | [], st => (true, st)
  | o :: rest, st =>
    if (waveOption lim o st).1 then waveOptions lim rest (waveOption lim o st).2
    else (false, (waveOption lim o st).2)

/-- Embedding of `commandline_wave` (mdwave.c:1243): the return value and the
configuration it leaves. `options` are the results of `getopt` in order,
`extra` is the number of arguments left after the options, `opens` tells
whether the reference file can be opened and `logOpens` whether the log file
can be. -/
def commandline_wave (lim : Limits) (options : List CliOption) (extra : Nat)
    (opens logOpens : Bool) : Int × parameters :=
  let config := { CleanParameters lim with
    maxBlanked := 0, invert := 0, chunks := 0, executefft := 1 }
  let parsed := waveOptions lim options ⟨config, 0, false⟩
  let config := parsed.2.config
  if !parsed.1 then (0, config)
  else if extra ≠ 0 then (0, config)
  else if parsed.2.ref = 0 then (0, config)
  else if config.endHz ≤ config.startHz then (0, config)
  else if !opens then (0, config)
  else if parsed.2.log ∧ !logOpens then (0, config)
  else (1, config)

/-- The constants as the defaults of the test configuration have them. -/
def testLimits : Limits where
  START_HZ := 20
  END_HZ := 20000
  FREQ_COUNT := 2000
  MAX_FREQ_COUNT := 40000
  SIGNIFICANT_VOLUME := -60

/-- The option `-r` with a file name. -/
def optReference : CliOption :=
  ⟨'r', 'a', 0, 0⟩

/-- The option `-w` with the window kind `kind`. -/
def optWindow (kind : Char) : CliOption :=
  ⟨'w', kind, 0, 0⟩

/-- The option `-s` with a whole number of hertz. -/
def optStart (hz : Int) : CliOption :=
  ⟨'s', '0', hz, hz⟩

/-- A timeline of one content block of one frame whose byte conversion
discards two bytes after the block (`discardBytes = 2`). -/
def discardEngine : Engine :=
  { testEngine [(1, 1)] with
    SecondsToBytesCarry := fun rate s ch _ =>
      (2 * ch * Int.tdiv (s.num * rate) s.den, (0, 2, 0)) }

/-- The test configuration for a timeline of one block. -/
def oneConfig : parameters :=
  { testConfig with totalChunks := 1 }

/-- A mono recording of 8 bytes at 4 samples per second: exactly the block of
the timeline `discardEngine`. -/
def exactSignal : AudioSignal :=
  { testSignal 4 [1, 0, 2, 0, 3, 0, 4, 0] with Blocks := [emptyBlock] }

/-- The structure `AveragedFrequencies` of `plot.h`. -/
structure AveragedFrequencies where
  avgfreq : ℚ
  avgvol : ℚ
deriving DecidableEq

/-- The variables of the loop of `movingAverage`: the circular `periodArray`,
`current_index`, the output array `averages` and the output count `pos`. -/
structure AverageState where
  periodArray : List AveragedFrequencies
  current_index : Int
  averages : List AveragedFrequencies
  pos : Int
deriving DecidableEq

/-- The body of the inner loop of `movingAverage` (plot.c:1568-1572):
`periodArray[j]` is added to `ma`. -/
def sumPeriod (periodArray : List AveragedFrequencies) (j : Int) (ma : AveragedFrequencies) :
    Option AveragedFrequencies :=
  (getAt periodArray j).map fun p => ⟨ma.avgfreq + p.avgfreq, ma.avgvol + p.avgvol⟩

/-- The body of the loop of `movingAverage` (plot.c:1560-1576) for the element
`i`. The remainder by a zero `period` is undefined. -/
def averageStep (data : List AveragedFrequencies) (period : Int) (i : Int)
    (st : AverageState) : Option AverageState :=
  (getAt data i).bind fun d =>
  (setAt st.periodArray st.current_index
    ⟨d.avgfreq / (period : ℚ), d.avgvol / (period : ℚ)⟩).bind fun periodArray =>
  (loopFrom (sumPeriod periodArray) period.toNat 0 ⟨0, 0⟩).bind fun ma =>
  (if i ≥ period then (setAt st.averages st.pos ma).map fun averages => (averages, st.pos + 1)
    else some (st.averages, st.pos)).bind fun out =>
  if period = 0 then none
  else some ⟨periodArray, Int.tmod (st.current_index + 1) period, out.1, out.2⟩

/-- Embedding of `movingAverage` (plot.c:1549): the return value and the array
`averages`. `malloc n` tells whether the allocation of `n` bytes succeeds; an
entry of `periodArray` takes 16 bytes. -/
def movingAverage (malloc : Int → Bool) (data averages : List AveragedFrequencies)
    (size period : Int) : Option (Int × List AveragedFrequencies) :=
  if !malloc (16 * period) then some (0, averages) else
  (loopFrom (averageStep data period) size.toNat 0
    ⟨List.replicate period.toNat ⟨0, 0⟩, 0, averages, 0⟩).map fun st => (st.pos, st.averages)

/-- The arithmetic mean, in both fields, of the `period` consecutive elements
`data[k+1] .. data[k+period]`, as the claim on `movingAverage` words it. -/
def windowMean (data : List AveragedFrequencies) (period : Int) (k : Nat) :
    AveragedFrequencies :=
  ⟨(((data.drop (k + 1)).take period.toNat).map fun d => d.avgfreq).sum / (period : ℚ),
   (((data.drop (k + 1)).take period.toNat).map fun d => d.avgvol).sum / (period : ℚ)⟩

/-- The structure `FlatFrequency` of `plot.h`. -/
structure FlatFrequency where
  hertz : ℚ
  amplitude : ℚ
  type : Int
  color : Int
deriving DecidableEq

/-- What an `InsertElementInPlace` call leaves behind: its return value, the
array, and whether the warning `No match found` was logged. -/
structure InsertResult where
  ret : Int
  Freqs : List FlatFrequency
  warned : Bool
deriving DecidableEq

/-- The loop `for(k = currentsize; k > j; k--) Freqs[k] = Freqs[k - 1]` of
`InsertElementInPlace` (plot.c:1404-1405), with `n` iterations left at `k`. -/
def shiftLoop : Nat → Int → List FlatFrequency → Option (List FlatFrequency)
  | 0, _, Freqs => some Freqs
  | n + 1, k, Freqs =>
    (getAt Freqs (k - 1)).bind fun v =>
    (setAt Freqs k v).bind (shiftLoop n (k - 1))

/-- The search loop of `InsertElementInPlace` (plot.c:1391-1410), with `n`
iterations left at `j`; when the loop runs out the warning is logged and 0 is
returned. -/
def insertLoop (Element : FlatFrequency) (currentsize : Int) :
    Nat → Int → List FlatFrequency → Option InsertResult
  | 0, _, Freqs => some ⟨0, Freqs, true⟩
  | n + 1, j, Freqs =>
    (getAt Freqs j).bind fun f =>
    if Element.type = f.type ∧ Element.hertz = f.hertz then
      if f.amplitude > Element.amplitude then some ⟨0, Freqs, false⟩
      else (setAt Freqs j { f with amplitude := Element.amplitude }).map fun Freqs =>
        ⟨0, Freqs, false⟩
    else if Element.hertz > f.hertz then
      (shiftLoop (currentsize - j).toNat currentsize Freqs).bind fun Freqs =>
      (setAt Freqs j Element).map fun Freqs => ⟨1, Freqs, false⟩
    else insertLoop Element currentsize n (j + 1) Freqs

/-- Embedding of `InsertElementInPlace` (plot.c:1377). `Freqs` is the whole
allocated array, of which the first `currentsize` entries are in use. -/
def InsertElementInPlace (Freqs : List FlatFrequency) (Element : FlatFrequency)
    (currentsize : Int) : Option InsertResult :=
  if currentsize = 0 then (setAt Freqs 0 Element).map fun Freqs => ⟨1, Freqs, false⟩
  else
    (getAt Freqs (currentsize - 1)).bind fun last =>
    if last.hertz ≥ Element.hertz then
      (setAt Freqs currentsize Element).map fun Freqs => ⟨1, Freqs, false⟩
    else insertLoop Element currentsize currentsize.toNat 0 Freqs

/-- The first `n` entries of an array are in non-increasing order of `hertz`. -/
def Descending (Freqs : List FlatFrequency) (n : Nat) : Prop :=
  ∀ (a b : Nat) (fa fb : FlatFrequency), a ≤ b → b < n →
    Freqs[a]? = some fa → Freqs[b]? = some fb → fb.hertz ≤ fa.hertz

/-- State of the loop of `movingAverage` before element `i` is processed, for a
period `p` of at least one: the circular buffer holds the scaled values of the
last `p` elements (zero where fewer were read), the outputs already written are
the window means, and the rest of `averages` is as it was on entry. -/
structure AverageInv (data averages0 : List AveragedFrequencies) (p i : Nat)
    (st : AverageState) : Prop where
  len : st.periodArray.length = p
  idx : st.current_index = ((i % p : Nat) : Int)
  recent : ∀ (m : Nat) (d : AveragedFrequencies), m < i → i ≤ m + p → data[m]? = some d →
    st.periodArray[m % p]? = some ⟨d.avgfreq / ((p : Int) : ℚ), d.avgvol / ((p : Int) : ℚ)⟩
  fresh : ∀ j : Nat, i ≤ j → j < p → st.periodArray[j]? = some ⟨0, 0⟩
  sumf : (st.periodArray.map fun d => d.avgfreq).sum =
    (((data.take i).drop (i - p)).map fun d => d.avgfreq / ((p : Int) : ℚ)).sum
  sumv : (st.periodArray.map fun d => d.avgvol).sum =
    (((data.take i).drop (i - p)).map fun d => d.avgvol / ((p : Int) : ℚ)).sum
  pos : st.pos = ((i - p : Nat) : Int)
  alen : st.averages.length = averages0.length
  done : ∀ k : Nat, k < i - p → st.averages[k]? = some (windowMean data (p : Int) k)
  rest : ∀ k : Nat, i - p ≤ k → st.averages[k]? = averages0[k]?

/-- Four measurements whose first one, `(100, 1)`, is far from the others. -/
def testData : List AveragedFrequencies := [⟨100, 1⟩, ⟨2, 4⟩, ⟨4, 8⟩, ⟨6, 12⟩]

/-- The array `F` is `Freqs` with `Element` put in at index `j` of its first `n`
entries: the entries before `j` stay, those at `j .. n-1` move up by one, and
the entries past `n` stay. -/
def InsertedAt (Freqs F : List FlatFrequency) (Element : FlatFrequency) (n j : Nat) : Prop :=
  ∀ k : Nat, F[k]? =
    if k < j then Freqs[k]? else if k = j then some Element
    else if k ≤ n then Freqs[k - 1]? else Freqs[k]?

/-- An array of four slots that holds the frequencies 300, 200 and 100 Hz. -/
def testFreqs : List FlatFrequency :=
  [⟨300, -10, 1, 0⟩, ⟨200, -20, 1, 0⟩, ⟨100, -30, 1, 0⟩, ⟨0, 0, 0, 0⟩]

/-- The two outcomes of `InsertElementInPlace` on an array whose first `n`
entries are ordered: either 1 is returned and the element was put in at some
index, the first `n + 1` entries being ordered, or 0 is returned and an entry
of the same type and frequency took the larger of the two amplitudes. The
warning is logged in neither. -/
def InsertOutcome (Freqs : List FlatFrequency) (Element : FlatFrequency) (n : Nat)
    (r : InsertResult) : Prop :=
  r.warned = false ∧ r.Freqs.length = Freqs.length ∧
    ((r.ret = 1 ∧ Descending r.Freqs (n + 1) ∧
        ∃ j : Nat, j ≤ n ∧ InsertedAt Freqs r.Freqs Element n j) ∨
      (r.ret = 0 ∧ Descending r.Freqs n ∧
        ∃ (j : Nat) (f : FlatFrequency), j < n ∧ Freqs[j]? = some f ∧
          Element.type = f.type ∧ Element.hertz = f.hertz ∧
          r.Freqs = Freqs.set j { f with amplitude := max f.amplitude Element.amplitude }))

/-- The accumulators (`leftover`, `discardBytes`, `leftDecimals`) that
`SecondsToBytes` leaves when it computes `loadedBlockSize` for block `i`
(lines 793 and 903 of `ProcessFile`). -/
def blockCarry (lib : Lib) (eng : Engine) (framerate : ℚ) (i : Int) (st : FileState) :
    Int × Int × ℚ :=
  (eng.SecondsToBytesCarry st.Signal.header.fmt.SamplesPerSec
    (lib.FramesToSeconds framerate (eng.GetBlockFrames st.config i))
    st.Signal.AudioChannels st.carry).2

/-- The state in which the first loop of `ProcessFile` starts, with the
scratch buffer sized for the longest element of the timeline (lines 756-775). -/
def forwardStart (lib : Lib) (eng : Engine) (Signal : AudioSignal) (config : parameters) :
    FileState :=
  ProcessFile_start lib eng Signal config
    (lib.SecondsToBytes Signal.header.fmt.SamplesPerSec
      (lib.FramesToSeconds Signal.framerate (eng.GetLongestElementFrames config))
      Signal.AudioChannels)

/-- The flow and the state the first loop of `ProcessFile` ends with (lines
777-845). -/
def forwardLoop (lib : Lib) (eng : Engine) (Signal : AudioSignal) (config : parameters) :
    Option (Flow × FileState) :=
  blocksLoop (forwardBlock lib eng config)
    (forwardStart lib eng Signal config).config.totalChunks.toNat 0
    (forwardStart lib eng Signal config)

/-- The state in which the second loop of `ProcessFile` starts (lines 847-891),
from the state the first loop left: the analysis is done, the position is
back at the start offset and the accumulators are cleared. -/
def reverseStart (eng : Engine) (st : FileState) : FileState :=
  { ProcessFile_analysis eng st with
    pos := (ProcessFile_analysis eng st).Signal.startOffset, carry := (0, 0, 0), copied := [] }

/-- The flow and the state the second loop of `ProcessFile` ends with (lines
893-940), from the state the first loop left. -/
def reverseLoop (lib : Lib) (eng : Engine) (config : parameters) (st : FileState) :
    Option (Flow × FileState) :=
  blocksLoop (reverseBlock lib eng config) (reverseStart eng st).config.totalChunks.toNat 0
    (reverseStart eng st)

/-- What `ExecuteMDWave` uses besides `LoadFile` and `ProcessFile`, and that is
not among the sources or not part of the model.

* `reference` is the stream `fopen` returns for `config->referenceFile`, after
  the FLAC decoding when the name is that of a FLAC file: `none` when the
  decoding fails or `fopen` returns NULL; `referenceFile` is that name.
* `CreateAudioSignal config` is the allocated signal, `none` for NULL.
* `role config` is `ROLE_REF` or `ROLE_COMP` as `config->useCompProfile` says.
* `CheckBalance` receives pointers to the signal and to the configuration and
  returns what it leaves in both. -/
structure Host where
  reference : Option WavFile
  referenceFile : String
  CreateAudioSignal : parameters → Option AudioSignal
  role : parameters → Int
  GetFirstMonoIndex : parameters → Int
  CheckBalance : AudioSignal → Int → parameters → AudioSignal × parameters

/-- How `ExecuteMDWave` reaches line 200: it has returned 1, or it calls
`ProcessFile` with a signal and a configuration. -/
inductive Prepared where
  | failed
  | ready (Signal : AudioSignal) (config : parameters)
deriving DecidableEq

/-- Lines 103-198 of `ExecuteMDWave`: the reference file is opened and loaded,
the reference and the smaller frame rate of the configuration are set to the
frame rate of the loaded signal, and the stereo balance is checked. -/
def ExecuteMDWave_load (lib : Lib) (host : Host) (config : parameters) (invert : Int) :
    Prepared :=
  let config := if invert ≠ 0 then { config with invert := 1 } else config
  match host.reference with
  | none => .failed
  | some reference =>
    match host.CreateAudioSignal config with
    | none => .failed
    | some ReferenceSignal =>
      let ReferenceSignal := { ReferenceSignal with role := host.role config }
      let loaded := LoadFile lib (some reference) ReferenceSignal config host.referenceFile
      if loaded.ret = 0 then .failed else
      let ReferenceSignal := loaded.Signal
      let config := { loaded.config with
        referenceFramerate := ReferenceSignal.framerate,
        smallerFramerate := ReferenceSignal.framerate }
      if config.channel = 's' ∧ host.GetFirstMonoIndex config ≠ lib.NO_INDEX then
        .ready (host.CheckBalance ReferenceSignal (host.GetFirstMonoIndex config) config).1
          (host.CheckBalance ReferenceSignal (host.GetFirstMonoIndex config) config).2
      else .ready ReferenceSignal config

/-- Embedding of `ExecuteMDWave` (mdwave.c:103): its return value, 0 when
`ProcessFile` succeeds. -/
def ExecuteMDWave (lib : Lib) (eng : Engine) (host : Host) (config : parameters)
    (invert : Int) : Option Int :=
  match ExecuteMDWave_load lib host config invert with
  | .failed => some 1
  | .ready Signal config =>
    (ProcessFile lib eng Signal config).map fun r => if r.ret = 0 then 1 else 0

/-- A host whose reference file holds the 16 bytes of `syncSignal` at 4
samples per second, with no mono block for the balance check. -/
def testHost : Host where
  reference := some (testFile 4 [1, 0, 2, 0, 3, 0, 4, 0, 5, 0, 6, 0, 7, 0, 8, 0])
  referenceFile := "ref.wav"
  CreateAudioSignal := fun _ => some { freshSignal fileLib with Blocks := [emptyBlock, emptyBlock] }
  role := fun _ => 1
  GetFirstMonoIndex := fun _ => -100
  CheckBalance := fun S _ c => (S, c)

/-- A configuration for a timeline of two blocks whose reference frame rate
has not been set. -/
def unsetConfig : parameters :=
  { testConfig with totalChunks := 2, referenceFramerate := 0 }

/-- The signal `ExecuteMDWave` hands to `ProcessFile` for `testHost`. -/
def hostSignal : AudioSignal :=
  match ExecuteMDWave_load fileLib testHost unsetConfig 0 with
  | .failed => freshSignal fileLib
  | .ready Signal _ => Signal

/-- The configuration `ExecuteMDWave` hands to `ProcessFile` for `testHost`. -/
def hostConfig : parameters :=
  match ExecuteMDWave_load fileLib testHost unsetConfig 0 with
  | .failed => unsetConfig
  | .ready _ config => config

/-- The 16-bit value the write-back body of `ProcessSamples` stores for frame
`i` (lines 1188-1203 and 1212-1228): `round(signal[i]/monoSignalSize)`
converted to `int16_t`. -/
def writtenValue (monoSignalSize : Int) (signal : List ℚ) (i : Int) : Option Int :=
  (getAt signal i).bind fun x => toInt16 (round (x / (monoSignalSize : ℚ)))

/-- A transform pair as that of `testEngine`, except that every sample of the
backward transform comes out `2^-38` too low: a transform computed in
floating point returns the input only up to rounding errors. -/
def driftEngine : Engine :=
  { testEngine [] with
    fftw_execute_c2r := fun n spectrum =>
      ((testEngine []).fftw_execute_c2r n spectrum).map fun y => y - 1 / 2 ^ 38 }

/-- The range `reg` is one that an internal sync realignment of block `i` of
the first loop of `ProcessFile` writes, `st` being the state in which the loop
reached the block: `ProcessInternal` was called with the flag clear, at the
position that follows the block, on a signal that differs from the one of
`st` in the block results and the samples only, it returned non-zero, and
`reg` is one of the ranges it zeroed or copied to. -/
def SpliceOf (lib : Lib) (eng : Engine) (i : Int) (st : FileState) (reg : Region) : Prop :=
  ∃ (S : AudioSignal) (cfg : parameters) (adv known : Int) (res : InternalResult),
    S = { st.Signal with Blocks := S.Blocks, Samples := S.Samples } ∧
    ProcessInternal lib S i
      (st.pos + blockSize lib eng (blockFramerate st) i st +
        (blockCarry lib eng (blockFramerate st) i st).2.1) 0 adv known cfg = some res ∧
    res.ret ≠ 0 ∧
    reg ∈ spliceRegions lib S i
      (st.pos + blockSize lib eng (blockFramerate st) i st +
        (blockCarry lib eng (blockFramerate st) i st).2.1) known cfg

/-- A library that measures the double nearest to 1.02, which is slightly
above it, against an expected frame duration of 1. -/
def roundingLib : Lib :=
  testLib 1 0 (0, 0) 0 8 (2296835809958953 / 2251799813685248) 1 0 true

/-- A library that measures 14.311545869839478 against an expected frame
duration of 14.030927323372037, both doubles. -/
def roundingLib2 : Lib :=
  testLib 1 0 (0, 0) 0 8 (503542755050819 / 35184372088832)
    (3949354941575051 / 281474976710656) 0 true

/-! ## Lemmas on the memory primitives -/

theorem memRead_length {buf d : List Int} {src n : Int}
    (h : memRead buf src n = some d) : (d.length : Int) = n := by
  unfold memRead at h
  split at h
  · rename_i hb
    simp only [Option.some.injEq] at h
    subst h
    simp only [List.length_take, List.length_drop]
    omega
  · simp at h

theorem memRead_bounds {buf d : List Int} {src n : Int}
    (h : memRead buf src n = some d) : 0 ≤ src ∧ 0 ≤ n ∧ src + n ≤ buf.length := by
  unfold memRead at h
  split at h
  · assumption
  · simp at h

theorem memRead_get {buf d : List Int} {src n : Int}
    (h : memRead buf src n = some d) (j : Nat) (hj : (j : Int) < n) :
    d[j]? = buf[src.toNat + j]? := by
  unfold memRead at h
  split at h
  · simp only [Option.some.injEq] at h
    subst h
    rw [List.getElem?_take_of_lt (by omega), List.getElem?_drop]
  · simp at h

theorem memWrite_bounds {buf b : List Int} {dst : Int} {data : List Int}
    (h : memWrite buf dst data = some b) : 0 ≤ dst ∧ dst + data.length ≤ buf.length := by
  unfold memWrite at h
  split at h
  · assumption
  · simp at h

theorem memWrite_length {buf b : List Int} {dst : Int} {data : List Int}
    (h : memWrite buf dst data = some b) : b.length = buf.length := by
  unfold memWrite at h
  split at h
  · rename_i hb
    simp only [Option.some.injEq] at h
    subst h
    simp only [List.length_append, List.length_take, List.length_drop]
    omega
  · simp at h

theorem memWrite_get {buf b : List Int} {dst : Int} {data : List Int}
    (h : memWrite buf dst data = some b) (i : Nat) :
    b[i]? = if i < dst.toNat then buf[i]?
      else if i < dst.toNat + data.length then data[i - dst.toNat]? else buf[i]? := by
  unfold memWrite at h
  split at h
  · rename_i hb
    simp only [Option.some.injEq] at h
    subst h
    have hlen : (List.take dst.toNat buf).length = dst.toNat := by
      simp only [List.length_take]; omega
    by_cases h1 : i < dst.toNat
    · rw [if_pos h1, List.append_assoc, List.getElem?_append_left (by omega),
        List.getElem?_take_of_lt h1]
    · rw [if_neg h1, List.append_assoc, List.getElem?_append_right (by omega), hlen]
      by_cases h2 : i < dst.toNat + data.length
      · rw [if_pos h2, List.getElem?_append_left (by omega)]
      · rw [if_neg h2, List.getElem?_append_right (by omega), List.getElem?_drop]
        congr 1
        omega
  · simp at h

theorem memset_bounds {buf b : List Int} {dst c n : Int}
    (h : memset buf dst c n = some b) : 0 ≤ dst ∧ 0 ≤ n ∧ dst + n ≤ buf.length := by
  unfold memset at h
  split at h
  · have := memWrite_bounds h
    simp only [List.length_replicate] at this
    omega
  · simp at h

theorem memset_length {buf b : List Int} {dst c n : Int}
    (h : memset buf dst c n = some b) : b.length = buf.length := by
  unfold memset at h
  split at h
  · exact memWrite_length h
  · simp at h

theorem memset_get {buf b : List Int} {dst c n : Int}
    (h : memset buf dst c n = some b) (i : Nat) :
    b[i]? = if dst.toNat ≤ i ∧ i < dst.toNat + n.toNat then some c else buf[i]? := by
  have hb := memset_bounds h
  unfold memset at h
  split at h
  · rw [memWrite_get h i]
    simp only [List.length_replicate, List.getElem?_replicate]
    by_cases h1 : i < dst.toNat
    · rw [if_pos h1, if_neg (by omega)]
    · rw [if_neg h1]
      by_cases h2 : i < dst.toNat + n.toNat
      · rw [if_pos h2, if_pos (by omega), if_pos (by omega)]
      · rw [if_neg h2, if_neg (by omega)]
  · simp at h

/-! ## Lemmas on the block moves -/

theorem MoveSampleBlockInternal_eq (lib : Lib) (S : AudioSignal)
    (element pos skip : Int) (config : parameters) :
    MoveSampleBlockInternal lib S element pos skip config =
      if lib.GetInternalSyncTotalLength element config = 0 then some (0, S)
      else if blockBytes lib S element pos config ≤ skip then some (0, S)
      else if !lib.malloc (blockBytes lib S element pos config - skip) then some (0, S)
      else
        (memRead S.Samples (pos + skip) (blockBytes lib S element pos config - skip)).bind
          fun tmp =>
        (memset S.Samples pos 0 (blockBytes lib S element pos config)).bind fun zeroed =>
        (memWrite zeroed pos tmp).bind fun stored =>
        some (1, { S with Samples := stored }) := rfl

theorem MoveSampleBlockInternal_inv {lib : Lib} {S S' : AudioSignal}
    {element pos skip : Int} {config : parameters}
    (h : MoveSampleBlockInternal lib S element pos skip config = some (1, S')) :
    skip < blockBytes lib S element pos config ∧
    ∃ tmp zeroed stored,
      memRead S.Samples (pos + skip) (blockBytes lib S element pos config - skip) = some tmp ∧
      memset S.Samples pos 0 (blockBytes lib S element pos config) = some zeroed ∧
      memWrite zeroed pos tmp = some stored ∧
      S' = { S with Samples := stored } := by
  rw [MoveSampleBlockInternal_eq] at h
  split at h
  · simp at h
  · split at h
    · simp at h
    · rename_i hlt
      split at h
      · simp at h
      · simp only [Option.bind_eq_some, Option.some.injEq, Prod.mk.injEq, true_and] at h
        obtain ⟨tmp, h1, zeroed, h2, stored, h3, h4⟩ := h
        exact ⟨not_le.mp hlt, tmp, zeroed, stored, h1, h2, h3, h4.symm⟩

theorem MoveSampleBlockExternal_eq (lib : Lib) (S : AudioSignal)
    (element pos skip padding : Int) (config : parameters) :
    MoveSampleBlockExternal lib S element pos skip padding config =
      if lib.GetInternalSyncTotalLength element config = 0 then some (0, S)
      else if blockBytes lib S element pos config ≤ skip then some (0, S)
      else if !lib.malloc (movedBytes lib S element pos skip padding config) then some (0, S)
      else
        (memRead S.Samples (pos + skip)
          (movedBytes lib S element pos skip padding config)).bind fun tmp =>
        (memset S.Samples (pos + skip) 0
          (movedBytes lib S element pos skip padding config)).bind fun zeroed =>
        (memWrite zeroed pos tmp).bind fun stored =>
        some (1, { S with Samples := stored }) := rfl

theorem MoveSampleBlockExternal_inv {lib : Lib} {S S' : AudioSignal}
    {element pos skip padding : Int} {config : parameters}
    (h : MoveSampleBlockExternal lib S element pos skip padding config = some (1, S')) :
    skip < blockBytes lib S element pos config ∧
    ∃ tmp zeroed stored,
      memRead S.Samples (pos + skip)
        (movedBytes lib S element pos skip padding config) = some tmp ∧
      memset S.Samples (pos + skip) 0
        (movedBytes lib S element pos skip padding config) = some zeroed ∧
      memWrite zeroed pos tmp = some stored ∧
      S' = { S with Samples := stored } := by
  rw [MoveSampleBlockExternal_eq] at h
  split at h
  · simp at h
  · split at h
    · simp at h
    · rename_i hlt
      split at h
      · simp at h
      · simp only [Option.bind_eq_some, Option.some.injEq, Prod.mk.injEq, true_and] at h
        obtain ⟨tmp, h1, zeroed, h2, stored, h3, h4⟩ := h
        exact ⟨not_le.mp hlt, tmp, zeroed, stored, h1, h2, h3, h4.symm⟩

theorem MoveSampleBlockInternal_ret {lib : Lib} {S : AudioSignal}
    {element pos skip : Int} {config : parameters} {r : Int × AudioSignal}
    (h : MoveSampleBlockInternal lib S element pos skip config = some r) :
    r.1 = 0 ∨ r.1 = 1 := by
  rw [MoveSampleBlockInternal_eq] at h
  split at h
  · simp only [Option.some.injEq] at h; subst h; exact Or.inl rfl
  · split at h
    · simp only [Option.some.injEq] at h; subst h; exact Or.inl rfl
    · split at h
      · simp only [Option.some.injEq] at h; subst h; exact Or.inl rfl
      · simp only [Option.bind_eq_some, Option.some.injEq] at h
        obtain ⟨tmp, -, zeroed, -, stored, -, h4⟩ := h
        subst h4
        exact Or.inr rfl

theorem MoveSampleBlockExternal_ret {lib : Lib} {S : AudioSignal}
    {element pos skip padding : Int} {config : parameters} {r : Int × AudioSignal}
    (h : MoveSampleBlockExternal lib S element pos skip padding config = some r) :
    r.1 = 0 ∨ r.1 = 1 := by
  rw [MoveSampleBlockExternal_eq] at h
  split at h
  · simp only [Option.some.injEq] at h; subst h; exact Or.inl rfl
  · split at h
    · simp only [Option.some.injEq] at h; subst h; exact Or.inl rfl
    · split at h
      · simp only [Option.some.injEq] at h; subst h; exact Or.inl rfl
      · simp only [Option.bind_eq_some, Option.some.injEq] at h
        obtain ⟨tmp, -, zeroed, -, stored, -, h4⟩ := h
        subst h4
        exact Or.inr rfl

theorem MoveSampleBlockInternal_frame {lib : Lib} {S : AudioSignal}
    {element pos skip : Int} {config : parameters} {r : Int × AudioSignal}
    (h : MoveSampleBlockInternal lib S element pos skip config = some r) :
    r.2.Samples.length = S.Samples.length ∧ r.2.header = S.header := by
  rcases MoveSampleBlockInternal_ret h with h0 | h1
  · rw [MoveSampleBlockInternal_eq] at h
    split at h
    · simp only [Option.some.injEq] at h; subst h; exact ⟨rfl, rfl⟩
    · split at h
      · simp only [Option.some.injEq] at h; subst h; exact ⟨rfl, rfl⟩
      · split at h
        · simp only [Option.some.injEq] at h; subst h; exact ⟨rfl, rfl⟩
        · simp only [Option.bind_eq_some, Option.some.injEq] at h
          obtain ⟨tmp, -, zeroed, -, stored, -, h4⟩ := h
          subst h4
          simp at h0
  · obtain ⟨r1, r2⟩ := r
    simp only at h1
    subst h1
    obtain ⟨-, tmp, zeroed, stored, -, h2, h3, h4⟩ := MoveSampleBlockInternal_inv h
    subst h4
    exact ⟨by simpa [memset_length h2] using memWrite_length h3, rfl⟩

theorem MoveSampleBlockExternal_frame {lib : Lib} {S : AudioSignal}
    {element pos skip padding : Int} {config : parameters} {r : Int × AudioSignal}
    (h : MoveSampleBlockExternal lib S element pos skip padding config = some r) :
    r.2.Samples.length = S.Samples.length ∧ r.2.header = S.header := by
  rcases MoveSampleBlockExternal_ret h with h0 | h1
  · rw [MoveSampleBlockExternal_eq] at h
    split at h
    · simp only [Option.some.injEq] at h; subst h; exact ⟨rfl, rfl⟩
    · split at h
      · simp only [Option.some.injEq] at h; subst h; exact ⟨rfl, rfl⟩
      · split at h
        · simp only [Option.some.injEq] at h; subst h; exact ⟨rfl, rfl⟩
        · simp only [Option.bind_eq_some, Option.some.injEq] at h
          obtain ⟨tmp, -, zeroed, -, stored, -, h4⟩ := h
          subst h4
          simp at h0
  · obtain ⟨r1, r2⟩ := r
    simp only at h1
    subst h1
    obtain ⟨-, tmp, zeroed, stored, -, h2, h3, h4⟩ := MoveSampleBlockExternal_inv h
    subst h4
    exact ⟨by simpa [memset_length h2] using memWrite_length h3, rfl⟩

theorem ProcessInternal_known_eq (lib : Lib) (S : AudioSignal)
    (element pos adv knownLength : Int) (config : parameters) (hk : knownLength ≠ 0) :
    ProcessInternal lib S element pos 0 adv knownLength config =
      if (detectedPulse lib S element pos config).1 = -1 then some ⟨0, S, 1, adv⟩
      else if lib.GetLastSyncElementIndex config = lib.NO_INDEX then some ⟨0, S, 1, adv⟩
      else finishInternal
        (MoveSampleBlockInternal lib S element pos (knownSkip lib S element pos config) config)
        adv (knownSkip lib S element pos config) := by
  simp only [ProcessInternal, hk, ne_eq, not_true_eq_false, not_false_eq_true, if_true,
    if_false, knownSkip, detectedPulse, syncLengthBytes]

theorem ProcessInternal_unknown_eq (lib : Lib) (S : AudioSignal)
    (element pos adv : Int) (config : parameters) :
    ProcessInternal lib S element pos 0 adv 0 config =
      if (detectedPulse lib S element pos config).1 = -1 then some ⟨0, S, 1, adv⟩
      else if lib.GetLastSyncElementIndex config = lib.NO_INDEX then some ⟨0, S, 1, adv⟩
      else finishInternal
        (MoveSampleBlockExternal lib S element pos (unknownSkip lib S element pos config)
          (unknownPadding lib S element pos config) config)
        adv (unknownSkip lib S element pos config) := by
  have hmin : ∀ a b : Int, (if a > b then b else a) = min a b := by
    intro a b
    rcases le_total a b with hab | hab
    · rw [min_eq_left hab, if_neg (by omega)]
    · rcases eq_or_lt_of_le hab with he | hl
      · subst he; simp
      · rw [min_eq_right hab, if_pos hl]
  simp only [ProcessInternal, ne_eq, not_true_eq_false, if_false, unknownSkip, unknownPadding,
    detectedPulse, syncLengthBytes, hmin]
  split
  · rfl
  · split
    · rfl
    · rw [add_assoc, add_comm (Int.tdiv _ 2) (min _ _)]

theorem finishInternal_some {moved : Option (Int × AudioSignal)} {adv skip : Int}
    {r : InternalResult} (h : finishInternal moved adv skip = some r) :
    ∃ m, moved = some m ∧ r.Signal = m.2 ∧ r.syncinternal = 1 ∧
      ((m.1 = 0 ∧ r.ret = 0 ∧ r.advanceFrames = adv) ∨
       (m.1 ≠ 0 ∧ r.ret = 1 ∧ r.advanceFrames = adv + skip)) := by
  unfold finishInternal at h
  simp only [Option.bind_eq_some] at h
  obtain ⟨m, hm, h⟩ := h
  refine ⟨m, hm, ?_⟩
  split at h
  · rename_i h0
    simp only [Option.some.injEq] at h
    subst h
    exact ⟨rfl, rfl, Or.inl ⟨h0, rfl, rfl⟩⟩
  · rename_i h0
    simp only [Option.some.injEq] at h
    subst h
    exact ⟨rfl, rfl, Or.inr ⟨h0, rfl, rfl⟩⟩

theorem ProcessInternal_step {lib : Lib} {S : AudioSignal}
    {element pos si adv k : Int} {config : parameters} {r : InternalResult}
    (h : ProcessInternal lib S element pos si adv k config = some r) :
    r.Signal.header = S.header ∧ r.Signal.Samples.length = S.Samples.length ∧
    r.advanceFrames = adv +
      (if si = 0 ∧ r.ret ≠ 0 then
        (if k ≠ 0 then knownSkip lib S element pos config
          else unknownSkip lib S element pos config)
       else 0) := by
  by_cases hsi : si = 0
  · subst hsi
    by_cases hk : k = 0
    · subst hk
      rw [ProcessInternal_unknown_eq] at h
      split at h
      · simp only [Option.some.injEq] at h; subst h; simp
      · split at h
        · simp only [Option.some.injEq] at h; subst h; simp
        · obtain ⟨m, hm, hS, -, hcase⟩ := finishInternal_some h
          have hf := MoveSampleBlockExternal_frame hm
          rw [hS]
          refine ⟨hf.2, hf.1, ?_⟩
          rcases hcase with ⟨-, h0, hadv⟩ | ⟨-, h1, hadv⟩
          · simp [h0, hadv]
          · simp [h1, hadv]
    · rw [ProcessInternal_known_eq lib S element pos adv k config hk] at h
      split at h
      · simp only [Option.some.injEq] at h; subst h; simp
      · split at h
        · simp only [Option.some.injEq] at h; subst h; simp
        · obtain ⟨m, hm, hS, -, hcase⟩ := finishInternal_some h
          have hf := MoveSampleBlockInternal_frame hm
          rw [hS]
          refine ⟨hf.2, hf.1, ?_⟩
          rcases hcase with ⟨-, h0, hadv⟩ | ⟨-, h1, hadv⟩
          · simp [h0, hadv]
          · simp [h1, hadv, hk]
  · simp only [ProcessInternal, ne_eq, hsi, not_false_eq_true, if_true, Option.some.injEq] at h
    subst h
    simp [hsi]

theorem byteAt_of_nonneg (buf : List Int) {i : Int} (h : 0 ≤ i) :
    byteAt buf i = buf[i.toNat]? := by
  simp [byteAt, h]

theorem MoveSampleBlockInternal_shift (lib : Lib) (S S' : AudioSignal)
    (element pos skip : Int) (config : parameters)
    (hpos : 0 ≤ pos) (hskip : 0 ≤ skip)
    (h : MoveSampleBlockInternal lib S element pos skip config = some (1, S')) :
    S'.Samples.length = S.Samples.length ∧
    pos + blockBytes lib S element pos config ≤ S.Samples.length ∧
    (∀ i : Int, pos ≤ i → i < pos + blockBytes lib S element pos config - skip →
      byteAt S'.Samples i = byteAt S.Samples (i + skip)) ∧
    (∀ i : Int, pos + blockBytes lib S element pos config - skip ≤ i →
      i < pos + blockBytes lib S element pos config → byteAt S'.Samples i = some 0) ∧
    (∀ i : Int, i < pos ∨ pos + blockBytes lib S element pos config ≤ i →
      byteAt S'.Samples i = byteAt S.Samples i) ∧
    S' = { S with Samples := S'.Samples } := by
  obtain ⟨hlt, tmp, zeroed, stored, h1, h2, h3, h4⟩ := MoveSampleBlockInternal_inv h
  generalize blockBytes lib S element pos config = b at *
  subst h4
  have hr := memRead_bounds h1
  have hz := memset_bounds h2
  have hw := memWrite_bounds h3
  have hzl := memset_length h2
  have hwl := memWrite_length h3
  have htl := memRead_length h1
  refine ⟨by simpa [hzl] using hwl, hz.2.2, ?_, ?_, ?_, rfl⟩
  · intro i hi1 hi2
    rw [byteAt_of_nonneg _ (by omega), byteAt_of_nonneg _ (by omega)]
    show stored[i.toNat]? = _
    rw [memWrite_get h3, if_neg (by omega), if_pos (by omega),
      memRead_get h1 _ (by omega)]
    congr 1
    omega
  · intro i hi1 hi2
    rw [byteAt_of_nonneg _ (by omega)]
    show stored[i.toNat]? = _
    rw [memWrite_get h3, if_neg (by omega), if_neg (by omega), memset_get h2,
      if_pos (by omega)]
  · intro i hi
    by_cases hi0 : 0 ≤ i
    · rw [byteAt_of_nonneg _ hi0, byteAt_of_nonneg _ hi0]
      show stored[i.toNat]? = _
      rw [memWrite_get h3]
      rcases hi with hi | hi
      · rw [if_pos (by omega), memset_get h2, if_neg (by omega)]
      · rw [if_neg (by omega), if_neg (by omega), memset_get h2, if_neg (by omega)]
    · simp [byteAt, hi0]

/-- C1. When `MoveSampleBlockInternal` succeeds at a position `pos >= 0` with a
skip `>= 0`, and `b` is the block length in bytes clamped to `DataSize - pos`:
the buffer keeps its length, bytes `[pos, pos+b-skip)` are the old bytes
`[pos+skip, pos+b)`, bytes `[pos+b-skip, pos+b)` are zero, and every byte
outside `[pos, pos+b)` is unchanged. The block lies inside the buffer, and no
other field of the signal changes. -/
theorem MoveSampleBlockInternal_splice (lib : Lib) (S S' : AudioSignal)
    (element pos skip : Int) (config : parameters)
    (hpos : 0 ≤ pos) (hskip : 0 ≤ skip)
    (h : MoveSampleBlockInternal lib S element pos skip config = some (1, S')) :
    S'.Samples.length = S.Samples.length ∧
    pos + blockBytes lib S element pos config ≤ S.Samples.length ∧
    (∀ i : Int, pos ≤ i → i < pos + blockBytes lib S element pos config - skip →
      byteAt S'.Samples i = byteAt S.Samples (i + skip)) ∧
    (∀ i : Int, pos + blockBytes lib S element pos config - skip ≤ i →
      i < pos + blockBytes lib S element pos config → byteAt S'.Samples i = some 0) ∧
    (∀ i : Int, i < pos ∨ pos + blockBytes lib S element pos config ≤ i →
      byteAt S'.Samples i = byteAt S.Samples i) ∧
    S' = { S with Samples := S'.Samples } :=
  MoveSampleBlockInternal_shift lib S S' element pos skip config hpos hskip h

theorem MoveSampleBlockInternal_splice_witness :
    MoveSampleBlockInternal (testLib 5 0 (0, 0) 0 0 0 0 0 true)
        (testSignal 1 [1, 2, 3, 4, 5, 6, 7, 8, 9, 10, 11, 12]) 0 0 4 testConfig =
      some (1, testSignal 1 [5, 6, 7, 8, 9, 10, 0, 0, 0, 0, 11, 12]) ∧
    byteAt (testSignal 1 [5, 6, 7, 8, 9, 10, 0, 0, 0, 0, 11, 12]).Samples 0 =
      byteAt (testSignal 1 [1, 2, 3, 4, 5, 6, 7, 8, 9, 10, 11, 12]).Samples (0 + 4) :=
  ⟨by decide,
   (MoveSampleBlockInternal_splice (testLib 5 0 (0, 0) 0 0 0 0 0 true)
      (testSignal 1 [1, 2, 3, 4, 5, 6, 7, 8, 9, 10, 11, 12])
      (testSignal 1 [5, 6, 7, 8, 9, 10, 0, 0, 0, 0, 11, 12]) 0 0 4 testConfig
      (by decide) (by decide) (by decide)).2.2.1 0 (by decide) (by decide)⟩

/-- C2. For `MoveSampleBlockInternal` and for `MoveSampleBlockExternal`: when
the skip is greater than or equal to the bytes available in the block (its
byte length clamped to `DataSize - pos`), the call returns 0 and leaves the
signal, hence every byte of the sample buffer, unchanged. -/
theorem MoveSampleBlock_out_of_bounds (lib : Lib) (S : AudioSignal)
    (element pos skip padding : Int) (config : parameters)
    (h : blockBytes lib S element pos config ≤ skip) :
    MoveSampleBlockInternal lib S element pos skip config = some (0, S) ∧
    MoveSampleBlockExternal lib S element pos skip padding config = some (0, S) := by
  rw [MoveSampleBlockInternal_eq, MoveSampleBlockExternal_eq]
  constructor <;> · split <;> simp [h]

theorem MoveSampleBlock_out_of_bounds_witness :
    blockBytes (testLib 5 0 (0, 0) 0 0 0 0 0 true) (testSignal 1 [1, 2, 3, 4, 5, 6]) 0 2
        testConfig ≤ 4 ∧
    MoveSampleBlockInternal (testLib 5 0 (0, 0) 0 0 0 0 0 true)
        (testSignal 1 [1, 2, 3, 4, 5, 6]) 0 2 4 testConfig =
      some (0, testSignal 1 [1, 2, 3, 4, 5, 6]) ∧
    MoveSampleBlockExternal (testLib 5 0 (0, 0) 0 0 0 0 0 true)
        (testSignal 1 [1, 2, 3, 4, 5, 6]) 0 2 4 4 testConfig =
      some (0, testSignal 1 [1, 2, 3, 4, 5, 6]) :=
  ⟨by decide,
   MoveSampleBlock_out_of_bounds (testLib 5 0 (0, 0) 0 0 0 0 0 true)
     (testSignal 1 [1, 2, 3, 4, 5, 6]) 0 2 4 4 testConfig (by decide)⟩

/-- C3. In known-length mode a successful `ProcessInternal` call hands
`MoveSampleBlockInternal` the skip (detected signal start - pos) + sync-tone
length in bytes, adds that skip to the advance counter, and leaves the buffer
length as it was; for a position and skip that are not negative the content
of the block is shifted left by exactly that skip. -/
theorem ProcessInternal_known_length (lib : Lib) (S : AudioSignal)
    (element pos adv knownLength : Int) (config : parameters) (r : InternalResult)
    (hk : knownLength ≠ 0)
    (h : ProcessInternal lib S element pos 0 adv knownLength config = some r)
    (hr : r.ret ≠ 0) :
    MoveSampleBlockInternal lib S element pos
        ((lib.DetectSignalStart S.Samples S.header pos
            (lib.GetInternalSyncTone element config) config).1 - pos +
          lib.SecondsToBytes S.header.fmt.SamplesPerSec (lib.GetInternalSyncLen element config)
            S.AudioChannels) config = some (1, r.Signal) ∧
    r.advanceFrames = adv + knownSkip lib S element pos config ∧
    r.Signal.Samples.length = S.Samples.length ∧
    (0 ≤ pos → 0 ≤ knownSkip lib S element pos config → ∀ i : Int, pos ≤ i →
      i < pos + blockBytes lib S element pos config - knownSkip lib S element pos config →
      byteAt r.Signal.Samples i = byteAt S.Samples (i + knownSkip lib S element pos config)) := by
  rw [ProcessInternal_known_eq lib S element pos adv knownLength config hk] at h
  split at h
  · simp only [Option.some.injEq] at h; subst h; simp at hr
  · split at h
    · simp only [Option.some.injEq] at h; subst h; simp at hr
    · obtain ⟨m, hm, hS, -, hcase⟩ := finishInternal_some h
      rcases hcase with ⟨-, h0, -⟩ | ⟨hm1, -, hadv⟩
      · exact absurd h0 hr
      · have hone : m.1 = 1 := by
          rcases MoveSampleBlockInternal_ret hm with h' | h'
          · exact absurd h' hm1
          · exact h'
        have hmove : MoveSampleBlockInternal lib S element pos
            (knownSkip lib S element pos config) config = some (1, r.Signal) := by
          rw [hm, hS, ← hone]
        refine ⟨hmove, hadv, ?_, ?_⟩
        · rw [hS]; exact (MoveSampleBlockInternal_frame hm).1
        · intro hpos hskip i hi1 hi2
          exact (MoveSampleBlockInternal_shift lib S r.Signal element pos _ config hpos hskip
            hmove).2.2.1 i hi1 hi2

theorem ProcessInternal_known_length_witness :
    ProcessInternal (testLib 1 (mkRat 1 10) (2, 4) 0 0 0 0 0 true)
        (testSignal 20 [1, 2, 3, 4, 5, 6, 7, 8, 9, 10, 11, 12]) 0 0 0 0 1 testConfig =
      some ⟨1, testSignal 20 [7, 8, 9, 10, 11, 12, 0, 0, 0, 0, 0, 0], 1, 6⟩ ∧
    (6 : Int) = 0 + knownSkip (testLib 1 (mkRat 1 10) (2, 4) 0 0 0 0 0 true)
        (testSignal 20 [1, 2, 3, 4, 5, 6, 7, 8, 9, 10, 11, 12]) 0 0 testConfig :=
  ⟨by decide,
   (ProcessInternal_known_length (testLib 1 (mkRat 1 10) (2, 4) 0 0 0 0 0 true)
      (testSignal 20 [1, 2, 3, 4, 5, 6, 7, 8, 9, 10, 11, 12]) 0 0 0 1 testConfig
      ⟨1, testSignal 20 [7, 8, 9, 10, 11, 12, 0, 0, 0, 0, 0, 0], 1, 6⟩
      (by decide) (by decide) (by decide)).2.1⟩

/-- C4. In unknown-length mode, once the signal start is detected and the
profile has a sync index, `ProcessInternal` hands `MoveSampleBlockExternal`
the skip (detected start - pos) + min(pulseLength, syncLength/2) + syncLength/2
and the padding min(pulseLength, syncLength/2) + syncLength/2, where
pulseLength = end of pulse - detected start and `/` truncates; the pulse
contribution to both is at most half the sync-tone length. -/
theorem ProcessInternal_unknown_length (lib : Lib) (S : AudioSignal)
    (element pos adv : Int) (config : parameters)
    (hd : (lib.DetectSignalStart S.Samples S.header pos
      (lib.GetInternalSyncTone element config) config).1 ≠ -1)
    (hl : lib.GetLastSyncElementIndex config ≠ lib.NO_INDEX) :
    ProcessInternal lib S element pos 0 adv 0 config =
      finishInternal
        (MoveSampleBlockExternal lib S element pos
          ((detectedPulse lib S element pos config).1 - pos +
            (min ((detectedPulse lib S element pos config).2 -
                  (detectedPulse lib S element pos config).1)
                (Int.tdiv (syncLengthBytes lib S element config) 2) +
              Int.tdiv (syncLengthBytes lib S element config) 2))
          (min ((detectedPulse lib S element pos config).2 -
                (detectedPulse lib S element pos config).1)
              (Int.tdiv (syncLengthBytes lib S element config) 2) +
            Int.tdiv (syncLengthBytes lib S element config) 2) config)
        adv (unknownSkip lib S element pos config) ∧
    unknownSkip lib S element pos config =
      (detectedPulse lib S element pos config).1 - pos +
        unknownPadding lib S element pos config ∧
    unknownPadding lib S element pos config - Int.tdiv (syncLengthBytes lib S element config) 2
      ≤ Int.tdiv (syncLengthBytes lib S element config) 2 := by
  refine ⟨?_, rfl, ?_⟩
  · have hd' : (detectedPulse lib S element pos config).1 ≠ -1 := hd
    rw [ProcessInternal_unknown_eq, if_neg hd', if_neg hl]
    rfl
  · unfold unknownPadding
    have := min_le_right ((detectedPulse lib S element pos config).2 -
      (detectedPulse lib S element pos config).1)
      (Int.tdiv (syncLengthBytes lib S element config) 2)
    omega

theorem ProcessInternal_unknown_length_witness :
    ProcessInternal (testLib 1 (mkRat 1 10) (2, 8) 0 0 0 0 0 true)
        (testSignal 20 [1, 2, 3, 4, 5, 6, 7, 8, 9, 10, 11, 12]) 0 0 0 0 0 testConfig =
      some ⟨1, testSignal 20 [7, 8, 9, 10, 11, 12, 0, 0, 0, 0, 0, 0], 1, 6⟩ ∧
    unknownPadding (testLib 1 (mkRat 1 10) (2, 8) 0 0 0 0 0 true)
        (testSignal 20 [1, 2, 3, 4, 5, 6, 7, 8, 9, 10, 11, 12]) 0 0 testConfig = 4 :=
  ⟨((ProcessInternal_unknown_length (testLib 1 (mkRat 1 10) (2, 8) 0 0 0 0 0 true)
      (testSignal 20 [1, 2, 3, 4, 5, 6, 7, 8, 9, 10, 11, 12]) 0 0 0 testConfig
      (by decide) (by decide)).1).trans (by decide),
   by decide⟩

/-- C5, as stated, fails: with a 10-byte block, skip 6 and padding 6 the call
succeeds and moves n = 4 bytes, and byte 4, which lies in the range
`[pos+n, pos+skip+n) = [4, 10)` that the claim says is zeroed, keeps its old
value 5. -/
theorem MoveSampleBlockExternal_tail_not_zero :
    MoveSampleBlockExternal (testLib 5 0 (0, 0) 0 0 0 0 0 true)
        (testSignal 1 [1, 2, 3, 4, 5, 6, 7, 8, 9, 10, 11, 12, 13, 14]) 0 0 6 6 testConfig =
      some (1, testSignal 1 [7, 8, 9, 10, 5, 6, 0, 0, 0, 0, 11, 12, 13, 14]) ∧
    movedBytes (testLib 5 0 (0, 0) 0 0 0 0 0 true)
        (testSignal 1 [1, 2, 3, 4, 5, 6, 7, 8, 9, 10, 11, 12, 13, 14]) 0 0 6 6 testConfig = 4 ∧
    ¬ (∀ i : Int, 0 + 4 ≤ i → i < 0 + 6 + 4 →
        byteAt (testSignal 1 [7, 8, 9, 10, 5, 6, 0, 0, 0, 0, 11, 12, 13, 14]).Samples i =
          some 0) := by
  refine ⟨by decide, by decide, ?_⟩
  intro hall
  exact absurd (hall 4 (by decide) (by decide)) (by decide)

/-- C5, amended. When `MoveSampleBlockExternal` succeeds with a skip `>= 0`,
moving `n` bytes: the buffer keeps its length, bytes `[pos, pos+n)` are the
old bytes `[pos+skip, pos+skip+n)`, every byte of the source window
`[pos+skip, pos+skip+n)` that lies at or beyond `pos+n` is zero, the bytes of
`[pos+n, pos+skip)` (present when `n < skip`) keep their old values, and every
byte outside `[pos, pos+skip+n)` is unchanged. -/
theorem MoveSampleBlockExternal_splice (lib : Lib) (S S' : AudioSignal)
    (element pos skip padding : Int) (config : parameters)
    (hskip : 0 ≤ skip)
    (h : MoveSampleBlockExternal lib S element pos skip padding config = some (1, S')) :
    S'.Samples.length = S.Samples.length ∧
    pos + skip + movedBytes lib S element pos skip padding config ≤ S.Samples.length ∧
    (∀ i : Int, pos ≤ i → i < pos + movedBytes lib S element pos skip padding config →
      byteAt S'.Samples i = byteAt S.Samples (i + skip)) ∧
    (∀ i : Int, pos + movedBytes lib S element pos skip padding config ≤ i → pos + skip ≤ i →
      i < pos + skip + movedBytes lib S element pos skip padding config →
      byteAt S'.Samples i = some 0) ∧
    (∀ i : Int, pos + movedBytes lib S element pos skip padding config ≤ i → i < pos + skip →
      byteAt S'.Samples i = byteAt S.Samples i) ∧
    (∀ i : Int, i < pos ∨ pos + skip + movedBytes lib S element pos skip padding config ≤ i →
      byteAt S'.Samples i = byteAt S.Samples i) ∧
    S' = { S with Samples := S'.Samples } := by
  obtain ⟨-, tmp, zeroed, stored, h1, h2, h3, h4⟩ := MoveSampleBlockExternal_inv h
  generalize movedBytes lib S element pos skip padding config = n at *
  subst h4
  have hr := memRead_bounds h1
  have hz := memset_bounds h2
  have hw := memWrite_bounds h3
  have hzl := memset_length h2
  have hwl := memWrite_length h3
  have htl := memRead_length h1
  refine ⟨by simpa [hzl] using hwl, hr.2.2, ?_, ?_, ?_, ?_, rfl⟩
  · intro i hi1 hi2
    rw [byteAt_of_nonneg _ (by omega), byteAt_of_nonneg _ (by omega)]
    show stored[i.toNat]? = _
    rw [memWrite_get h3, if_neg (by omega), if_pos (by omega),
      memRead_get h1 _ (by omega)]
    congr 1
    omega
  · intro i hi1 hi2 hi3
    rw [byteAt_of_nonneg _ (by omega)]
    show stored[i.toNat]? = _
    rw [memWrite_get h3, if_neg (by omega), if_neg (by omega), memset_get h2,
      if_pos (by omega)]
  · intro i hi1 hi2
    rw [byteAt_of_nonneg _ (by omega), byteAt_of_nonneg _ (by omega)]
    show stored[i.toNat]? = _
    rw [memWrite_get h3, if_neg (by omega), if_neg (by omega), memset_get h2,
      if_neg (by omega)]
  · intro i hi
    by_cases hi0 : 0 ≤ i
    · rw [byteAt_of_nonneg _ hi0, byteAt_of_nonneg _ hi0]
      show stored[i.toNat]? = _
      rw [memWrite_get h3]
      rcases hi with hi | hi
      · rw [if_pos (by omega), memset_get h2, if_neg (by omega)]
      · rw [if_neg (by omega), if_neg (by omega), memset_get h2, if_neg (by omega)]
    · simp [byteAt, hi0]

theorem MoveSampleBlockExternal_splice_witness :
    MoveSampleBlockExternal (testLib 5 0 (0, 0) 0 0 0 0 0 true)
        (testSignal 1 [1, 2, 3, 4, 5, 6, 7, 8, 9, 10, 11, 12, 13, 14]) 0 0 2 2 testConfig =
      some (1, testSignal 1 [3, 4, 5, 6, 7, 8, 9, 10, 0, 0, 11, 12, 13, 14]) ∧
    (testSignal 1 [3, 4, 5, 6, 7, 8, 9, 10, 0, 0, 11, 12, 13, 14]).Samples.length =
      (testSignal 1 [1, 2, 3, 4, 5, 6, 7, 8, 9, 10, 11, 12, 13, 14]).Samples.length :=
  ⟨by decide,
   (MoveSampleBlockExternal_splice (testLib 5 0 (0, 0) 0 0 0 0 0 true)
      (testSignal 1 [1, 2, 3, 4, 5, 6, 7, 8, 9, 10, 11, 12, 13, 14])
      (testSignal 1 [3, 4, 5, 6, 7, 8, 9, 10, 0, 0, 11, 12, 13, 14]) 0 0 2 2 testConfig
      (by decide) (by decide)).1⟩

/-- C6. Over any sequence of `ProcessInternal` calls the sync-advance counter
ends at its initial value plus the sum of the skips of the calls that
realigned successfully (a call that fails or only clears the flag adds
nothing), and neither `DataSize` nor the length of the sample buffer changes. -/
theorem runInternal_syncAdvance (lib : Lib) (config : parameters) (calls : List InternalCall)
    (st st' : InternalState) (h : runInternal lib config st calls = some st') :
    st'.syncAdvance = st.syncAdvance + (realignedSkips lib config st calls).sum ∧
    st'.Signal.header.data.DataSize = st.Signal.header.data.DataSize ∧
    st'.Signal.Samples.length = st.Signal.Samples.length := by
  induction calls generalizing st with
  | nil =>
    simp only [runInternal, Option.some.injEq] at h
    subst h
    simp [realignedSkips]
  | cons c cs ih =>
    simp only [runInternal, Option.bind_eq_some] at h
    obtain ⟨r, hr, hrest⟩ := h
    obtain ⟨hhdr, hlen, hadv⟩ := ProcessInternal_step hr
    obtain ⟨h1, h2, h3⟩ := ih _ hrest
    simp only at h1 h2 h3
    refine ⟨?_, by rw [h2, hhdr], by rw [h3, hlen]⟩
    rw [h1]
    simp only [realignedSkips, hr, List.sum_append]
    generalize (realignedSkips lib config
      { Signal := r.Signal, syncinternal := r.syncinternal, syncAdvance := r.advanceFrames }
      cs).sum = rest
    rw [hadv]
    split
    · simp only [List.sum_cons, List.sum_nil, add_zero]; ring
    · simp only [List.sum_nil, add_zero, zero_add]

theorem runInternal_syncAdvance_witness :
    runInternal (testLib 1 (mkRat 1 10) (2, 4) 0 0 0 0 0 true) testConfig
        ⟨testSignal 20 [1, 2, 3, 4, 5, 6, 7, 8, 9, 10, 11, 12], 0, 0⟩
        [⟨0, 0, 1⟩, ⟨0, 0, 1⟩, ⟨0, 8, 1⟩] =
      some ⟨testSignal 20 [7, 8, 9, 10, 11, 12, 0, 0, 0, 0, 0, 0], 1, 6⟩ ∧
    (6 : Int) = 0 + (realignedSkips (testLib 1 (mkRat 1 10) (2, 4) 0 0 0 0 0 true) testConfig
        ⟨testSignal 20 [1, 2, 3, 4, 5, 6, 7, 8, 9, 10, 11, 12], 0, 0⟩
        [⟨0, 0, 1⟩, ⟨0, 0, 1⟩, ⟨0, 8, 1⟩]).sum :=
  ⟨by decide,
   (runInternal_syncAdvance (testLib 1 (mkRat 1 10) (2, 4) 0 0 0 0 0 true) testConfig
      [⟨0, 0, 1⟩, ⟨0, 0, 1⟩, ⟨0, 8, 1⟩]
      ⟨testSignal 20 [1, 2, 3, 4, 5, 6, 7, 8, 9, 10, 11, 12], 0, 0⟩
      ⟨testSignal 20 [7, 8, 9, 10, 11, 12, 0, 0, 0, 0, 0, 0], 1, 6⟩ (by decide)).1⟩

/-! ## Loading -/

theorem LoadFile_range_config (S : AudioSignal) (c : parameters) :
    (LoadFile_range S c).2.ignoreFrameRateDiff = c.ignoreFrameRateDiff ∧
    (LoadFile_range S c).2.startHz = c.startHz := by
  unfold LoadFile_range
  split <;> exact ⟨rfl, rfl⟩

theorem LoadFile_length_config (lib : Lib) (S : AudioSignal) (c : parameters) :
    (LoadFile_length lib S c).2.ignoreFrameRateDiff = c.ignoreFrameRateDiff ∧
    (LoadFile_length lib S c).2.startHz = c.startHz ∧
    (LoadFile_length lib S c).2.endHz = c.endHz ∧
    (LoadFile_length lib S c).2.nyquistLimit = c.nyquistLimit := by
  unfold LoadFile_length
  simp only
  split <;> exact ⟨rfl, rfl, rfl, rfl⟩

theorem LoadFile_read_config (lib : Lib) (file : Option WavFile) (S : AudioSignal)
    (c : parameters) :
    (LoadFile_read lib file S c).2.2.ignoreFrameRateDiff = c.ignoreFrameRateDiff ∧
    (LoadFile_read lib file S c).2.2.startHz = c.startHz := by
  unfold LoadFile_read
  cases file with
  | none => exact ⟨rfl, rfl⟩
  | some f =>
    have hr := LoadFile_range_config (LoadFile_channels { S with header := f.header }) c
    have hl := LoadFile_length_config lib
      (LoadFile_range (LoadFile_channels { S with header := f.header }) c).1
      (LoadFile_range (LoadFile_channels { S with header := f.header }) c).2
    simp only
    split_ifs
    · exact ⟨rfl, rfl⟩
    · exact ⟨rfl, rfl⟩
    · exact ⟨rfl, rfl⟩
    · exact ⟨rfl, rfl⟩
    · exact ⟨hl.1.trans hr.1, hl.2.1.trans hr.2⟩

theorem LoadFile_config (lib : Lib) (file : Option WavFile) (S : AudioSignal)
    (c : parameters) (name : String) :
    (LoadFile lib file S c name).config = (LoadFile_read lib file S c).2.2 := by
  unfold LoadFile
  simp only
  split_ifs <;> rfl

/-- C7, counterexample. The double nearest to 1.02 is slightly above it, so a
measured frame duration of that value against an expected 1 differs by more
than 2%; but `framerate*100.0` rounds to 102, the computed difference is
exactly 2, and `LoadFile` returns 1 with `ignoreFrameRateDiff` clear. A
measured 14.311545869839478 against an expected 14.030927323372037 differs by
less than 2%, but the computed difference is above 2 and `LoadFile` returns
0. -/
theorem LoadFile_framerate_rounding :
    |(100 : ℚ) - 2296835809958953 / 2251799813685248 * 100 / 1| > 2 ∧
    testConfig.ignoreFrameRateDiff = 0 ∧
    framerateDifference (2296835809958953 / 2251799813685248) 1 = .finite 2 ∧
    (LoadFile roundingLib (some (testFile 44100 [1, 2, 3, 4])) (freshSignal roundingLib)
      testConfig "a.wav").ret = 1 ∧
    |(100 : ℚ) - 503542755050819 / 35184372088832 * 100 /
      (3949354941575051 / 281474976710656)| ≤ 2 ∧
    (LoadFile roundingLib2 (some (testFile 44100 [1, 2, 3, 4])) (freshSignal roundingLib2)
      testConfig "a.wav").ret = 0 := by
  decide!

/-- C7, amended. When the file has been read and both sync pulse trains are
found, `LoadFile` returns 0 exactly when the double-precision value of
`fabs(100.0 - measured*100.0/expected)`, each operation rounded to the nearest
double, is above 2 and `ignoreFrameRateDiff` is clear; otherwise it returns 1
and the signal's frame rate is the measured one. A computed difference of
exactly 2 is accepted, and so is the NaN obtained when the measured and the
expected duration are both zero. -/
theorem LoadFile_framerate_check (lib : Lib) (file : Option WavFile) (S : AudioSignal)
    (c : parameters) (name : String)
    (hread : (LoadFile_read lib file S c).1 = true)
    (hfirst : lib.GetFirstSyncIndex (LoadFile_read lib file S c).2.2 ≠ lib.NO_INDEX)
    (hlast : lib.GetLastSyncIndex (LoadFile_read lib file S c).2.2 ≠ lib.NO_INDEX)
    (hstart : (withSyncOffsets lib (LoadFile_read lib file S c).2.1
      (LoadFile_read lib file S c).2.2).startOffset ≠ -1)
    (hend : (withSyncOffsets lib (LoadFile_read lib file S c).2.1
      (LoadFile_read lib file S c).2.2).endOffset ≠ -1) :
    ((LoadFile lib file S c name).ret = 0 ↔
      (Double.gt
          (framerateDifference
            (measuredFramerate lib (LoadFile_read lib file S c).2.1
              (LoadFile_read lib file S c).2.2)
            (expectedFramerate lib (LoadFile_read lib file S c).2.1
              (LoadFile_read lib file S c).2.2))
          (.finite 2) = true ∧
        c.ignoreFrameRateDiff = 0)) ∧
    ((LoadFile lib file S c name).ret ≠ 0 →
      (LoadFile lib file S c name).ret = 1 ∧
      (LoadFile lib file S c name).Signal.framerate =
        measuredFramerate lib (LoadFile_read lib file S c).2.1
          (LoadFile_read lib file S c).2.2) ∧
    (framerateDifference
        (measuredFramerate lib (LoadFile_read lib file S c).2.1
          (LoadFile_read lib file S c).2.2)
        (expectedFramerate lib (LoadFile_read lib file S c).2.1
          (LoadFile_read lib file S c).2.2) = .finite 2 →
      (LoadFile lib file S c name).ret = 1) ∧
    (measuredFramerate lib (LoadFile_read lib file S c).2.1
        (LoadFile_read lib file S c).2.2 = 0 →
      expectedFramerate lib (LoadFile_read lib file S c).2.1
        (LoadFile_read lib file S c).2.2 = 0 →
      (LoadFile lib file S c name).ret = 1) := by
  have hig := (LoadFile_read_config lib file S c).1
  simp only [LoadFile, measuredFramerate, expectedFramerate, withSyncOffsets] at *
  generalize LoadFile_read lib file S c = rd at *
  obtain ⟨ok, S1, c1⟩ := rd
  simp only at hread hfirst hlast hstart hend hig
  subst hread
  simp only [LoadFile_sync, ne_eq, hfirst, not_false_eq_true, if_true, hstart, if_false, hlast,
    hend, Bool.not_true, Bool.false_eq_true]
  rw [← hig]
  generalize lib.CalculateFrameRate _ c1 = measured
  generalize lib.GetMSPerFrame _ c1 = expected
  by_cases hdiff : Double.gt (framerateDifference measured expected) (.finite 2) = true ∧
      c1.ignoreFrameRateDiff = 0
  · simp only [if_pos hdiff, Bool.not_false, if_true]
    refine ⟨⟨fun _ => hdiff, fun _ => trivial⟩, fun h => absurd trivial h, fun h2 => ?_,
      fun hm he => ?_⟩
    · rw [h2] at hdiff
      exact absurd hdiff.1 (by decide!)
    · rw [hm, he] at hdiff
      exact absurd hdiff.1 (by decide!)
  · simp only [if_neg hdiff, Bool.not_true, Bool.false_eq_true, if_false]
    refine ⟨⟨fun h0 => absurd h0 (by decide), fun h => absurd h hdiff⟩, fun _ => ⟨trivial, ?_⟩,
      fun _ => trivial, fun _ _ => trivial⟩
    split_ifs <;> rfl

theorem LoadFile_framerate_check_witness :
    framerateDifference
      (measuredFramerate roundingLib
        (LoadFile_read roundingLib (some (testFile 44100 [1, 2, 3, 4]))
          (freshSignal roundingLib) testConfig).2.1
        (LoadFile_read roundingLib (some (testFile 44100 [1, 2, 3, 4]))
          (freshSignal roundingLib) testConfig).2.2)
      (expectedFramerate roundingLib
        (LoadFile_read roundingLib (some (testFile 44100 [1, 2, 3, 4]))
          (freshSignal roundingLib) testConfig).2.1
        (LoadFile_read roundingLib (some (testFile 44100 [1, 2, 3, 4]))
          (freshSignal roundingLib) testConfig).2.2) = .finite 2 ∧
    (LoadFile roundingLib (some (testFile 44100 [1, 2, 3, 4])) (freshSignal roundingLib)
      testConfig "a.wav").ret = 1 :=
  ⟨by decide!,
    (LoadFile_framerate_check roundingLib (some (testFile 44100 [1, 2, 3, 4]))
      (freshSignal roundingLib) testConfig "a.wav"
      (by decide!) (by decide!) (by decide!) (by decide!) (by decide!)).2.2.1 (by decide!)⟩

theorem LoadFile_channels_of_invalid (S : AudioSignal)
    (h : S.header.fmt.NumOfChan ≠ 1 ∧ S.header.fmt.NumOfChan ≠ 2) :
    LoadFile_channels S = S := by
  unfold LoadFile_channels
  rw [if_neg]
  rintro (h2 | h1)
  · exact h.2 h2
  · exact h.1 h1

theorem LoadFile_channels_eq (S : AudioSignal) :
    LoadFile_channels S = { S with AudioChannels := (LoadFile_channels S).AudioChannels } := by
  unfold LoadFile_channels
  split <;> rfl

/-- C9. For a signal whose channel count is still `INVALID_CHANNELS`, `LoadFile`
returns 0 whenever the header's `AudioFormat` is not PCM, or its channel count
is neither 1 nor 2, or its `bitsPerSample` is not 16. Only the header (and, for
a bad bit depth, the channel count) of the signal is written: no samples are
loaded, the offsets and the frame rate are untouched, the configuration is
unchanged, and the result does not depend on the detectors. -/
theorem LoadFile_format_unsupported (lib : Lib) (f : WavFile) (S : AudioSignal)
    (c : parameters) (name : String)
    (hfresh : S.AudioChannels = lib.INVALID_CHANNELS)
    (hbad : f.header.fmt.AudioFormat ≠ lib.WAVE_FORMAT_PCM ∨
      (f.header.fmt.NumOfChan ≠ 1 ∧ f.header.fmt.NumOfChan ≠ 2) ∨
      f.header.fmt.bitsPerSample ≠ 16) :
    (LoadFile lib (some f) S c name).ret = 0 ∧
    (LoadFile lib (some f) S c name).config = c ∧
    (LoadFile lib (some f) S c name).Signal =
      { S with header := f.header,
               AudioChannels := (LoadFile lib (some f) S c name).Signal.AudioChannels } ∧
    (∀ lib' : Lib, lib'.WAVE_FORMAT_PCM = lib.WAVE_FORMAT_PCM →
      lib'.INVALID_CHANNELS = lib.INVALID_CHANNELS →
      LoadFile lib' (some f) S c name = LoadFile lib (some f) S c name) := by
  have key : ∀ lib' : Lib, lib'.WAVE_FORMAT_PCM = lib.WAVE_FORMAT_PCM →
      lib'.INVALID_CHANNELS = lib.INVALID_CHANNELS →
      LoadFile lib' (some f) S c name =
        ⟨0, if f.parsed ∧ f.header.fmt.AudioFormat = lib.WAVE_FORMAT_PCM
              then LoadFile_channels { S with header := f.header }
              else { S with header := f.header }, c⟩ := by
    intro lib' hp hi
    have hread : LoadFile_read lib' (some f) S c =
        (false, if f.parsed ∧ f.header.fmt.AudioFormat = lib.WAVE_FORMAT_PCM
              then LoadFile_channels { S with header := f.header }
              else { S with header := f.header }, c) := by
      simp only [LoadFile_read, hp, hi]
      by_cases hparsed : f.parsed = true
      · by_cases hpcm : f.header.fmt.AudioFormat = lib.WAVE_FORMAT_PCM
        · simp only [hparsed, hpcm, Bool.not_true, Bool.false_eq_true, if_false, ne_eq,
            not_true_eq_false, and_self, if_true]
          rcases hbad with hb | hb | hb
          · exact absurd hpcm hb
          · rw [LoadFile_channels_of_invalid _ hb, if_pos hfresh]
          · split
            · rfl
            · have hh : (LoadFile_channels { S with header := f.header }).header = f.header := by
                rw [LoadFile_channels_eq]
              rw [if_pos (by rw [hh]; exact hb)]
        · simp [hparsed, hpcm]
      · simp [hparsed]
    simp only [LoadFile, hread, Bool.not_false, if_true]
  have hl := key lib rfl rfl
  refine ⟨by rw [hl], by rw [hl], ?_, fun lib' hp hi => by rw [key lib' hp hi, hl]⟩
  rw [hl]
  simp only
  split
  · exact LoadFile_channels_eq _
  · rfl

theorem LoadFile_format_unsupported_witness :
    (LoadFile (testLib 1 0 (0, 0) 0 8 100 100 0 true)
        (some ⟨true, ⟨⟨1, 6, 44100, 16⟩, ⟨4⟩⟩, 44, [1, 2, 3, 4]⟩)
        (freshSignal (testLib 1 0 (0, 0) 0 8 100 100 0 true)) testConfig "a.wav").ret = 0 :=
  (LoadFile_format_unsupported (testLib 1 0 (0, 0) 0 8 100 100 0 true)
    ⟨true, ⟨⟨1, 6, 44100, 16⟩, ⟨4⟩⟩, 44, [1, 2, 3, 4]⟩
    (freshSignal (testLib 1 0 (0, 0) 0 8 100 100 0 true)) testConfig "a.wav" rfl
    (Or.inr (Or.inl (by decide)))).1

theorem LoadFile_length_signal (lib : Lib) (S : AudioSignal) (c : parameters) :
    (LoadFile_length lib S c).1 = { S with framerate := lib.GetMSPerFrame S c } := by
  unfold LoadFile_length
  simp only
  split <;> rfl

theorem LoadFile_samples_signal (lib : Lib) (f : WavFile) (S : AudioSignal) :
    (LoadFile_samples lib f S).2.header = S.header ∧
    (LoadFile_samples lib f S).2.AudioChannels = S.AudioChannels ∧
    (LoadFile_samples lib f S).2.endHz = S.endHz ∧
    (LoadFile_samples lib f S).2.nyquistLimit = S.nyquistLimit ∧
    (LoadFile_samples lib f S).2.framerate = S.framerate ∧
    ((LoadFile_samples lib f S).1 = true →
      ((LoadFile_samples lib f S).2.Samples.length : Int) = S.header.data.DataSize) := by
  unfold LoadFile_samples
  simp only
  split_ifs with h1 h2
  · simp
  · simp
  · refine ⟨rfl, rfl, rfl, rfl, rfl, fun _ => ?_⟩
    simp only [List.length_take]
    omega

theorem LoadFile_sync_signal (lib : Lib) (S : AudioSignal) (c : parameters) :
    (LoadFile_sync lib S c).2.header = S.header ∧
    (LoadFile_sync lib S c).2.AudioChannels = S.AudioChannels ∧
    (LoadFile_sync lib S c).2.Samples = S.Samples ∧
    (LoadFile_sync lib S c).2.endHz = S.endHz ∧
    (LoadFile_sync lib S c).2.nyquistLimit = S.nyquistLimit := by
  unfold LoadFile_sync
  simp only
  split_ifs <;> exact ⟨rfl, rfl, rfl, rfl, rfl⟩

theorem LoadFile_signal (lib : Lib) (file : Option WavFile) (S : AudioSignal)
    (c : parameters) (name : String) :
    (LoadFile lib file S c name).Signal.header = (LoadFile_read lib file S c).2.1.header ∧
    (LoadFile lib file S c name).Signal.AudioChannels =
      (LoadFile_read lib file S c).2.1.AudioChannels ∧
    (LoadFile lib file S c name).Signal.Samples = (LoadFile_read lib file S c).2.1.Samples ∧
    (LoadFile lib file S c name).Signal.endHz = (LoadFile_read lib file S c).2.1.endHz ∧
    (LoadFile lib file S c name).Signal.nyquistLimit =
      (LoadFile_read lib file S c).2.1.nyquistLimit := by
  have hs := LoadFile_sync_signal lib (LoadFile_read lib file S c).2.1
    (LoadFile_read lib file S c).2.2
  unfold LoadFile
  simp only
  split_ifs
  · exact ⟨rfl, rfl, rfl, rfl, rfl⟩
  · exact hs
  · exact hs
  · exact hs

theorem LoadFile_read_reached (lib : Lib) (f : WavFile) (S : AudioSignal) (c : parameters)
    (hparsed : f.parsed = true)
    (hpcm : f.header.fmt.AudioFormat = lib.WAVE_FORMAT_PCM)
    (hch : (LoadFile_channels { S with header := f.header }).AudioChannels ≠
      lib.INVALID_CHANNELS)
    (hbits : f.header.fmt.bitsPerSample = 16) :
    LoadFile_read lib (some f) S c =
      ((LoadFile_samples lib f (LoadFile_length lib
          (LoadFile_range (LoadFile_channels { S with header := f.header }) c).1
          (LoadFile_range (LoadFile_channels { S with header := f.header }) c).2).1).1,
       (LoadFile_samples lib f (LoadFile_length lib
          (LoadFile_range (LoadFile_channels { S with header := f.header }) c).1
          (LoadFile_range (LoadFile_channels { S with header := f.header }) c).2).1).2,
       (LoadFile_length lib
          (LoadFile_range (LoadFile_channels { S with header := f.header }) c).1
          (LoadFile_range (LoadFile_channels { S with header := f.header }) c).2).2) := by
  have hh : (LoadFile_channels { S with header := f.header }).header = f.header := by
    rw [LoadFile_channels_eq]
  simp only [LoadFile_read, hparsed, hpcm, Bool.not_true, Bool.false_eq_true, if_false, ne_eq,
    not_true_eq_false, hch, hh, hbits]

/-- C10. `LoadFile` never changes `startHz`. When the header and format checks
pass, the configured end of range after the call is
`min (old endHz) (SamplesPerSec/2)`: if `SamplesPerSec/2 < endHz` then
`config->endHz` and `Signal->endHz` both become `SamplesPerSec/2` and
`nyquistLimit` is set on the signal and on the configuration; otherwise
`endHz` and the flags are unchanged. -/
theorem LoadFile_range_check (lib : Lib) (file : Option WavFile) (S : AudioSignal)
    (c : parameters) (name : String) :
    (LoadFile lib file S c name).config.startHz = c.startHz ∧
    ∀ f : WavFile, file = some f → f.parsed = true →
      f.header.fmt.AudioFormat = lib.WAVE_FORMAT_PCM →
      (LoadFile_channels { S with header := f.header }).AudioChannels ≠ lib.INVALID_CHANNELS →
      f.header.fmt.bitsPerSample = 16 →
      (LoadFile lib file S c name).config.endHz =
        min c.endHz ((f.header.fmt.SamplesPerSec / 2 : Nat) : ℚ) ∧
      (((f.header.fmt.SamplesPerSec / 2 : Nat) : ℚ) < c.endHz →
        (LoadFile lib file S c name).config.endHz = ((f.header.fmt.SamplesPerSec / 2 : Nat) : ℚ) ∧
        (LoadFile lib file S c name).Signal.endHz = ((f.header.fmt.SamplesPerSec / 2 : Nat) : ℚ) ∧
        (LoadFile lib file S c name).Signal.nyquistLimit = 1 ∧
        (LoadFile lib file S c name).config.nyquistLimit = 1) ∧
      (¬ ((f.header.fmt.SamplesPerSec / 2 : Nat) : ℚ) < c.endHz →
        (LoadFile lib file S c name).config.endHz = c.endHz ∧
        (LoadFile lib file S c name).Signal.endHz = S.endHz ∧
        (LoadFile lib file S c name).Signal.nyquistLimit = S.nyquistLimit ∧
        (LoadFile lib file S c name).config.nyquistLimit = c.nyquistLimit) := by
  refine ⟨by rw [LoadFile_config]; exact (LoadFile_read_config lib file S c).2, ?_⟩
  intro f hfile hparsed hpcm hch hbits
  subst hfile
  obtain ⟨-, -, -, hend, hny⟩ := LoadFile_signal lib (some f) S c name
  rw [LoadFile_config, hend, hny, LoadFile_read_reached lib f S c hparsed hpcm hch hbits]
  simp only
  obtain ⟨-, -, hse, hsn, -, -⟩ := LoadFile_samples_signal lib f (LoadFile_length lib
    (LoadFile_range (LoadFile_channels { S with header := f.header }) c).1
    (LoadFile_range (LoadFile_channels { S with header := f.header }) c).2).1
  obtain ⟨-, -, hle, hln⟩ := LoadFile_length_config lib
    (LoadFile_range (LoadFile_channels { S with header := f.header }) c).1
    (LoadFile_range (LoadFile_channels { S with header := f.header }) c).2
  rw [hse, hsn, hle, hln, LoadFile_length_signal]
  simp only
  have hh : (LoadFile_channels { S with header := f.header }).header = f.header := by
    rw [LoadFile_channels_eq]
  have he : (LoadFile_channels { S with header := f.header }).endHz = S.endHz := by
    rw [LoadFile_channels_eq]
  have hn : (LoadFile_channels { S with header := f.header }).nyquistLimit = S.nyquistLimit := by
    rw [LoadFile_channels_eq]
  unfold LoadFile_range
  rw [hh]
  by_cases hlt : ((f.header.fmt.SamplesPerSec / 2 : Nat) : ℚ) < c.endHz
  · rw [if_pos hlt]
    exact ⟨(min_eq_right (le_of_lt hlt)).symm, fun _ => ⟨rfl, rfl, rfl, rfl⟩,
      fun h => absurd hlt h⟩
  · rw [if_neg hlt]
    exact ⟨(min_eq_left (not_lt.mp hlt)).symm, fun h => absurd h hlt,
      fun _ => ⟨rfl, he, hn, rfl⟩⟩

theorem LoadFile_range_check_witness :
    (LoadFile (testLib 1 0 (0, 0) 0 8 100 100 0 true) (some (testFile 22050 [1, 2, 3, 4]))
        (freshSignal (testLib 1 0 (0, 0) 0 8 100 100 0 true)) testConfig "a.wav").config.endHz =
      min testConfig.endHz (((testFile 22050 [1, 2, 3, 4]).header.fmt.SamplesPerSec / 2 : Nat) : ℚ) :=
  ((LoadFile_range_check (testLib 1 0 (0, 0) 0 8 100 100 0 true)
    (some (testFile 22050 [1, 2, 3, 4]))
    (freshSignal (testLib 1 0 (0, 0) 0 8 100 100 0 true)) testConfig "a.wav").2
    (testFile 22050 [1, 2, 3, 4]) rfl rfl rfl (by decide) rfl).1

theorem LoadFile_read_loaded (lib : Lib) (file : Option WavFile) (S : AudioSignal)
    (c : parameters) (h : (LoadFile_read lib file S c).1 = true) :
    ((LoadFile_read lib file S c).2.1.Samples.length : Int) =
      (LoadFile_read lib file S c).2.1.header.data.DataSize := by
  cases file with
  | none => simp [LoadFile_read] at h
  | some f =>
    unfold LoadFile_read at h ⊢
    simp only at h ⊢
    obtain ⟨hh, -, -, -, -, hl⟩ := LoadFile_samples_signal lib f (LoadFile_length lib
      (LoadFile_range (LoadFile_channels { S with header := f.header }) c).1
      (LoadFile_range (LoadFile_channels { S with header := f.header }) c).2).1
    split_ifs at h ⊢
    all_goals first
      | (exfalso; simp at h; done)
      | (have e := hl h
         rw [← hh] at e
         exact e)

theorem LoadFile_success (lib : Lib) (file : Option WavFile) (S : AudioSignal)
    (c : parameters) (name : String) (hret : (LoadFile lib file S c name).ret ≠ 0) :
    (LoadFile_read lib file S c).1 = true ∧
    (LoadFile_sync lib (LoadFile_read lib file S c).2.1 (LoadFile_read lib file S c).2.2).1 =
      true ∧
    (LoadFile lib file S c name).Signal.startOffset =
      (LoadFile_sync lib (LoadFile_read lib file S c).2.1
        (LoadFile_read lib file S c).2.2).2.startOffset ∧
    (LoadFile lib file S c name).Signal.endOffset =
      (LoadFile_sync lib (LoadFile_read lib file S c).2.1
        (LoadFile_read lib file S c).2.2).2.endOffset ∧
    (LoadFile lib file S c name).Signal.framerate =
      (LoadFile_sync lib (LoadFile_read lib file S c).2.1
        (LoadFile_read lib file S c).2.2).2.framerate := by
  unfold LoadFile at hret ⊢
  simp only at hret ⊢
  split_ifs at hret ⊢ with h1 h2 h3
  · exact absurd rfl hret
  · exact absurd rfl hret
  · exact ⟨by simpa using h1, by simpa using h2, rfl, rfl, rfl⟩
  · exact ⟨by simpa using h1, by simpa using h2, rfl, rfl, rfl⟩

theorem LoadFile_sync_offsets (lib : Lib) (S : AudioSignal) (c : parameters)
    (h : (LoadFile_sync lib S c).1 = true) :
    (lib.GetFirstSyncIndex c ≠ lib.NO_INDEX →
      (LoadFile_sync lib S c).2.startOffset = lib.DetectPulse S.Samples S.header S.role c ∧
      (LoadFile_sync lib S c).2.startOffset ≠ -1 ∧
      (LoadFile_sync lib S c).2.endOffset =
        lib.DetectEndPulse S.Samples (lib.DetectPulse S.Samples S.header S.role c) S.header
          S.role c ∧
      (LoadFile_sync lib S c).2.endOffset ≠ -1) ∧
    (lib.GetFirstSyncIndex c = lib.NO_INDEX →
      (LoadFile_sync lib S c).2.startOffset =
        (lib.DetectSignalStart S.Samples S.header 0 0 c).1 ∧
      (LoadFile_sync lib S c).2.endOffset =
        lib.SecondsToBytes S.header.fmt.SamplesPerSec
          (lib.GetSignalTotalDuration (LoadFile_sync lib S c).2.framerate c)
          S.AudioChannels) := by
  unfold LoadFile_sync at h ⊢
  simp only at h ⊢
  split_ifs at h ⊢ with h1 h2 h3 h4 h5 h6
  all_goals first
    | (exfalso; simp at h; done)
    | exact ⟨fun _ => ⟨rfl, h2, rfl, h4⟩, fun hn => absurd hn h1⟩
    | exact ⟨fun hn => absurd (not_not.mp h1) hn, fun _ => ⟨rfl, rfl⟩⟩

/-- C8, as stated, fails for a profile without sync pulse trains: on a 4-byte
mono file at 44100 Hz whose signal starts at byte 0, with a timeline of 10
seconds (882000 bytes), `LoadFile` flags the file as small and succeeds with
`endOffset = 882000 > DataSize = 4`. -/
theorem LoadFile_endOffset_beyond_DataSize :
    (LoadFile (testLib 1 0 (0, 4) 0 0 40 40 10 false) (some (testFile 44100 [1, 2, 3, 4]))
        (freshSignal (testLib 1 0 (0, 4) 0 0 40 40 10 false)) testConfig "a.wav").ret = 1 ∧
    (LoadFile (testLib 1 0 (0, 4) 0 0 40 40 10 false) (some (testFile 44100 [1, 2, 3, 4]))
        (freshSignal (testLib 1 0 (0, 4) 0 0 40 40 10 false)) testConfig
          "a.wav").config.smallFile = 1 ∧
    (LoadFile (testLib 1 0 (0, 4) 0 0 40 40 10 false) (some (testFile 44100 [1, 2, 3, 4]))
        (freshSignal (testLib 1 0 (0, 4) 0 0 40 40 10 false)) testConfig
          "a.wav").Signal.endOffset = 882000 ∧
    ¬ ((LoadFile (testLib 1 0 (0, 4) 0 0 40 40 10 false) (some (testFile 44100 [1, 2, 3, 4]))
        (freshSignal (testLib 1 0 (0, 4) 0 0 40 40 10 false)) testConfig
          "a.wav").Signal.endOffset ≤
      (LoadFile (testLib 1 0 (0, 4) 0 0 40 40 10 false) (some (testFile 44100 [1, 2, 3, 4]))
        (freshSignal (testLib 1 0 (0, 4) 0 0 40 40 10 false)) testConfig
          "a.wav").Signal.header.data.DataSize) := by
  refine ⟨?_, ?_, ?_, ?_⟩ <;>
    norm_num [LoadFile, LoadFile_sync, LoadFile_read, LoadFile_channels, LoadFile_range,
      LoadFile_length, LoadFile_samples, testLib, testFile, testHeader, freshSignal, testConfig]

/-- C8, amended. Whenever `LoadFile` succeeds the sample buffer holds
`DataSize` bytes. For a profile with sync pulse trains, and detectors that
keep their contract, `0 <= startOffset <= endOffset <= DataSize`. For a
profile without them, `startOffset` is the result of `DetectSignalStart` and
`endOffset` is the byte length of the total timeline duration, whatever
`DataSize` and `startOffset` are. -/
theorem LoadFile_offsets (lib : Lib) (file : Option WavFile) (S : AudioSignal)
    (c : parameters) (name : String) (hdet : DetectorContract lib)
    (hret : (LoadFile lib file S c name).ret ≠ 0) :
    ((LoadFile lib file S c name).Signal.Samples.length : Int) =
      (LoadFile lib file S c name).Signal.header.data.DataSize ∧
    (lib.GetFirstSyncIndex (LoadFile lib file S c name).config ≠ lib.NO_INDEX →
      0 ≤ (LoadFile lib file S c name).Signal.startOffset ∧
      (LoadFile lib file S c name).Signal.startOffset ≤
        (LoadFile lib file S c name).Signal.endOffset ∧
      (LoadFile lib file S c name).Signal.endOffset ≤
        (LoadFile lib file S c name).Signal.header.data.DataSize) ∧
    (lib.GetFirstSyncIndex (LoadFile lib file S c name).config = lib.NO_INDEX →
      (LoadFile lib file S c name).Signal.startOffset =
        (lib.DetectSignalStart (LoadFile lib file S c name).Signal.Samples
          (LoadFile lib file S c name).Signal.header 0 0
          (LoadFile lib file S c name).config).1 ∧
      (LoadFile lib file S c name).Signal.endOffset =
        lib.SecondsToBytes (LoadFile lib file S c name).Signal.header.fmt.SamplesPerSec
          (lib.GetSignalTotalDuration (LoadFile lib file S c name).Signal.framerate
            (LoadFile lib file S c name).config)
          (LoadFile lib file S c name).Signal.AudioChannels) := by
  have hlen := LoadFile_read_loaded lib file S c
  obtain ⟨hhdr, hch, hsmp, -, -⟩ := LoadFile_signal lib file S c name
  obtain ⟨hread, hsync, hst, hen, hfr⟩ := LoadFile_success lib file S c name hret
  have hlen := hlen hread
  rw [LoadFile_config, hhdr, hch, hsmp, hst, hen, hfr]
  generalize LoadFile_read lib file S c = rd at *
  obtain ⟨ok, S1, c1⟩ := rd
  simp only at hlen hsync ⊢
  obtain ⟨hs1, hs2⟩ := LoadFile_sync_offsets lib S1 c1 hsync
  refine ⟨hlen, fun hfirst => ?_, fun hfirst => hs2 hfirst⟩
  obtain ⟨e1, n1, e2, n2⟩ := hs1 hfirst
  have h1 := (hdet.1 S1.Samples S1.header S1.role c1).resolve_left (e1 ▸ n1)
  have h2 := (hdet.2 S1.Samples (lib.DetectPulse S1.Samples S1.header S1.role c1)
    S1.header S1.role c1).resolve_left (e2 ▸ n2)
  rw [e1, e2]
  exact ⟨h1.1, h2.1, by omega⟩

theorem LoadFile_offsets_witness :
    0 ≤ (LoadFile contractLib (some (testFile 44100 [1, 2, 3, 4])) (freshSignal contractLib)
        testConfig "a.wav").Signal.startOffset ∧
    (LoadFile contractLib (some (testFile 44100 [1, 2, 3, 4])) (freshSignal contractLib)
        testConfig "a.wav").Signal.startOffset ≤
      (LoadFile contractLib (some (testFile 44100 [1, 2, 3, 4])) (freshSignal contractLib)
        testConfig "a.wav").Signal.endOffset ∧
    (LoadFile contractLib (some (testFile 44100 [1, 2, 3, 4])) (freshSignal contractLib)
        testConfig "a.wav").Signal.endOffset ≤
      (LoadFile contractLib (some (testFile 44100 [1, 2, 3, 4])) (freshSignal contractLib)
        testConfig "a.wav").Signal.header.data.DataSize :=
  (LoadFile_offsets contractLib (some (testFile 44100 [1, 2, 3, 4])) (freshSignal contractLib)
    testConfig "a.wav"
    ⟨fun s _ _ _ => Or.inr (by simp [contractLib]),
     fun s start _ _ _ => by
        by_cases hs : start ≤ s.length
        · right; simp [contractLib, hs]
        · left; simp [contractLib, hs]⟩
    (by decide!)).2.1
    (by simp [contractLib, testLib])

/-! ## Lemmas on array accesses and loops -/

theorem getAt_eq_some {α : Type} {l : List α} {i : Int} {v : α} (h : getAt l i = some v) :
    0 ≤ i ∧ l[i.toNat]? = some v := by
  unfold getAt at h
  split at h
  · exact ⟨by assumption, h⟩
  · simp at h

theorem setAt_eq_some {α : Type} {l l' : List α} {i : Int} {v : α}
    (h : setAt l i v = some l') :
    0 ≤ i ∧ i < l.length ∧ l' = l.set i.toNat v := by
  unfold setAt at h
  split at h
  · rename_i hb
    simp only [Option.some.injEq] at h
    exact ⟨hb.1, hb.2, h.symm⟩
  · simp at h

theorem minAmplitudeLoop_eq (l : List Frequency) :
    ∀ m : ℚ, minAmplitudeLoop l m =
      ((l.takeWhile fun f => decide (f.hertz ≠ 0)).map fun f => f.amplitude).foldl min m := by
  induction l with
  | nil => intro m; rfl
  | cons f fs ih =>
    intro m
    unfold minAmplitudeLoop
    by_cases hz : f.hertz = 0
    · simp [hz, List.takeWhile]
    · have e : (if f.amplitude < m then f.amplitude else m) = min m f.amplitude := by
        rcases lt_or_le f.amplitude m with hlt | hle
        · rw [if_pos hlt, min_eq_right (le_of_lt hlt)]
        · rw [if_neg (not_lt.mpr hle), min_eq_left hle]
      rw [if_neg hz, ih, e]
      simp [List.takeWhile, hz]

/-- C12, as stated, fails: for a block whose only extracted entry is at
-50 dBFS, a threshold of -60 dBFS and a signal that has a floor whose
amplitude is 0, the stated maximum is 0 while `ProcessSamples` computes a
cutoff of -50, because a floor amplitude of 0 does not take part. -/
theorem CutOff_ignores_zero_floor :
    statedCutOff toneBlock testConfig unflooredSignal = some 0 ∧
    CutOff toneBlock testConfig unflooredSignal = -50 ∧
    testConfig.ignoreFloor = 0 ∧ unflooredSignal.hasFloor = 1 := by
  refine ⟨?_, ?_, rfl, rfl⟩
  · norm_num [statedCutOff, extractedEntries, toneBlock, testConfig, unflooredSignal, testSignal,
      List.takeWhile, List.min?]
  · norm_num [CutOff, minAmplitudeLoop, toneBlock, testConfig, unflooredSignal, testSignal]

/-- C12, amended. The cutoff computed by `ProcessSamples` is the maximum of:
the minimum of 0 and the amplitudes of the block's extracted frequency
entries (entries before the first zero-hertz entry, at most `MaxFreq` of
them), the configured `significantAmplitude`, and, when `ignoreFloor` is
clear, the signal has a floor and its `floorAmplitude` is not 0, the
`floorAmplitude`; otherwise the floor does not take part. -/
theorem CutOff_eq (AudioArray : AudioBlocks) (config : parameters) (Signal : AudioSignal) :
    CutOff AudioArray config Signal =
      if config.ignoreFloor = 0 ∧ Signal.hasFloor ≠ 0 ∧ Signal.floorAmplitude ≠ 0 then
        max (max (min 0 ((((extractedEntries AudioArray config).map
          fun f => f.amplitude).min?).getD 0)) config.significantAmplitude) Signal.floorAmplitude
      else
        max (min 0 ((((extractedEntries AudioArray config).map
          fun f => f.amplitude).min?).getD 0)) config.significantAmplitude := by
  unfold CutOff extractedEntries
  simp only [minAmplitudeLoop_eq, List.foldl_min]
  generalize min 0 ((List.map (fun f => f.amplitude) (List.takeWhile
    (fun f => decide (f.hertz ≠ 0)) (List.take config.MaxFreq.toNat AudioArray.freq))).min?.getD
    0) = m
  have e : (if m < config.significantAmplitude then config.significantAmplitude else m) =
      max m config.significantAmplitude := by
    rcases lt_or_le m config.significantAmplitude with hlt | hle
    · rw [if_pos hlt, max_eq_right (le_of_lt hlt)]
    · rw [if_neg (not_lt.mpr hle), max_eq_left hle]
  rw [e]
  generalize max m config.significantAmplitude = c
  by_cases h1 : config.ignoreFloor = 0
  · by_cases h2 : Signal.hasFloor ≠ 0
    · by_cases h3 : Signal.floorAmplitude ≠ 0
      · rcases lt_or_le c Signal.floorAmplitude with hlt | hle
        · rw [if_pos ⟨h1, h2, hlt, h3⟩, if_pos ⟨h1, h2, h3⟩, max_eq_right (le_of_lt hlt)]
        · rw [if_neg (fun hc => not_lt.mpr hle hc.2.2.1), if_pos ⟨h1, h2, h3⟩, max_eq_left hle]
      · rw [if_neg (fun hc => h3 hc.2.2.2), if_neg (fun hc => h3 hc.2.2)]
    · rw [if_neg (fun hc => h2 hc.2.1), if_neg (fun hc => h2 hc.2.1)]
  · rw [if_neg (fun hc => h1 hc.1), if_neg (fun hc => h1 hc.1)]

/-- C13: evaluation of the code at the failing input. A mono block of 4
samples in a scratch buffer of 8, no window and the default channel `s`:
the reconstruction pass writes frame `i` to the indices `2i` and `2i+1`, so it
writes the indices 4..7 beyond the block and leaves frame 0 at index 1, where
the windowed arm writes index `i` only. -/
theorem ProcessSamples_mono_unwindowed :
    ProcessSamples (testLib 1 0 (0, 0) 0 0 0 0 0 true) (testEngine []) toneBlock
        [10, 20, 30, 40, 50, 60, 70, 80] 4 4 none plainConfig 1 (testSignal 4 []) =
      some ⟨1, toneBlock, [20, 20, 30, 30, 20, 20, 30, 30],
        { plainConfig with model_plan := true, reverse_plan := true, maxBlanked := 1 }⟩ ∧
    ProcessSamples (testLib 1 0 (0, 0) 0 0 0 0 0 true) (testEngine []) toneBlock
        [10, 20, 30, 40, 50, 60, 70, 80] 4 4 (some [1, 1, 1, 1]) plainConfig 1
        (testSignal 4 []) =
      some ⟨1, toneBlock, [20, 30, 20, 30, 50, 60, 70, 80],
        { plainConfig with model_plan := true, reverse_plan := true, maxBlanked := 1 }⟩ := by
  decide!

theorem tdiv_two (a : Int) : Int.tdiv a 2 = if 0 ≤ a then a / 2 else -((-a) / 2) := by
  split
  · rename_i h
    exact Int.tdiv_eq_ediv h (by decide)
  · rename_i h
    have h' : 0 ≤ -a := by omega
    have := Int.tdiv_eq_ediv h' (show (0 : Int) ≤ 2 by decide)
    rw [Int.neg_tdiv] at this
    omega

theorem trunc_half (a : Int) :
    (if 0 ≤ ((a : ℚ) / 2) then ⌊(a : ℚ) / 2⌋ else ⌈(a : ℚ) / 2⌉) = Int.tdiv a 2 := by
  have hf : ∀ b : Int, ⌊(b : ℚ) / 2⌋ = b / 2 := by
    intro b
    have := Rat.floor_intCast_div_natCast b 2
    simpa using this
  rw [tdiv_two]
  by_cases h : 0 ≤ a
  · have hq : (0 : ℚ) ≤ (a : ℚ) / 2 := by
      have : (0 : ℚ) ≤ (a : ℚ) := by exact_mod_cast h
      positivity
    rw [if_pos hq, if_pos h, hf]
  · have hq : ¬ (0 : ℚ) ≤ (a : ℚ) / 2 := by
      have : (a : ℚ) < 0 := by exact_mod_cast (not_le.mp h)
      intro hc
      linarith
    rw [if_neg hq, if_neg h]
    have e : (a : ℚ) / 2 = -(((-a : Int) : ℚ) / 2) := by push_cast; ring
    rw [e, Int.ceil_neg, hf]

theorem toInt16_half {L R m : Int} (h : toInt16 (((L : ℚ) + (R : ℚ)) / 2) = some m) :
    m = Int.tdiv (L + R) 2 ∧ -32768 ≤ m ∧ m ≤ 32767 := by
  unfold toInt16 at h
  have e : ((L : ℚ) + (R : ℚ)) / 2 = ((L + R : Int) : ℚ) / 2 := by push_cast; ring
  simp only [e, trunc_half] at h
  split at h
  · rename_i hb
    simp only [Option.some.injEq] at h
    subst h
    exact ⟨rfl, hb.1, hb.2⟩
  · simp at h

theorem mixFrame_stereo_average {window : Option (List ℚ)} {i : Int} {sig sig' : List ℚ}
    {smp smp' : List Int}
    (h : mixFrame 's' 2 window i (sig, smp) = some (sig', smp')) :
    0 ≤ i ∧ i < sig.length ∧ i * 2 + 1 < smp.length ∧
    ∃ L R : Int, smp[(i * 2).toNat]? = some L ∧ smp[(i * 2 + 1).toNat]? = some R ∧
      smp' = (smp.set (i * 2).toNat (Int.tdiv (L + R) 2)).set (i * 2 + 1).toNat
        (Int.tdiv (L + R) 2) ∧
      -32768 ≤ Int.tdiv (L + R) 2 ∧ Int.tdiv (L + R) 2 ≤ 32767 ∧
      sig'.length = sig.length ∧
      (∀ j : Nat, j ≠ i.toNat → sig'[j]? = sig[j]?) ∧
      (window = none → sig'[i.toNat]? = some (((L : ℚ) + (R : ℚ)) / 2)) := by
  simp [mixFrame] at h
  simp only [Option.bind_eq_some] at h
  obtain ⟨L, hL, R, hR, sig1, hs1, mixed, hmx, stored, hst, smp1, hw1, smp2, hw2, hwin⟩ := h
  obtain ⟨hi, hL⟩ := getAt_eq_some hL
  obtain ⟨-, hR⟩ := getAt_eq_some hR
  obtain ⟨h0, hlt, hs1⟩ := setAt_eq_some hs1
  obtain ⟨-, hmx⟩ := getAt_eq_some hmx
  obtain ⟨-, -, hw1⟩ := setAt_eq_some hw1
  obtain ⟨-, hlt2, hw2⟩ := setAt_eq_some hw2
  subst hs1 hw1 hw2
  have hmixed : mixed = ((L : ℚ) + (R : ℚ)) / 2 := by
    rw [List.getElem?_set_self (by omega)] at hmx
    exact (Option.some.inj hmx).symm
  subst hmixed
  obtain ⟨hm, hlo, hhi⟩ := toInt16_half hst
  subst hm
  simp only [List.length_set] at hlt2
  cases window with
  | none =>
    simp only [Option.some.injEq, Prod.mk.injEq] at hwin
    obtain ⟨e1, e2⟩ := hwin
    subst e1 e2
    refine ⟨h0, hlt, hlt2, L, R, hL, hR, rfl, hlo, hhi, by simp, fun j hj => ?_, fun _ => ?_⟩
    · rw [List.getElem?_set_ne (fun hc => hj hc.symm)]
    · rw [List.getElem?_set_self (by omega)]
  | some w =>
    simp only [Option.bind_eq_some, Option.some.injEq, Prod.mk.injEq] at hwin
    obtain ⟨x, -, c, -, sig2, hs2, e1, e2⟩ := hwin
    obtain ⟨-, -, hs2⟩ := setAt_eq_some hs2
    subst e1 e2 hs2
    refine ⟨h0, hlt, hlt2, L, R, hL, hR, rfl, hlo, hhi, by simp, fun j hj => ?_,
      fun hc => by simp at hc⟩
    rw [List.getElem?_set_ne (fun hc => hj hc.symm), List.getElem?_set_ne (fun hc => hj hc.symm)]

theorem mixLoop_from (window : Option (List ℚ)) (n : Nat) :
    ∀ (s : Nat) (sig : List ℚ) (smp : List Int) (sig' : List ℚ) (smp' : List Int),
      loopFrom (mixFrame 's' 2 window) n s (sig, smp) = some (sig', smp') →
      smp'.length = smp.length ∧ sig'.length = sig.length ∧
      (∀ k : Nat, k < 2 * s ∨ 2 * (s + n) ≤ k → smp'[k]? = smp[k]?) ∧
      (∀ j : Nat, j < s ∨ s + n ≤ j → sig'[j]? = sig[j]?) ∧
      (∀ j : Nat, s ≤ j → j < s + n →
        ∃ L R : Int, smp[2 * j]? = some L ∧ smp[2 * j + 1]? = some R ∧
          smp'[2 * j]? = some (Int.tdiv (L + R) 2) ∧
          smp'[2 * j + 1]? = some (Int.tdiv (L + R) 2) ∧
          -32768 ≤ Int.tdiv (L + R) 2 ∧ Int.tdiv (L + R) 2 ≤ 32767 ∧
          (window = none → sig'[j]? = some (((L : ℚ) + (R : ℚ)) / 2))) := by
  induction n with
  | zero =>
    intro s sig smp sig' smp' h
    simp only [loopFrom, Option.some.injEq, Prod.mk.injEq] at h
    obtain ⟨e1, e2⟩ := h
    subst e1 e2
    exact ⟨rfl, rfl, fun _ _ => rfl, fun _ _ => rfl, fun j h1 h2 => by omega⟩
  | succ n ih =>
    intro s sig smp sig' smp' h
    simp only [loopFrom, Option.bind_eq_some] at h
    obtain ⟨⟨sig1, smp1⟩, h1, h2⟩ := h
    have h2' : loopFrom (mixFrame 's' 2 window) n ((s + 1 : Nat) : Int) (sig1, smp1) =
        some (sig', smp') := by
      rw [← h2]; congr 1
    obtain ⟨hl, hsl, hout, hsout, hin⟩ := ih (s + 1) sig1 smp1 sig' smp' h2'
    obtain ⟨-, hlt, hlt2, L, R, hL, hR, hsmp1, hlo, hhi, hsl1, hsig1, hwin⟩ :=
      mixFrame_stereo_average h1
    have t0 : ((s : Int) * 2).toNat = 2 * s := by omega
    have t1 : ((s : Int) * 2 + 1).toNat = 2 * s + 1 := by omega
    have t2 : ((s : Int)).toNat = s := by omega
    rw [t0] at hL hsmp1
    rw [t1] at hR hsmp1
    rw [t2] at hsig1 hwin
    have hlen1 : smp1.length = smp.length := by rw [hsmp1]; simp
    have hget1 : ∀ k : Nat, smp1[k]? =
        if k = 2 * s ∨ k = 2 * s + 1 then some (Int.tdiv (L + R) 2) else smp[k]? := by
      intro k
      rw [hsmp1]
      simp only [List.getElem?_set, List.length_set]
      by_cases hk1 : 2 * s + 1 = k
      · have : 2 * s + 1 < smp.length := by omega
        simp [hk1.symm, this]
      · by_cases hk0 : 2 * s = k
        · have : 2 * s < smp.length := by omega
          simp [hk0.symm, this]
        · rw [if_neg hk1, if_neg hk0, if_neg (by omega)]
    refine ⟨hl.trans hlen1, hsl.trans hsl1, fun k hk => ?_, fun j hj => ?_, fun j hj1 hj2 => ?_⟩
    · rw [hout k (by omega), hget1, if_neg (by omega)]
    · rw [hsout j (by omega), hsig1 j (by omega)]
    · by_cases hjs : j = s
      · subst hjs
        refine ⟨L, R, hL, hR, ?_, ?_, hlo, hhi, fun hw => ?_⟩
        · rw [hout _ (by omega), hget1, if_pos (Or.inl rfl)]
        · rw [hout _ (by omega), hget1, if_pos (Or.inr rfl)]
        · rw [hsout _ (by omega)]; exact hwin hw
      · obtain ⟨L', R', hL', hR', ha, hb, hlo', hhi', hw'⟩ := hin j (by omega) (by omega)
        rw [hget1, if_neg (by omega)] at hL' hR'
        exact ⟨L', R', hL', hR', ha, hb, hlo', hhi', hw'⟩

theorem tdiv_two_between (L R : Int) :
    min L R ≤ Int.tdiv (L + R) 2 ∧ Int.tdiv (L + R) 2 ≤ max L R := by
  rw [tdiv_two]
  rcases le_total L R with h | h
  · rw [min_eq_left h, max_eq_right h]
    split <;> omega
  · rw [min_eq_right h, max_eq_left h]
    split <;> omega

theorem toInt16_half_defined (L R : Int) (hL : -32768 ≤ L ∧ L ≤ 32767)
    (hR : -32768 ≤ R ∧ R ≤ 32767) :
    toInt16 (((L : ℚ) + (R : ℚ)) / 2) = some (Int.tdiv (L + R) 2) := by
  have e : ((L : ℚ) + (R : ℚ)) / 2 = ((L + R : Int) : ℚ) / 2 := by push_cast; ring
  unfold toInt16
  simp only [e, trunc_half]
  have hb := tdiv_two_between L R
  rw [if_pos]
  constructor
  · have : -32768 ≤ min L R := le_min hL.1 hR.1
    omega
  · have : max L R ≤ 32767 := max_le hL.2 hR.2
    omega

/-- C14. With channel `s` on a stereo block, when the loop at lines 1083-1105
of `ProcessSamples` completes, for every frame `i` below
`monoSignalSize - zeropadding` both `samples[2i]` and `samples[2i+1]` hold the
same mixed value `(L+R)/2` truncated toward zero, where `L` and `R` are the
original left and right samples; the mixed value lies between `min(L,R)` and
`max(L,R)`, its conversion to 16 bits is defined whenever `L` and `R` are
16-bit values, and without a window the transform input `signal[i]` is
exactly `(L+R)/2`. -/
theorem mixLoop_stereo_average (window : Option (List ℚ)) (mono zp : Int) (signal : List ℚ)
    (samples : List Int) (signal' : List ℚ) (samples' : List Int)
    (h : mixLoop 's' 2 window mono zp signal samples = some (signal', samples')) :
    ∀ i : Nat, (i : Int) < mono - zp →
      ∃ L R : Int, samples[2 * i]? = some L ∧ samples[2 * i + 1]? = some R ∧
        samples'[2 * i]? = some (Int.tdiv (L + R) 2) ∧
        samples'[2 * i + 1]? = some (Int.tdiv (L + R) 2) ∧
        min L R ≤ Int.tdiv (L + R) 2 ∧ Int.tdiv (L + R) 2 ≤ max L R ∧
        -32768 ≤ Int.tdiv (L + R) 2 ∧ Int.tdiv (L + R) 2 ≤ 32767 ∧
        (-32768 ≤ L ∧ L ≤ 32767 → -32768 ≤ R ∧ R ≤ 32767 →
          toInt16 (((L : ℚ) + (R : ℚ)) / 2) = some (Int.tdiv (L + R) 2)) ∧
        (window = none → signal'[i]? = some (((L : ℚ) + (R : ℚ)) / 2)) := by
  intro i hi
  unfold mixLoop at h
  obtain ⟨-, -, -, -, hin⟩ := mixLoop_from window _ 0 signal samples signal' samples' h
  obtain ⟨L, R, hL, hR, ha, hb, hlo, hhi, hw⟩ := hin i (by omega) (by omega)
  exact ⟨L, R, hL, hR, ha, hb, (tdiv_two_between L R).1, (tdiv_two_between L R).2, hlo, hhi,
    toInt16_half_defined L R, hw⟩

theorem mixLoop_stereo_average_witness :
    ∃ L R : Int, [3, 4, -3, -2][2 * 1]? = some L ∧ [3, 4, -3, -2][2 * 1 + 1]? = some R ∧
      [3, 3, -2, -2][2 * 1]? = some (Int.tdiv (L + R) 2) ∧
      [3, 3, -2, -2][2 * 1 + 1]? = some (Int.tdiv (L + R) 2) ∧
      min L R ≤ Int.tdiv (L + R) 2 ∧ Int.tdiv (L + R) 2 ≤ max L R ∧
      -32768 ≤ Int.tdiv (L + R) 2 ∧ Int.tdiv (L + R) 2 ≤ 32767 ∧
      (-32768 ≤ L ∧ L ≤ 32767 → -32768 ≤ R ∧ R ≤ 32767 →
        toInt16 (((L : ℚ) + (R : ℚ)) / 2) = some (Int.tdiv (L + R) 2)) ∧
      ((none : Option (List ℚ)) = none →
        [(7 : ℚ) / 2, -5 / 2, 0][1]? = some (((L : ℚ) + (R : ℚ)) / 2)) :=
  mixLoop_stereo_average none 2 0 [0, 0, 0] [3, 4, -3, -2] [7 / 2, -5 / 2, 0] [3, 3, -2, -2]
    (by decide!) 1 (by decide)

/-! ## The passes over the blocks -/

/-- C15. The noise-floor step of `ProcessFile` (lines 852-861) never lowers
the significance threshold; the threshold becomes the floor amplitude that
`FindFloor` left in the signal when the signal has a floor, `ignoreFloor` is
clear, that amplitude is non-zero and greater than the old threshold, and the
configuration is unchanged otherwise. The whole analysis step (lines 847-868)
never lowers the threshold either. -/
theorem ProcessFile_floor_threshold (eng : Engine) (Signal : AudioSignal) (config : parameters) :
    config.significantAmplitude ≤ (ProcessFile_floor eng Signal config).2.significantAmplitude ∧
    (Signal.hasFloor ≠ 0 ∧ config.ignoreFloor = 0 ∧
      (eng.FindFloor Signal config).floorAmplitude ≠ 0 ∧
      (eng.FindFloor Signal config).floorAmplitude > config.significantAmplitude →
        (ProcessFile_floor eng Signal config).2 =
          { config with significantAmplitude := (eng.FindFloor Signal config).floorAmplitude }) ∧
    (¬ (Signal.hasFloor ≠ 0 ∧ config.ignoreFloor = 0 ∧
      (eng.FindFloor Signal config).floorAmplitude ≠ 0 ∧
      (eng.FindFloor Signal config).floorAmplitude > config.significantAmplitude) →
        (ProcessFile_floor eng Signal config).2 = config) ∧
    (∀ st : FileState,
      st.config.significantAmplitude ≤ (ProcessFile_analysis eng st).config.significantAmplitude) := by
  have key : ∀ (S : AudioSignal) (c : parameters),
      c.significantAmplitude ≤ (ProcessFile_floor eng S c).2.significantAmplitude := by
    intro S c
    unfold ProcessFile_floor
    split
    · simp only
      split
      · rename_i h; exact le_of_lt h.2
      · exact le_refl _
    · exact le_refl _
  refine ⟨key Signal config, ?_, ?_, ?_⟩
  · rintro ⟨h1, h2, h3, h4⟩
    unfold ProcessFile_floor
    rw [if_pos ⟨h1, h2⟩]
    simp only
    rw [if_pos ⟨h3, h4⟩]
  · intro hn
    unfold ProcessFile_floor
    split
    · rename_i h12
      simp only
      split
      · rename_i h34
        exact absurd ⟨h12.1, h12.2, h34.1, h34.2⟩ hn
      · rfl
    · rfl
  · intro st
    unfold ProcessFile_analysis
    split
    · exact le_refl _
    · exact key _ _

theorem memset_all (buf : List Int) :
    memset buf 0 0 buf.length = some (List.replicate buf.length 0) := by
  simp [memset, memWrite]

theorem loadBlock_eq (i : Int) (framerate : ℚ) (size : Int) (st : FileState) :
    loadBlock i framerate size st =
      if st.pos + size > st.Signal.header.data.DataSize then
        some (Flow.stop, { st with buffer := List.replicate st.buffer.length 0 })
      else
        (memRead st.Signal.Samples st.pos size).bind fun block =>
        (memWrite (List.replicate st.buffer.length 0) 0 block).bind fun filled =>
        some (Flow.next, { st with
          buffer := filled,
          copied := st.copied ++ [⟨i, framerate, st.pos, size⟩] }) := by
  unfold loadBlock
  rw [memset_all]
  rfl

theorem Follows.refl (st : FileState) : Follows st st where
  header := rfl
  framerate := rfl
  reference := rfl
  length := rfl
  copied := ⟨[], by simp, by simp⟩
  written := ⟨[], by simp, by simp, fun _ _ => rfl⟩

theorem Follows.trans {a b c : FileState} (h1 : Follows a b) (h2 : Follows b c) :
    Follows a c where
  header := h2.header.trans h1.header
  framerate := h2.framerate.trans h1.framerate
  reference := h2.reference.trans h1.reference
  length := h2.length.trans h1.length
  copied := by
    obtain ⟨m1, e1, p1⟩ := h1.copied
    obtain ⟨m2, e2, p2⟩ := h2.copied
    refine ⟨m1 ++ m2, by rw [e2, e1, List.append_assoc], ?_⟩
    intro x hx
    rcases List.mem_append.mp hx with hx | hx
    · exact p1 x hx
    · have := p2 x hx
      rw [h1.header, h1.framerate, h1.reference] at this
      exact this
  written := by
    obtain ⟨m1, e1, k1, p1⟩ := h1.written
    obtain ⟨m2, e2, k2, p2⟩ := h2.written
    refine ⟨m1 ++ m2, by rw [e2, e1, List.append_assoc], ?_, ?_⟩
    · intro x hx
      rcases List.mem_append.mp hx with hx | hx
      · exact k1 x hx
      · exact k2 x hx
    · intro k hk
      rw [p2 k (fun reg hr => hk reg (List.mem_append.mpr (Or.inr hr))),
        p1 k (fun reg hr => hk reg (List.mem_append.mpr (Or.inl hr)))]

theorem loadBlock_follows {i : Int} {framerate : ℚ} {size : Int} {st : FileState}
    {r : Flow × FileState} (h : loadBlock i framerate size st = some r)
    (hf : framerate = st.Signal.framerate ∨ framerate = st.config.referenceFramerate) :
    Follows st r.2 ∧ r.2.Signal = st.Signal ∧ r.2.config = st.config ∧ r.2.pos = st.pos ∧
    r.2.carry = st.carry ∧ r.2.syncinternal = st.syncinternal ∧
    r.2.syncAdvance = st.syncAdvance ∧ r.2.written = st.written ∧
    r.2.windowUsed = st.windowUsed ∧
    (r.1 = Flow.stop ∨ r.1 = Flow.next) ∧
    (r.1 = Flow.stop →
      st.pos + size > st.Signal.header.data.DataSize ∧ r.2.copied = st.copied ∧
      r.2.buffer = List.replicate st.buffer.length 0) := by
  rw [loadBlock_eq] at h
  split at h
  · rename_i hgt
    simp only [Option.some.injEq] at h
    subst h
    exact ⟨⟨rfl, rfl, rfl, rfl, ⟨[], by simp, by simp⟩, ⟨[], by simp, by simp, fun _ _ => rfl⟩⟩,
      rfl, rfl, rfl, rfl, rfl, rfl, rfl, rfl, Or.inl rfl, fun _ => ⟨hgt, rfl, rfl⟩⟩
  · rename_i hle
    simp only [Option.bind_eq_some, Option.some.injEq] at h
    obtain ⟨block, hb, filled, -, h⟩ := h
    subst h
    have hbd := memRead_bounds hb
    refine ⟨⟨rfl, rfl, rfl, rfl, ⟨[_], rfl, ?_⟩, ⟨[], by simp, by simp, fun _ _ => rfl⟩⟩,
      rfl, rfl, rfl, rfl, rfl, rfl, rfl, rfl, Or.inr rfl, fun h => by simp at h⟩
    intro c hc
    simp only [List.mem_singleton] at hc
    subst hc
    exact ⟨hbd.1, hbd.2.1, by simpa using hle, hf⟩

theorem ProcessSamples_reverse_reference {eng : Engine} {AudioArray : AudioBlocks}
    {samples : List Int} {samplerate : Int} {window : Option (List ℚ)} {config : parameters}
    {Signal : AudioSignal} {mono zp : Int} {boxsize : ℚ} {spectrum : List (ℚ × ℚ)}
    {r : SamplesResult}
    (h : ProcessSamples_reverse eng AudioArray samples samplerate window config Signal mono zp
      boxsize spectrum = some r) :
    r.config.referenceFramerate = config.referenceFramerate := by
  unfold ProcessSamples_reverse at h
  simp only [Option.bind_eq_some, Option.some.injEq] at h
  obtain ⟨blanking, -, smp, -, h⟩ := h
  subst h
  simp only
  split <;> rfl

theorem ProcessSamples_reference {lib : Lib} {eng : Engine} {AudioArray : AudioBlocks}
    {samples : List Int} {size samplerate : Int} {window : Option (List ℚ)}
    {config : parameters} {reverse : Int} {Signal : AudioSignal} {r : SamplesResult}
    (h : ProcessSamples lib eng AudioArray samples size samplerate window config reverse
      Signal = some r) :
    r.config.referenceFramerate = config.referenceFramerate := by
  unfold ProcessSamples at h
  revert h
  lift_lets
  intro _ _ _ _ _ _ _ _ _ c1 c2 h
  have e1 : c1.referenceFramerate = config.referenceFramerate := rfl
  have e2 : c2.referenceFramerate = config.referenceFramerate := by
    show (if reverse ≠ 0 then _ else c1).referenceFramerate = _
    split <;> rfl
  split_ifs at h <;>
    first
    | (simp only [Option.some.injEq] at h; subst h; first | rfl | exact e1 | exact e2)
    | (simp only [Option.bind_eq_some, Option.some.injEq] at h
       obtain ⟨mixed, -, h⟩ := h
       first
       | (subst h; exact e2)
       | exact (ProcessSamples_reverse_reference h).trans e2)

theorem setAt_get {α : Type} {l l' : List α} {i : Int} {v : α} (h : setAt l i v = some l')
    (j : Nat) (hj : (j : Int) ≠ i) : l'[j]? = l[j]? := by
  obtain ⟨h0, hlt, rfl⟩ := setAt_eq_some h
  rw [List.getElem?_set_ne]
  omega

theorem samplesCall_inv {lib : Lib} {eng : Engine} {i size difference reverse : Int}
    {st : FileState} {r : Flow × FileState}
    (h : samplesCall lib eng i size difference reverse st = some r) :
    (r.1 = Flow.next ∨ r.1 = Flow.fail) ∧
    r.2.Signal = { st.Signal with Blocks := r.2.Signal.Blocks } ∧
    (∀ j : Nat, (j : Int) ≠ i → r.2.Signal.Blocks[j]? = st.Signal.Blocks[j]?) ∧
    r.2.config.referenceFramerate = st.config.referenceFramerate ∧
    r.2.pos = st.pos ∧ r.2.carry = st.carry ∧ r.2.syncinternal = st.syncinternal ∧
    r.2.syncAdvance = st.syncAdvance ∧ r.2.written = st.written ∧ r.2.copied = st.copied ∧
    r.2.windowUsed = st.windowUsed := by
  unfold samplesCall at h
  simp only [Option.bind_eq_some, Option.some.injEq] at h
  obtain ⟨block, -, res, hres, blocks, hset, h⟩ := h
  subst h
  refine ⟨?_, rfl, fun j hj => setAt_get hset j hj, ProcessSamples_reference hres,
    rfl, rfl, rfl, rfl, rfl, rfl, rfl⟩
  simp only
  split
  · exact Or.inr rfl
  · exact Or.inl rfl

theorem samplesCall_follows {lib : Lib} {eng : Engine} {i size difference reverse : Int}
    {st : FileState} {r : Flow × FileState}
    (h : samplesCall lib eng i size difference reverse st = some r) : Follows st r.2 := by
  obtain ⟨-, hS, -, hc, -, -, -, -, hw, hcp, -⟩ := samplesCall_inv h
  exact ⟨by rw [hS], by rw [hS], hc, by rw [hS], ⟨[], by simp [hcp], by simp⟩,
    ⟨[], by simp [hw], by simp, fun k _ => by rw [hS]⟩⟩

theorem MoveSampleBlockInternal_zero {lib : Lib} {S : AudioSignal}
    {element pos skip : Int} {config : parameters} {r : Int × AudioSignal}
    (h : MoveSampleBlockInternal lib S element pos skip config = some r) (h0 : r.1 = 0) :
    r.2 = S := by
  rw [MoveSampleBlockInternal_eq] at h
  split at h
  · simp only [Option.some.injEq] at h; subst h; rfl
  · split at h
    · simp only [Option.some.injEq] at h; subst h; rfl
    · split at h
      · simp only [Option.some.injEq] at h; subst h; rfl
      · simp only [Option.bind_eq_some, Option.some.injEq] at h
        obtain ⟨tmp, -, zeroed, -, stored, -, h4⟩ := h
        subst h4
        simp at h0

theorem MoveSampleBlockExternal_zero {lib : Lib} {S : AudioSignal}
    {element pos skip padding : Int} {config : parameters} {r : Int × AudioSignal}
    (h : MoveSampleBlockExternal lib S element pos skip padding config = some r)
    (h0 : r.1 = 0) : r.2 = S := by
  rw [MoveSampleBlockExternal_eq] at h
  split at h
  · simp only [Option.some.injEq] at h; subst h; rfl
  · split at h
    · simp only [Option.some.injEq] at h; subst h; rfl
    · split at h
      · simp only [Option.some.injEq] at h; subst h; rfl
      · simp only [Option.bind_eq_some, Option.some.injEq] at h
        obtain ⟨tmp, -, zeroed, -, stored, -, h4⟩ := h
        subst h4
        simp at h0

theorem MoveSampleBlockInternal_region {lib : Lib} {S : AudioSignal}
    {element pos skip : Int} {config : parameters} {r : Int × AudioSignal}
    (h : MoveSampleBlockInternal lib S element pos skip config = some r) :
    r.2 = { S with Samples := r.2.Samples } ∧
    ∀ k : Nat,
      ¬ (pos ≤ k ∧ (k : Int) < pos + blockBytes lib S element pos config) →
      ¬ (pos ≤ k ∧ (k : Int) < pos + (blockBytes lib S element pos config - skip)) →
      r.2.Samples[k]? = S.Samples[k]? := by
  rcases MoveSampleBlockInternal_ret h with h0 | h1
  · rw [MoveSampleBlockInternal_zero h h0]
    exact ⟨rfl, fun _ _ _ => rfl⟩
  · obtain ⟨r1, r2⟩ := r
    simp only at h1
    subst h1
    obtain ⟨-, tmp, zeroed, stored, h1, h2, h3, h4⟩ := MoveSampleBlockInternal_inv h
    subst h4
    refine ⟨rfl, fun k hk1 hk2 => ?_⟩
    have hb := memset_bounds h2
    have hl := memRead_length h1
    simp only
    have hz : zeroed[k]? = S.Samples[k]? := by rw [memset_get h2, if_neg (by omega)]
    rw [memWrite_get h3]
    split
    · exact hz
    · rw [if_neg (by omega)]; exact hz

theorem MoveSampleBlockExternal_region {lib : Lib} {S : AudioSignal}
    {element pos skip padding : Int} {config : parameters} {r : Int × AudioSignal}
    (h : MoveSampleBlockExternal lib S element pos skip padding config = some r) :
    r.2 = { S with Samples := r.2.Samples } ∧
    ∀ k : Nat,
      ¬ (pos + skip ≤ k ∧
        (k : Int) < pos + skip + movedBytes lib S element pos skip padding config) →
      ¬ (pos ≤ k ∧ (k : Int) < pos + movedBytes lib S element pos skip padding config) →
      r.2.Samples[k]? = S.Samples[k]? := by
  rcases MoveSampleBlockExternal_ret h with h0 | h1
  · rw [MoveSampleBlockExternal_zero h h0]
    exact ⟨rfl, fun _ _ _ => rfl⟩
  · obtain ⟨r1, r2⟩ := r
    simp only at h1
    subst h1
    obtain ⟨-, tmp, zeroed, stored, h1, h2, h3, h4⟩ := MoveSampleBlockExternal_inv h
    subst h4
    refine ⟨rfl, fun k hk1 hk2 => ?_⟩
    have hb := memset_bounds h2
    have hw := memWrite_bounds h3
    have hl := memRead_length h1
    simp only
    have hz : zeroed[k]? = S.Samples[k]? := by rw [memset_get h2, if_neg (by omega)]
    rw [memWrite_get h3]
    split
    · exact hz
    · rw [if_neg (by omega)]; exact hz

theorem ProcessInternal_region {lib : Lib} {S : AudioSignal}
    {element pos si adv k : Int} {config : parameters} {r : InternalResult}
    (h : ProcessInternal lib S element pos si adv k config = some r) :
    r.Signal = { S with Samples := r.Signal.Samples } ∧
    (r.ret = 0 ∨ r.ret = 1) ∧
    ∀ j : Nat,
      (si = 0 ∧ r.ret ≠ 0 →
        ∀ reg ∈ spliceRegions lib S element pos k config, ¬ reg.covers j) →
      r.Signal.Samples[j]? = S.Samples[j]? := by
  by_cases hsi : si = 0
  · subst hsi
    by_cases hk : k = 0
    · subst hk
      rw [ProcessInternal_unknown_eq] at h
      split at h
      · simp only [Option.some.injEq] at h; subst h; exact ⟨rfl, Or.inl rfl, fun _ _ => rfl⟩
      · split at h
        · simp only [Option.some.injEq] at h; subst h; exact ⟨rfl, Or.inl rfl, fun _ _ => rfl⟩
        · obtain ⟨m, hm, hS, -, hcase⟩ := finishInternal_some h
          obtain ⟨hshape, hreg⟩ := MoveSampleBlockExternal_region hm
          rw [hS]
          rcases hcase with ⟨h0, hret, -⟩ | ⟨-, hret, -⟩
          · rw [MoveSampleBlockExternal_zero hm h0]
            exact ⟨rfl, Or.inl hret, fun _ _ => rfl⟩
          · refine ⟨hshape, Or.inr hret, fun j hj => ?_⟩
            have hj := hj ⟨rfl, by rw [hret]; decide⟩
            simp only [spliceRegions, ne_eq, not_true_eq_false, if_false, List.mem_cons,
              List.mem_singleton, List.not_mem_nil, or_false, forall_eq_or_imp, forall_eq,
              Region.covers] at hj
            exact hreg j hj.1 hj.2
    · rw [ProcessInternal_known_eq lib S element pos adv k config hk] at h
      split at h
      · simp only [Option.some.injEq] at h; subst h; exact ⟨rfl, Or.inl rfl, fun _ _ => rfl⟩
      · split at h
        · simp only [Option.some.injEq] at h; subst h; exact ⟨rfl, Or.inl rfl, fun _ _ => rfl⟩
        · obtain ⟨m, hm, hS, -, hcase⟩ := finishInternal_some h
          obtain ⟨hshape, hreg⟩ := MoveSampleBlockInternal_region hm
          rw [hS]
          rcases hcase with ⟨h0, hret, -⟩ | ⟨-, hret, -⟩
          · rw [MoveSampleBlockInternal_zero hm h0]
            exact ⟨rfl, Or.inl hret, fun _ _ => rfl⟩
          · refine ⟨hshape, Or.inr hret, fun j hj => ?_⟩
            have hj := hj ⟨rfl, by rw [hret]; decide⟩
            simp only [spliceRegions, ne_eq, hk, not_false_eq_true, if_true, List.mem_cons,
              List.mem_singleton, List.not_mem_nil, or_false, forall_eq_or_imp, forall_eq,
              Region.covers] at hj
            exact hreg j hj.1 hj.2
  · simp only [ProcessInternal, ne_eq, hsi, not_false_eq_true, if_true, Option.some.injEq] at h
    subst h
    exact ⟨rfl, Or.inr rfl, fun _ _ => rfl⟩

theorem internalCall_inv {lib : Lib} {i k : Int} {st : FileState} {r : Flow × FileState}
    (h : internalCall lib i k st = some r) :
    (r.1 = Flow.next ∨ r.1 = Flow.fail) ∧ Follows st r.2 ∧
    r.2.Signal = { st.Signal with Samples := r.2.Signal.Samples } ∧
    r.2.config = st.config ∧ r.2.copied = st.copied ∧ r.2.pos = st.pos := by
  unfold internalCall at h
  simp only [Option.bind_eq_some, Option.some.injEq] at h
  obtain ⟨res, hres, h⟩ := h
  subst h
  obtain ⟨hshape, hret, hreg⟩ := ProcessInternal_region hres
  refine ⟨?_, ⟨by simp only; rw [hshape], by simp only; rw [hshape], rfl,
    (ProcessInternal_step hres).2.1, ⟨[], by simp, by simp⟩, ?_⟩, hshape, rfl, rfl, rfl⟩
  · simp only
    split
    · exact Or.inr rfl
    · exact Or.inl rfl
  · simp only
    by_cases hc : st.syncinternal = 0 ∧ res.ret ≠ 0
    · rw [if_pos hc]
      refine ⟨_, rfl, ?_, fun j hj => hreg j (fun _ => hj)⟩
      intro reg hreg
      unfold spliceRegions at hreg
      split at hreg <;>
        (simp only [List.mem_cons, List.mem_singleton, List.not_mem_nil, or_false] at hreg
         rcases hreg with rfl | rfl <;> simp)
    · rw [if_neg hc]
      exact ⟨[], by simp, by simp, fun j _ => hreg j (fun h => absurd h hc)⟩

theorem internalSyncs_inv {lib : Lib} {eng : Engine} {i type : Int} {st : FileState}
    {r : Flow × FileState} (h : internalSyncs lib eng i type st = some r) :
    (r.1 = Flow.next ∨ r.1 = Flow.fail) ∧ Follows st r.2 ∧
    r.2.Signal.Blocks = st.Signal.Blocks := by
  unfold internalSyncs at h
  split at h
  · simp only [Option.some.injEq] at h
    subst h
    exact ⟨Or.inl rfl, Follows.refl _, rfl⟩
  · simp only [Option.bind_eq_some] at h
    obtain ⟨r1, h1, h2⟩ := h
    have first : (r1.1 = Flow.next ∨ r1.1 = Flow.fail) ∧ Follows st r1.2 ∧
        r1.2.Signal.Blocks = st.Signal.Blocks := by
      split at h1
      · obtain ⟨a, b, c, -⟩ := internalCall_inv h1
        exact ⟨a, b, by rw [c]⟩
      · simp only [Option.some.injEq] at h1
        subst h1
        exact ⟨Or.inl rfl, Follows.refl _, rfl⟩
    split at h2
    · simp only [Option.some.injEq] at h2
      subst h2
      exact first
    · split at h2
      · obtain ⟨a, b, c, -⟩ := internalCall_inv h2
        exact ⟨a, first.2.1.trans b, by rw [c]; exact first.2.2⟩
      · simp only [Option.some.injEq] at h2
        subst h2
        exact first

theorem Follows.of_same {st st' : FileState}
    (hS : st'.Signal = { st.Signal with Blocks := st'.Signal.Blocks })
    (hc : st'.config.referenceFramerate = st.config.referenceFramerate)
    (hcp : st'.copied = st.copied) (hw : st'.written = st.written) : Follows st st' :=
  ⟨by rw [hS], by rw [hS], hc, by rw [hS], ⟨[], by simp [hcp], by simp⟩,
    ⟨[], by simp [hw], by simp, fun k _ => by rw [hS]⟩⟩

theorem setAt_blockResult {l l' : List AudioBlocks} {i : Int} {b v : AudioBlocks}
    (hg : getAt l i = some b) (hs : setAt l i v = some l')
    (hv : blockResult v = blockResult b) : l'.map blockResult = l.map blockResult := by
  obtain ⟨h0, hlt, rfl⟩ := setAt_eq_some hs
  obtain ⟨-, hb⟩ := getAt_eq_some hg
  apply List.ext_getElem?
  intro j
  simp only [List.getElem?_map, List.getElem?_set]
  split
  · rename_i hij
    subst hij
    split
    · rw [hb]; simp [hv]
    · omega
  · rfl

theorem forwardBlock_cases {lib : Lib} {eng : Engine} {wcfg : parameters} {i : Int}
    {st : FileState} {r : Flow × FileState}
    (h : forwardBlock lib eng wcfg i st = some r) :
    ∃ (block : AudioBlocks) (blocks : List AudioBlocks) (st3 : FileState)
      (loaded : Flow × FileState),
      getAt st.Signal.Blocks i = some block ∧
      setAt st.Signal.Blocks i
        { block with
          index := eng.GetBlockSubIndex st.config i, type := eng.GetBlockType st.config i } =
        some blocks ∧
      st3.Signal = { st.Signal with Blocks := blocks } ∧ st3.config = st.config ∧
      st3.pos = st.pos ∧ st3.copied = st.copied ∧ st3.written = st.written ∧
      st3.buffer = st.buffer ∧
      st3.carry = blockCarry lib eng (blockFramerate st) i st ∧
      loadBlock i (blockFramerate st) (blockSize lib eng (blockFramerate st) i st) st3 =
        some loaded ∧
      ((loaded.1 ≠ Flow.next ∧ r = loaded) ∨
       (loaded.1 = Flow.next ∧ ∃ processed : Flow × FileState,
          (processed = (Flow.next, loaded.2) ∨
            ∃ d, samplesCall lib eng i (blockSize lib eng (blockFramerate st) i st) d 0
              loaded.2 = some processed) ∧
          ((processed.1 ≠ Flow.next ∧ r = processed) ∨
           (processed.1 = Flow.next ∧
            (r = (Flow.fail, processed.2) ∨
             internalSyncs lib eng i (eng.GetBlockType st.config i)
               { processed.2 with
                 pos := processed.2.pos + blockSize lib eng (blockFramerate st) i st +
                   processed.2.carry.2.1 } = some r))))) := by
  unfold forwardBlock at h
  rw [Option.bind_eq_some] at h
  obtain ⟨block, hb, h⟩ := h
  revert h
  lift_lets
  intro type S0 h
  rw [Option.bind_eq_some] at h
  obtain ⟨blocks, hset, h⟩ := h
  revert h
  lift_lets
  intro st1 framerate frames duration sized size st2 difference st3 h
  rw [Option.bind_eq_some] at h
  obtain ⟨loaded, hload, h⟩ := h
  have e3 : st3.Signal = { st.Signal with Blocks := blocks } ∧ st3.config = st.config ∧
      st3.pos = st.pos ∧ st3.copied = st.copied ∧ st3.written = st.written ∧
      st3.buffer = st.buffer ∧ st3.carry = blockCarry lib eng (blockFramerate st) i st := by
    show (if type ≥ eng.TYPE_SILENCE then _ else st2).Signal = _ ∧
      (if type ≥ eng.TYPE_SILENCE then _ else st2).config = _ ∧
      (if type ≥ eng.TYPE_SILENCE then _ else st2).pos = _ ∧
      (if type ≥ eng.TYPE_SILENCE then _ else st2).copied = _ ∧
      (if type ≥ eng.TYPE_SILENCE then _ else st2).written = _ ∧
      (if type ≥ eng.TYPE_SILENCE then _ else st2).buffer = _ ∧
      (if type ≥ eng.TYPE_SILENCE then _ else st2).carry = _
    split <;> exact ⟨rfl, rfl, rfl, rfl, rfl, rfl, rfl⟩
  refine ⟨block, blocks, st3, loaded, hb, hset, e3.1, e3.2.1, e3.2.2.1, e3.2.2.2.1,
    e3.2.2.2.2.1, e3.2.2.2.2.2.1, e3.2.2.2.2.2.2, hload, ?_⟩
  split at h
  · rename_i hne
    simp only [Option.some.injEq] at h
    exact Or.inl ⟨hne, h.symm⟩
  · rename_i hnext
    refine Or.inr ⟨not_not.mp hnext, ?_⟩
    rw [Option.bind_eq_some] at h
    obtain ⟨processed, hproc, h⟩ := h
    refine ⟨processed, ?_, ?_⟩
    · split at hproc
      · exact Or.inr ⟨_, hproc⟩
      · simp only [Option.some.injEq] at hproc
        exact Or.inl hproc.symm
    · revert h
      lift_lets
      intro st4 st5 h
      split at h
      · rename_i hne
        simp only [Option.some.injEq] at h
        exact Or.inl ⟨hne, h.symm⟩
      · rename_i hnext2
        refine Or.inr ⟨not_not.mp hnext2, ?_⟩
        split at h
        · simp only [Option.some.injEq] at h
          exact Or.inl h.symm
        · exact Or.inr h

theorem reverseBlock_cases {lib : Lib} {eng : Engine} {wcfg : parameters} {i : Int}
    {st : FileState} {r : Flow × FileState}
    (h : reverseBlock lib eng wcfg i st = some r) :
    ∃ (block : AudioBlocks) (st3 : FileState) (loaded : Flow × FileState),
      getAt st.Signal.Blocks i = some block ∧
      st3.Signal = st.Signal ∧ st3.config = st.config ∧
      st3.pos = st.pos ∧ st3.copied = st.copied ∧ st3.written = st.written ∧
      st3.buffer = st.buffer ∧
      loadBlock i st.Signal.framerate (blockSize lib eng st.Signal.framerate i st) st3 =
        some loaded ∧
      ((loaded.1 ≠ Flow.next ∧ r = loaded) ∨
       (loaded.1 = Flow.next ∧ ∃ rewritten : Flow × FileState,
          (rewritten = (Flow.next, loaded.2) ∨
            ∃ (d : Int) (processed : Flow × FileState),
              samplesCall lib eng i (blockSize lib eng st.Signal.framerate i st) d 1
                loaded.2 = some processed ∧
              ((processed.1 ≠ Flow.next ∧ rewritten = processed) ∨
               (processed.1 = Flow.next ∧ ∃ rebuilt stored : List Int,
                  memRead processed.2.buffer 0
                    (blockSize lib eng st.Signal.framerate i st) = some rebuilt ∧
                  memWrite processed.2.Signal.Samples processed.2.pos rebuilt = some stored ∧
                  rewritten = (Flow.next, { processed.2 with
                    Signal := { processed.2.Signal with Samples := stored },
                    written := processed.2.written ++
                      [⟨RegionKind.rewrite, processed.2.pos,
                        blockSize lib eng st.Signal.framerate i st⟩] })))) ∧
          ((rewritten.1 ≠ Flow.next ∧ r = rewritten) ∨
           (rewritten.1 = Flow.next ∧ (r.1 = Flow.fail ∨ r.1 = Flow.next) ∧
             r.2 = { rewritten.2 with
               pos := rewritten.2.pos + blockSize lib eng st.Signal.framerate i st +
                 rewritten.2.carry.2.1 })))) := by
  unfold reverseBlock at h
  rw [Option.bind_eq_some] at h
  obtain ⟨block, hb, h⟩ := h
  revert h
  lift_lets
  intro frames duration st1 sized size st3 difference h
  rw [Option.bind_eq_some] at h
  obtain ⟨loaded, hload, h⟩ := h
  have e1 : st1.Signal = st.Signal ∧ st1.config = st.config ∧
      st1.pos = st.pos ∧ st1.copied = st.copied ∧ st1.written = st.written ∧
      st1.buffer = st.buffer ∧ st1.carry = st.carry := by
    show (if block.type ≥ eng.TYPE_SILENCE then _ else st).Signal = _ ∧
      (if block.type ≥ eng.TYPE_SILENCE then _ else st).config = _ ∧
      (if block.type ≥ eng.TYPE_SILENCE then _ else st).pos = _ ∧
      (if block.type ≥ eng.TYPE_SILENCE then _ else st).copied = _ ∧
      (if block.type ≥ eng.TYPE_SILENCE then _ else st).written = _ ∧
      (if block.type ≥ eng.TYPE_SILENCE then _ else st).buffer = _ ∧
      (if block.type ≥ eng.TYPE_SILENCE then _ else st).carry = _
    split <;> exact ⟨rfl, rfl, rfl, rfl, rfl, rfl, rfl⟩
  have e3 : st3.Signal = st.Signal ∧ st3.config = st.config ∧
      st3.pos = st.pos ∧ st3.copied = st.copied ∧ st3.written = st.written ∧
      st3.buffer = st.buffer :=
    ⟨e1.1, e1.2.1, e1.2.2.1, e1.2.2.2.1, e1.2.2.2.2.1, e1.2.2.2.2.2.1⟩
  have esize : size = blockSize lib eng st.Signal.framerate i st := by
    show (eng.SecondsToBytesCarry (st1.Signal.header.fmt.SamplesPerSec : Int)
      (lib.FramesToSeconds st.Signal.framerate (eng.GetBlockFrames st.config i))
      st1.Signal.AudioChannels st1.carry).1 = _
    rw [e1.1, e1.2.2.2.2.2.2]
    rfl
  rw [e3.1] at hload
  rw [esize] at hload h
  refine ⟨block, st3, loaded, hb, e3.1, e3.2.1, e3.2.2.1, e3.2.2.2.1, e3.2.2.2.2.1,
    e3.2.2.2.2.2, hload, ?_⟩
  split at h
  · rename_i hne
    simp only [Option.some.injEq] at h
    exact Or.inl ⟨hne, h.symm⟩
  · rename_i hnext
    refine Or.inr ⟨not_not.mp hnext, ?_⟩
    rw [Option.bind_eq_some] at h
    obtain ⟨rewritten, hrew, h⟩ := h
    refine ⟨rewritten, ?_, ?_⟩
    · split at hrew
      · rw [Option.bind_eq_some] at hrew
        obtain ⟨processed, hproc, hrew⟩ := hrew
        refine Or.inr ⟨_, processed, hproc, ?_⟩
        split at hrew
        · rename_i hne
          simp only [Option.some.injEq] at hrew
          exact Or.inl ⟨hne, hrew.symm⟩
        · rename_i hnext2
          refine Or.inr ⟨not_not.mp hnext2, ?_⟩
          simp only [Option.bind_eq_some, Option.some.injEq] at hrew
          obtain ⟨rebuilt, h1, stored, h2, h3⟩ := hrew
          exact ⟨rebuilt, stored, h1, h2, h3.symm⟩
      · simp only [Option.some.injEq] at hrew
        exact Or.inl hrew.symm
    · revert h
      lift_lets
      intro st4 st5 h
      split at h
      · rename_i hne
        simp only [Option.some.injEq] at h
        exact Or.inl ⟨hne, h.symm⟩
      · rename_i hnext2
        refine Or.inr ⟨not_not.mp hnext2, ?_⟩
        split at h
        · simp only [Option.some.injEq] at h
          subst h
          exact ⟨Or.inl rfl, rfl⟩
        · simp only [Option.some.injEq] at h
          subst h
          exact ⟨Or.inr rfl, rfl⟩

theorem forwardBlock_inv {lib : Lib} {eng : Engine} {wcfg : parameters} {i : Int}
    {st : FileState} {r : Flow × FileState}
    (h : forwardBlock lib eng wcfg i st = some r) :
    Follows st r.2 ∧
    (r.1 = Flow.stop →
      st.pos + blockSize lib eng (blockFramerate st) i st > st.Signal.header.data.DataSize ∧
      r.2.copied = st.copied ∧ r.2.written = st.written ∧
      r.2.Signal.Samples = st.Signal.Samples ∧
      r.2.Signal.Blocks.map blockResult = st.Signal.Blocks.map blockResult ∧
      r.2.config = st.config ∧ r.2.pos = st.pos ∧
      r.2.buffer = List.replicate st.buffer.length 0) := by
  obtain ⟨block, blocks, st3, loaded, hb, hset, hS, hc, hp, hcp, hw, hbuf, -, hload, hcases⟩ :=
    forwardBlock_cases h
  have f3 : Follows st st3 := Follows.of_same (by rw [hS]) (by rw [hc]) hcp hw
  have hf : blockFramerate st = st3.Signal.framerate ∨
      blockFramerate st = st3.config.referenceFramerate := by
    rw [hS, hc]
    unfold blockFramerate
    split
    · exact Or.inl rfl
    · exact Or.inr rfl
  obtain ⟨fl, lS, lc, lp, -, -, -, lw, -, -, lstop⟩ := loadBlock_follows hload hf
  rcases hcases with ⟨-, rfl⟩ | ⟨hnext, processed, hproc, hrest⟩
  · refine ⟨f3.trans fl, fun hs => ?_⟩
    obtain ⟨a, b, c⟩ := lstop hs
    rw [hp, hS] at a
    refine ⟨a, by rw [b, hcp], by rw [lw, hw], by rw [lS, hS], ?_, by rw [lc, hc],
      by rw [lp, hp], by rw [c, hbuf]⟩
    rw [lS, hS]
    exact setAt_blockResult hb hset rfl
  · have fp : Follows loaded.2 processed.2 ∧ (processed.1 = Flow.next ∨ processed.1 = Flow.fail) := by
      rcases hproc with rfl | ⟨d, hs⟩
      · exact ⟨Follows.refl _, Or.inl rfl⟩
      · exact ⟨samplesCall_follows hs, (samplesCall_inv hs).1⟩
    have key : Follows st r.2 ∧ (r.1 = Flow.next ∨ r.1 = Flow.fail) := by
      rcases hrest with ⟨-, rfl⟩ | ⟨-, rfl | hsync⟩
      · exact ⟨(f3.trans fl).trans fp.1, fp.2⟩
      · exact ⟨(f3.trans fl).trans fp.1, Or.inr rfl⟩
      · obtain ⟨a, b, -⟩ := internalSyncs_inv hsync
        have fpos : ∀ p : Int, Follows processed.2 { processed.2 with pos := p } :=
          fun p => Follows.of_same rfl rfl rfl rfl
        exact ⟨((f3.trans fl).trans fp.1).trans ((fpos _).trans b), a⟩
    refine ⟨key.1, fun hs => ?_⟩
    rcases key.2 with h1 | h1 <;> rw [h1] at hs <;> exact absurd hs (by decide)

theorem rewrite_follows {st : FileState} {size : Int} {rebuilt stored : List Int}
    (h1 : memRead st.buffer 0 size = some rebuilt)
    (h2 : memWrite st.Signal.Samples st.pos rebuilt = some stored) :
    Follows st { st with
      Signal := { st.Signal with Samples := stored },
      written := st.written ++ [⟨RegionKind.rewrite, st.pos, size⟩] } := by
  have hl := memRead_length h1
  have hb := memWrite_bounds h2
  refine ⟨rfl, rfl, rfl, memWrite_length h2, ⟨[], by simp, by simp⟩, ⟨_, rfl, ?_, ?_⟩⟩
  · intro reg hreg
    simp only [List.mem_singleton] at hreg
    subst hreg
    simp
  · intro k hk
    have hk := hk _ (List.mem_singleton.mpr rfl)
    simp only [Region.covers] at hk
    show stored[k]? = _
    rw [memWrite_get h2]
    split
    · rfl
    · rw [if_neg (by omega)]

theorem reverseBlock_inv {lib : Lib} {eng : Engine} {wcfg : parameters} {i : Int}
    {st : FileState} {r : Flow × FileState}
    (h : reverseBlock lib eng wcfg i st = some r) :
    Follows st r.2 ∧
    (r.1 = Flow.stop →
      st.pos + blockSize lib eng st.Signal.framerate i st > st.Signal.header.data.DataSize ∧
      r.2.copied = st.copied ∧ r.2.written = st.written ∧
      r.2.Signal.Samples = st.Signal.Samples ∧
      r.2.Signal.Blocks.map blockResult = st.Signal.Blocks.map blockResult ∧
      r.2.config = st.config ∧ r.2.pos = st.pos ∧
      r.2.buffer = List.replicate st.buffer.length 0) := by
  obtain ⟨block, st3, loaded, hb, hS, hc, hp, hcp, hw, hbuf, hload, hcases⟩ :=
    reverseBlock_cases h
  have f3 : Follows st st3 := Follows.of_same (by rw [hS]) (by rw [hc]) hcp hw
  have hf : st.Signal.framerate = st3.Signal.framerate ∨
      st.Signal.framerate = st3.config.referenceFramerate := Or.inl (by rw [hS])
  obtain ⟨fl, lS, lc, lp, -, -, -, lw, -, -, lstop⟩ := loadBlock_follows hload hf
  rcases hcases with ⟨-, rfl⟩ | ⟨hnext, rewritten, hrew, hrest⟩
  · refine ⟨f3.trans fl, fun hs => ?_⟩
    obtain ⟨a, b, c⟩ := lstop hs
    rw [hp, hS] at a
    exact ⟨a, by rw [b, hcp], by rw [lw, hw], by rw [lS, hS], by rw [lS, hS], by rw [lc, hc],
      by rw [lp, hp], by rw [c, hbuf]⟩
  · have fp : Follows loaded.2 rewritten.2 ∧
        (rewritten.1 = Flow.next ∨ rewritten.1 = Flow.fail) := by
      rcases hrew with rfl | ⟨d, processed, hs, hcase⟩
      · exact ⟨Follows.refl _, Or.inl rfl⟩
      · rcases hcase with ⟨-, rfl⟩ | ⟨-, rebuilt, stored, h1, h2, rfl⟩
        · exact ⟨samplesCall_follows hs, (samplesCall_inv hs).1⟩
        · exact ⟨(samplesCall_follows hs).trans (rewrite_follows h1 h2), Or.inl rfl⟩
    have key : Follows st r.2 ∧ (r.1 = Flow.next ∨ r.1 = Flow.fail) := by
      rcases hrest with ⟨-, rfl⟩ | ⟨-, hflow, hr⟩
      · exact ⟨(f3.trans fl).trans fp.1, fp.2⟩
      · have fpos : ∀ p : Int, Follows rewritten.2 { rewritten.2 with pos := p } :=
          fun p => Follows.of_same rfl rfl rfl rfl
        rw [hr]
        exact ⟨((f3.trans fl).trans fp.1).trans (fpos _), hflow.symm⟩
    refine ⟨key.1, fun hs => ?_⟩
    rcases key.2 with h1 | h1 <;> rw [h1] at hs <;> exact absurd hs (by decide)

theorem blocksLoop_follows {body : Int → FileState → Option (Flow × FileState)}
    (hstep : ∀ i st r, body i st = some r → Follows st r.2) (n : Nat) :
    ∀ (i : Int) (st : FileState) (r : Flow × FileState),
      blocksLoop body n i st = some r → Follows st r.2 := by
  induction n with
  | zero =>
    intro i st r h
    simp only [blocksLoop, Option.some.injEq] at h
    subst h
    exact Follows.refl _
  | succ n ih =>
    intro i st r h
    simp only [blocksLoop, Option.bind_eq_some] at h
    obtain ⟨r1, h1, h2⟩ := h
    have f1 := hstep i st r1 h1
    split at h2
    · exact f1.trans (ih _ _ _ h2)
    · simp only [Option.some.injEq] at h2
      subst h2
      exact f1
    · simp only [Option.some.injEq] at h2
      subst h2
      exact f1

theorem blocksLoop_stop {body : Int → FileState → Option (Flow × FileState)} (n : Nat) :
    ∀ (i : Int) (st : FileState) (r : Flow × FileState),
      blocksLoop body n i st = some r → r.1 = Flow.stop →
      ∃ (k : Nat) (st1 : FileState), k < n ∧
        blocksLoop body k i st = some (Flow.next, st1) ∧ body (i + k) st1 = some r ∧
        ∀ m : Nat, k < m → blocksLoop body m i st = some r := by
  induction n with
  | zero =>
    intro i st r h hs
    simp only [blocksLoop, Option.some.injEq] at h
    subst h
    exact absurd hs (by simp)
  | succ n ih =>
    intro i st r h hs
    simp only [blocksLoop, Option.bind_eq_some] at h
    obtain ⟨r1, h1, h2⟩ := h
    obtain ⟨f1, s1⟩ := r1
    cases f1 with
    | next =>
      simp only at h2
      obtain ⟨k, st1, hk, hloop, hbody, hmore⟩ := ih _ _ _ h2 hs
      refine ⟨k + 1, st1, by omega, ?_, ?_, ?_⟩
      · simp only [blocksLoop, h1, Option.some_bind]
        exact hloop
      · rw [← hbody]
        congr 1
        push_cast
        ring
      · intro m hm
        obtain ⟨m', rfl⟩ : ∃ m', m = m' + 1 := ⟨m - 1, by omega⟩
        simp only [blocksLoop, h1, Option.some_bind]
        exact hmore m' (by omega)
    | stop =>
      simp only [Option.some.injEq] at h2
      subst h2
      refine ⟨0, st, by omega, rfl, by simpa using h1, ?_⟩
      intro m hm
      obtain ⟨m', rfl⟩ : ∃ m', m = m' + 1 := ⟨m - 1, by omega⟩
      simp only [blocksLoop, h1, Option.some_bind]
    | fail =>
      simp only [Option.some.injEq] at h2
      subst h2
      exact absurd hs (by simp)

theorem loadBlock_defined (i : Int) (framerate : ℚ) (size : Int) (st : FileState)
    (hpos : 0 ≤ st.pos) (hsize : 0 ≤ size) (hbuf : size ≤ st.buffer.length)
    (hdata : (st.Signal.header.data.DataSize : Int) ≤ st.Signal.Samples.length) :
    ∃ r, loadBlock i framerate size st = some r := by
  rw [loadBlock_eq]
  split
  · exact ⟨_, rfl⟩
  · rename_i hfit
    have hr : memRead st.Signal.Samples st.pos size =
        some ((st.Signal.Samples.drop st.pos.toNat).take size.toNat) := by
      unfold memRead
      rw [if_pos ⟨hpos, hsize, by omega⟩]
    have hlen : (((st.Signal.Samples.drop st.pos.toNat).take size.toNat).length : Int) = size :=
      memRead_length hr
    rw [hr, Option.some_bind]
    unfold memWrite
    rw [if_pos ⟨le_refl _, by rw [List.length_replicate]; omega⟩, Option.some_bind]
    exact ⟨_, rfl⟩

/-- C16. In both loops of `ProcessFile` every block copied into the scratch
buffer lies inside `[0, DataSize)` of the sample buffer. When a loop is left
with `break`, it is because the block it reached would end past `DataSize`:
that block is neither copied nor transformed, the sample buffer, the results
of all blocks and the ranges written are those the earlier blocks left, and
the outcome is the same however many blocks follow. The copy of a block is
defined whenever the position and the block length are not negative, the
scratch buffer holds the block and the sample buffer holds `DataSize` bytes. -/
theorem blocksLoop_end_of_data (lib : Lib) (eng : Engine) (wcfg : parameters)
    (body : Int → FileState → Option (Flow × FileState)) (rate : FileState → ℚ)
    (hbody : (body = forwardBlock lib eng wcfg ∧ rate = blockFramerate) ∨
      (body = reverseBlock lib eng wcfg ∧ rate = fun st => st.Signal.framerate))
    (n : Nat) (i : Int) (st : FileState) (r : Flow × FileState)
    (h : blocksLoop body n i st = some r) :
    (∃ more, r.2.copied = st.copied ++ more ∧
      ∀ c ∈ more, 0 ≤ c.pos ∧ 0 ≤ c.loadedBlockSize ∧
        c.pos + c.loadedBlockSize ≤ st.Signal.header.data.DataSize) ∧
    r.2.Signal.header = st.Signal.header ∧
    (r.1 = Flow.stop → ∃ (k : Nat) (st1 : FileState), k < n ∧
      blocksLoop body k i st = some (Flow.next, st1) ∧
      body (i + k) st1 = some r ∧
      st1.pos + blockSize lib eng (rate st1) (i + k) st1 > st1.Signal.header.data.DataSize ∧
      r.2.copied = st1.copied ∧ r.2.written = st1.written ∧
      r.2.Signal.Samples = st1.Signal.Samples ∧
      r.2.Signal.Blocks.map blockResult = st1.Signal.Blocks.map blockResult ∧
      r.2.config = st1.config ∧ r.2.pos = st1.pos ∧
      ∀ m : Nat, k < m → blocksLoop body m i st = some r) ∧
    (∀ (j : Int) (framerate : ℚ) (size : Int) (s : FileState),
      0 ≤ s.pos → 0 ≤ size → size ≤ s.buffer.length →
      (s.Signal.header.data.DataSize : Int) ≤ s.Signal.Samples.length →
      ∃ p, loadBlock j framerate size s = some p) := by
  have hstep : ∀ i st r, body i st = some r →
      Follows st r.2 ∧
      (r.1 = Flow.stop →
        st.pos + blockSize lib eng (rate st) i st > st.Signal.header.data.DataSize ∧
        r.2.copied = st.copied ∧ r.2.written = st.written ∧
        r.2.Signal.Samples = st.Signal.Samples ∧
        r.2.Signal.Blocks.map blockResult = st.Signal.Blocks.map blockResult ∧
        r.2.config = st.config ∧ r.2.pos = st.pos ∧
        r.2.buffer = List.replicate st.buffer.length 0) := by
    intro i st r hb
    rcases hbody with ⟨rfl, rfl⟩ | ⟨rfl, rfl⟩
    · exact forwardBlock_inv hb
    · exact reverseBlock_inv hb
  have hf := blocksLoop_follows (fun i st r hb => (hstep i st r hb).1) n i st r h
  obtain ⟨more, hmore, hbounds⟩ := hf.copied
  refine ⟨⟨more, hmore, fun c hc => ?_⟩, hf.header, fun hs => ?_,
    fun j framerate size s => loadBlock_defined j framerate size s⟩
  · obtain ⟨a, b, c, -⟩ := hbounds c hc
    exact ⟨a, b, c⟩
  · obtain ⟨k, st1, hk, hloop, hlast, hall⟩ := blocksLoop_stop n i st r h hs
    obtain ⟨a, b, c, d, e, f, g, -⟩ := (hstep _ _ _ hlast).2 hs
    exact ⟨k, st1, hk, hloop, hlast, a, b, c, d, e, f, g, hall⟩

theorem forwardBlock_overflow {lib : Lib} {eng : Engine} {wcfg : parameters} {i : Int}
    {st : FileState} {block : AudioBlocks} (hb : getAt st.Signal.Blocks i = some block)
    (hov : st.pos + blockSize lib eng (blockFramerate st) i st >
      st.Signal.header.data.DataSize) :
    ∃ st', forwardBlock lib eng wcfg i st = some (Flow.stop, st') := by
  obtain ⟨h0, hget⟩ := getAt_eq_some hb
  have hlt : i.toNat < st.Signal.Blocks.length := by
    by_contra hge
    rw [List.getElem?_eq_none (by omega)] at hget
    simp at hget
  unfold forwardBlock
  rw [hb, Option.some_bind]
  lift_lets
  intro type S0
  have hset : ∀ v, setAt st.Signal.Blocks i v = some (st.Signal.Blocks.set i.toNat v) := by
    intro v
    unfold setAt
    rw [if_pos ⟨h0, by omega⟩]
  rw [hset, Option.some_bind]
  lift_lets
  intro st1 framerate frames duration sized size st2 difference st3
  have e3 : st3.Signal.header = st.Signal.header ∧ st3.pos = st.pos := by
    show (if type ≥ eng.TYPE_SILENCE then _ else st2).Signal.header = _ ∧
      (if type ≥ eng.TYPE_SILENCE then _ else st2).pos = _
    split <;> exact ⟨rfl, rfl⟩
  have hl : loadBlock i framerate size st3 =
      some (Flow.stop, { st3 with buffer := List.replicate st3.buffer.length 0 }) := by
    rw [loadBlock_eq, if_pos]
    rw [e3.1, e3.2]
    exact hov
  rw [hl, Option.some_bind, if_pos (by intro hflow; cases hflow)]
  exact ⟨_, rfl⟩

theorem reverseBlock_overflow {lib : Lib} {eng : Engine} {wcfg : parameters} {i : Int}
    {st : FileState} {block : AudioBlocks} (hb : getAt st.Signal.Blocks i = some block)
    (hov : st.pos + blockSize lib eng st.Signal.framerate i st >
      st.Signal.header.data.DataSize) :
    ∃ st', reverseBlock lib eng wcfg i st = some (Flow.stop, st') := by
  unfold reverseBlock
  rw [hb, Option.some_bind]
  lift_lets
  intro frames duration st1 sized size st3 difference
  have e1 : st1.Signal = st.Signal ∧ st1.pos = st.pos ∧ st1.carry = st.carry := by
    show (if block.type ≥ eng.TYPE_SILENCE then _ else st).Signal = _ ∧
      (if block.type ≥ eng.TYPE_SILENCE then _ else st).pos = _ ∧
      (if block.type ≥ eng.TYPE_SILENCE then _ else st).carry = _
    split <;> exact ⟨rfl, rfl, rfl⟩
  have esize : size = blockSize lib eng st.Signal.framerate i st := by
    show (eng.SecondsToBytesCarry (st1.Signal.header.fmt.SamplesPerSec : Int)
      (lib.FramesToSeconds st.Signal.framerate (eng.GetBlockFrames st.config i))
      st1.Signal.AudioChannels st1.carry).1 = _
    rw [e1.1, e1.2.2]
    rfl
  have hl : loadBlock i st3.Signal.framerate size st3 =
      some (Flow.stop, { st3 with buffer := List.replicate st3.buffer.length 0 }) := by
    rw [loadBlock_eq, if_pos]
    show st1.pos + size > st1.Signal.header.data.DataSize
    rw [e1.1, e1.2.1, esize]
    exact hov
  rw [hl, Option.some_bind, if_pos (by intro hflow; cases hflow)]
  exact ⟨_, rfl⟩

theorem loadBlock_fits {i : Int} {framerate : ℚ} {size : Int} {st : FileState}
    {r : Flow × FileState} (hfit : st.pos + size ≤ st.Signal.header.data.DataSize)
    (h : loadBlock i framerate size st = some r) :
    ∃ bytes, memRead st.Signal.Samples st.pos size = some bytes ∧ r.1 = Flow.next ∧
      r.2.buffer = bytes ++ List.replicate (st.buffer.length - bytes.length) 0 := by
  rw [loadBlock_eq, if_neg (by omega)] at h
  simp only [Option.bind_eq_some, Option.some.injEq] at h
  obtain ⟨bytes, hr, filled, hw, h⟩ := h
  subst h
  refine ⟨bytes, hr, rfl, ?_⟩
  unfold memWrite at hw
  split at hw
  · simp only [Option.some.injEq] at hw
    subst hw
    simp
  · simp at hw

theorem blocksLoop_end_of_data_witness :
    shortStop.1 = Flow.stop ∧
    ∃ more, shortStop.2.copied = shortStart.copied ++ more ∧
      ∀ c ∈ more, 0 ≤ c.pos ∧ 0 ≤ c.loadedBlockSize ∧
        c.pos + c.loadedBlockSize ≤ shortStart.Signal.header.data.DataSize :=
  ⟨by decide!,
   (blocksLoop_end_of_data fileLib twoBlocks twoConfig
      (forwardBlock fileLib twoBlocks twoConfig) blockFramerate (Or.inl ⟨rfl, rfl⟩)
      2 0 shortStart shortStop (by decide!)).1⟩

/-- C17, counterexample. On a recording of 12 bytes whose second block of 8
bytes starts at byte 8, four bytes are available from the running position,
but the first loop leaves the scratch buffer all zeros, does not process the
second block and stops. -/
theorem forwardBlock_short_block_not_padded :
    memRead shortSignal.Samples 8 4 = some [5, 0, 6, 0] ∧
    shortRun.map (fun r => (r.1, r.2.pos)) = some (Flow.stop, 8) ∧
    shortRun.map (fun r => r.2.buffer) = some [0, 0, 0, 0, 0, 0, 0, 0] ∧
    shortRun.map (fun r => r.2.Signal.Blocks[1]?) =
      some (some { emptyBlock with index := 1, type := 1 }) := by
  decide!

/-- C17, amended. A block whose byte length exceeds the bytes that remain up
to `DataSize` from the running position is not extracted: in either loop of
`ProcessFile` the scratch buffer is cleared, nothing is copied from the sample
buffer, the block is not processed, and the loop is left. Only a block that
fits is extracted, and then the scratch buffer holds its bytes followed by
zeros. -/
theorem block_past_end_stops (lib : Lib) (eng : Engine) (wcfg : parameters) (i : Int)
    (st : FileState) (block : AudioBlocks) (hb : getAt st.Signal.Blocks i = some block) :
    (st.pos + blockSize lib eng (blockFramerate st) i st > st.Signal.header.data.DataSize →
      ∃ st', forwardBlock lib eng wcfg i st = some (Flow.stop, st') ∧
        st'.buffer = List.replicate st.buffer.length 0 ∧ st'.copied = st.copied ∧
        st'.Signal.Samples = st.Signal.Samples ∧
        st'.Signal.Blocks.map blockResult = st.Signal.Blocks.map blockResult ∧
        st'.pos = st.pos) ∧
    (st.pos + blockSize lib eng st.Signal.framerate i st > st.Signal.header.data.DataSize →
      ∃ st', reverseBlock lib eng wcfg i st = some (Flow.stop, st') ∧
        st'.buffer = List.replicate st.buffer.length 0 ∧ st'.copied = st.copied ∧
        st'.Signal.Samples = st.Signal.Samples ∧
        st'.Signal.Blocks.map blockResult = st.Signal.Blocks.map blockResult ∧
        st'.pos = st.pos) ∧
    (∀ (framerate : ℚ) (size : Int) (r : Flow × FileState),
      st.pos + size ≤ st.Signal.header.data.DataSize →
      loadBlock i framerate size st = some r →
      ∃ bytes, memRead st.Signal.Samples st.pos size = some bytes ∧ r.1 = Flow.next ∧
        r.2.buffer = bytes ++ List.replicate (st.buffer.length - bytes.length) 0) := by
  refine ⟨fun hov => ?_, fun hov => ?_, fun framerate size r hfit h => loadBlock_fits hfit h⟩
  · obtain ⟨st', h⟩ := @forwardBlock_overflow lib eng wcfg i st block hb hov
    obtain ⟨-, a, b, c, d, e, f, g⟩ := (forwardBlock_inv h).2 rfl
    exact ⟨st', h, g, a, c, d, f⟩
  · obtain ⟨st', h⟩ := @reverseBlock_overflow lib eng wcfg i st block hb hov
    obtain ⟨-, a, b, c, d, e, f, g⟩ := (reverseBlock_inv h).2 rfl
    exact ⟨st', h, g, a, c, d, f⟩

theorem block_past_end_stops_witness :
    ∃ st', forwardBlock fileLib twoBlocks twoConfig 1 { shortStart with pos := 8 } =
        some (Flow.stop, st') ∧
      st'.buffer = List.replicate ({ shortStart with pos := 8 } : FileState).buffer.length 0 ∧
      st'.copied = ({ shortStart with pos := 8 } : FileState).copied ∧
      st'.Signal.Samples = ({ shortStart with pos := 8 } : FileState).Signal.Samples ∧
      st'.Signal.Blocks.map blockResult =
        ({ shortStart with pos := 8 } : FileState).Signal.Blocks.map blockResult ∧
      st'.pos = ({ shortStart with pos := 8 } : FileState).pos :=
  (block_past_end_stops fileLib twoBlocks twoConfig 1 { shortStart with pos := 8 } emptyBlock
    (by decide!)).1 (by decide!)

/-- C18. When every block of the timeline has zero frames, `ProcessFile`
returns 0 before its first loop: no block is copied, no range of the sample
buffer is written, and the signal it leaves is the signal it was given. The
helpers of `freq.c` that measure the timeline are assumed to keep
`TimelineContract`. -/
theorem ProcessFile_zero_duration (lib : Lib) (eng : Engine) (Signal : AudioSignal)
    (config : parameters) (hc : TimelineContract lib eng config)
    (hz : ∀ i : Int, 0 ≤ i → i < config.totalChunks → eng.GetBlockFrames config i = 0) :
    ∃ r, ProcessFile lib eng Signal config = some r ∧ r.ret = 0 ∧
      r.state.Signal = Signal ∧ r.state.copied = [] ∧ r.state.written = [] := by
  have hl : lib.FramesToSeconds Signal.framerate (eng.GetLongestElementFrames config) = 0 := by
    rw [hc.1 hz]
    simpa using hc.2 Signal.framerate
  unfold ProcessFile
  lift_lets
  intro longest idle buffersize st0
  have hl' : longest = 0 := hl
  rw [if_pos hl']
  exact ⟨_, rfl, rfl, rfl, rfl, rfl⟩

theorem ProcessFile_zero_duration_witness :
    ∃ r, ProcessFile fileLib emptyTimeline shortSignal twoConfig = some r ∧ r.ret = 0 ∧
      r.state.Signal = shortSignal ∧ r.state.copied = [] ∧ r.state.written = [] :=
  ProcessFile_zero_duration fileLib emptyTimeline shortSignal twoConfig
    ⟨fun _ => rfl, fun framerate => by simp [fileLib, testLib]⟩
    (fun i h0 h2 => by
      have h2' : i < 2 := h2
      interval_cases i <;> rfl)

theorem blockFramerate_eq {st : FileState}
    (h : st.Signal.framerate = st.config.referenceFramerate) :
    blockFramerate st = st.config.referenceFramerate := by
  unfold blockFramerate
  split
  · exact h
  · rfl

theorem ProcessFile_analysis_samples {eng : Engine} (hana : AnalysisContract eng)
    (st : FileState) :
    (ProcessFile_analysis eng st).Signal.Samples = st.Signal.Samples ∧
    (ProcessFile_analysis eng st).written = st.written := by
  unfold ProcessFile_analysis
  split
  · exact ⟨rfl, rfl⟩
  · refine ⟨?_, rfl⟩
    show (ProcessFile_floor eng _ _).1.Samples = _
    have hfloor : ∀ (S : AudioSignal) (c : parameters),
        (ProcessFile_floor eng S c).1.Samples = S.Samples := by
      intro S c
      unfold ProcessFile_floor
      split
      · simp only
        split
        · exact (hana S c).2.2
        · exact (hana S c).2.2
      · rfl
    rw [hfloor, (hana _ _).2.1, (hana _ _).1]

theorem ProcessFile_reverse_inv {lib : Lib} {eng : Engine} {wcfg : parameters}
    {st : FileState} {r : Flow × FileState}
    (h : ProcessFile_reverse lib eng wcfg st = some r) :
    r.2.Signal.Samples.length = st.Signal.Samples.length ∧
    ∃ added tail, r.2.written = st.written ++ added ++ tail ∧
      (∀ reg ∈ added, reg.kind ≠ RegionKind.clear) ∧
      (tail = [] ∨
        ∃ p, tail = [⟨RegionKind.clear, p, r.2.Signal.header.data.DataSize - p⟩]) ∧
      ∀ k : Nat, (∀ reg ∈ added ++ tail, ¬ reg.covers k) →
        r.2.Signal.Samples[k]? = st.Signal.Samples[k]? := by
  unfold ProcessFile_reverse at h
  split at h
  · simp only [Option.some.injEq] at h
    subst h
    exact ⟨rfl, [], [], by simp, by simp, Or.inl rfl, fun _ _ => rfl⟩
  · revert h
    lift_lets
    intro st0 h
    rw [Option.bind_eq_some] at h
    obtain ⟨looped, hloop, h⟩ := h
    have hf : Follows st0 looped.2 :=
      blocksLoop_follows (fun i st r hb => (reverseBlock_inv hb).1) _ 0 st0 looped hloop
    obtain ⟨added, hadded, hkind, hframe⟩ := hf.written
    have hlen : looped.2.Signal.Samples.length = st.Signal.Samples.length := hf.length
    have hadded' : looped.2.written = st.written ++ added := hadded
    have hframe' : ∀ k : Nat, (∀ reg ∈ added, ¬ reg.covers k) →
        looped.2.Signal.Samples[k]? = st.Signal.Samples[k]? := hframe
    split at h
    · simp only [Option.some.injEq] at h
      subst h
      refine ⟨hlen, added, [], by simp [hadded'], hkind, Or.inl rfl, fun k hk => ?_⟩
      exact hframe' k (fun reg hr => hk reg (by simpa using hr))
    · revert h
      lift_lets
      intro st1 S1 h
      rw [Option.bind_eq_some] at h
      obtain ⟨cleared, hclear, h⟩ := h
      revert h
      lift_lets
      intro st2 h
      have hcl := memset_length hclear
      have hb := memset_bounds hclear
      have key : r.2 = st2 := by
        split at h <;> (simp only [Option.some.injEq] at h; subst h; rfl)
      rw [key]
      refine ⟨hcl.trans hlen, added,
        [⟨RegionKind.clear, looped.2.pos, looped.2.Signal.header.data.DataSize - looped.2.pos⟩],
        ?_, hkind, Or.inr ⟨looped.2.pos, rfl⟩, fun k hk => ?_⟩
      · show looped.2.written ++ _ = _
        rw [hadded']
      · show cleared[k]? = _
        have hk1 := hk ⟨RegionKind.clear, looped.2.pos,
          looped.2.Signal.header.data.DataSize - looped.2.pos⟩ (by simp)
        simp only [Region.covers] at hk1
        rw [memset_get hclear, if_neg]
        · exact hframe' k (fun reg hr => hk reg (by simp [hr]))
        · have hb1 : 0 ≤ st1.pos := hb.1
          have hb2 : 0 ≤ (st1.Signal.header.data.DataSize : Int) - st1.pos := hb.2.1
          have hk2 : ¬ (st1.pos ≤ k ∧ (k : Int) < st1.pos +
              ((st1.Signal.header.data.DataSize : Int) - st1.pos)) := hk1
          omega

theorem ProcessFile_written {lib : Lib} {eng : Engine} {Signal : AudioSignal}
    {config : parameters} {r : FileResult} (hana : AnalysisContract eng)
    (h : ProcessFile lib eng Signal config = some r) :
    r.state.Signal.Samples.length = Signal.Samples.length ∧
    ∃ body tail, r.state.written = body ++ tail ∧
      (∀ reg ∈ body, reg.kind ≠ RegionKind.clear) ∧
      (tail = [] ∨
        ∃ p, tail = [⟨RegionKind.clear, p, r.state.Signal.header.data.DataSize - p⟩]) ∧
      ∀ k : Nat, (∀ reg ∈ body ++ tail, ¬ reg.covers k) →
        r.state.Signal.Samples[k]? = Signal.Samples[k]? := by
  have idle : ∀ st : FileState, st.Signal = Signal → st.written = [] →
      st.Signal.Samples.length = Signal.Samples.length ∧
      ∃ body tail, st.written = body ++ tail ∧
        (∀ reg ∈ body, reg.kind ≠ RegionKind.clear) ∧
        (tail = [] ∨
          ∃ p, tail = [⟨RegionKind.clear, p, st.Signal.header.data.DataSize - p⟩]) ∧
        ∀ k : Nat, (∀ reg ∈ body ++ tail, ¬ reg.covers k) →
          st.Signal.Samples[k]? = Signal.Samples[k]? := by
    intro st hS hw
    rw [hS]
    exact ⟨rfl, [], [], by simp [hw], by simp, Or.inl rfl, fun _ _ => rfl⟩
  unfold ProcessFile at h
  revert h
  lift_lets
  intro longest idleState buffersize st0 h
  split at h
  · simp only [Option.some.injEq] at h
    subst h
    exact idle _ rfl rfl
  · split at h
    · simp only [Option.some.injEq] at h
      subst h
      exact idle _ rfl rfl
    · split at h
      · simp only [Option.some.injEq] at h
        subst h
        exact idle _ rfl rfl
      · rw [Option.bind_eq_some] at h
        obtain ⟨looped, hloop, h⟩ := h
        have hf : Follows st0 looped.2 :=
          blocksLoop_follows (fun i st r hb => (forwardBlock_inv hb).1) _ 0 st0 looped hloop
        obtain ⟨added, hadded, hkind, hframe⟩ := hf.written
        have hlen : looped.2.Signal.Samples.length = Signal.Samples.length := hf.length
        have hadded' : looped.2.written = added := by
          rw [hadded]
          show [] ++ added = added
          rfl
        have hframe' : ∀ k : Nat, (∀ reg ∈ added, ¬ reg.covers k) →
            looped.2.Signal.Samples[k]? = Signal.Samples[k]? := hframe
        revert h
        lift_lets
        intro st1 h
        split at h
        · simp only [Option.some.injEq] at h
          subst h
          refine ⟨hlen, added, [], by simp [hadded'], hkind, Or.inl rfl, fun k hk => ?_⟩
          exact hframe' k (fun reg hr => hk reg (by simpa using hr))
        · rw [Option.bind_eq_some] at h
          obtain ⟨rebuilt, hrev, h⟩ := h
          obtain ⟨hlen2, added2, tail, hw2, hkind2, htail, hframe2⟩ :=
            ProcessFile_reverse_inv hrev
          obtain ⟨hs1, hw1⟩ := ProcessFile_analysis_samples hana looped.2
          have hs1' : st1.Signal.Samples = looped.2.Signal.Samples := hs1
          have hw1' : st1.written = looped.2.written := hw1
          have key : r.state = rebuilt.2 := by
            split at h <;> (simp only [Option.some.injEq] at h; subst h; rfl)
          rw [key]
          refine ⟨by rw [hlen2, hs1', hlen], added ++ added2, tail, ?_, ?_, htail,
            fun k hk => ?_⟩
          · rw [hw2, hw1', hadded']
          · intro reg hr
            rcases List.mem_append.mp hr with hr | hr
            · exact hkind reg hr
            · exact hkind2 reg hr
          · rw [hframe2 k (fun reg hr => hk reg (by
              rcases List.mem_append.mp hr with hr | hr
              · simp [hr]
              · simp [hr])), hs1']
            exact hframe' k (fun reg hr => hk reg (by simp [hr]))

/-- C19, counterexample. On the recording of 12 bytes `ProcessFile` rewrites
the first block, bytes 0 to 7, and performs no internal-sync splice; but the
bytes 8 to 11, which hold 5, 0, 6, 0 before the call, are all zero after it:
the clear of the rest of the buffer at line 943 changed them. -/
theorem ProcessFile_clears_rest :
    shortSignal.Samples.drop 8 = [5, 0, 6, 0] ∧
    (ProcessFile fileLib twoBlocks shortSignal twoConfig).map
      (fun r => (r.ret, r.state.written)) =
      some (1, [⟨RegionKind.rewrite, 0, 8⟩, ⟨RegionKind.clear, 8, 4⟩]) ∧
    (ProcessFile fileLib twoBlocks shortSignal twoConfig).map
      (fun r => r.state.Signal.Samples.drop 8) = some [0, 0, 0, 0] := by
  decide!

/-! ## The round trip through the transforms -/

theorem loopFrom_congr {σ : Type} (f g : Int → σ → Option σ) (n : Nat) :
    ∀ (i : Int), (∀ j : Int, i ≤ j → j < i + n → ∀ s, f j s = g j s) →
      ∀ s, loopFrom f n i s = loopFrom g n i s := by
  induction n with
  | zero => intro i _ s; rfl
  | succ n ih =>
    intro i h s
    simp only [loopFrom]
    rw [h i (le_refl _) (by push_cast; omega) s]
    cases hg : g i s with
    | none => rfl
    | some s1 =>
      simp only [Option.some_bind]
      exact ih (i + 1) (fun j h1 h2 => h j (by omega) (by push_cast at h2 ⊢; omega)) s1

theorem writeFrame_eq {channel : Char} (hch : channel = 'l' ∨ channel = 'r' ∨ channel = 's')
    (AudioChannels mono : Int) (signal : List ℚ) (i : Int) (samples : List Int) :
    writeFrame channel AudioChannels mono signal i samples =
      (getAt signal i).bind fun x =>
      (toInt16 (round (x / (mono : ℚ)))).bind fun v =>
      storeFrame channel AudioChannels v i samples := by
  cases hx : getAt signal i with
  | none => simp [writeFrame, hx]
  | some x =>
    cases hv : toInt16 (round (x / (mono : ℚ))) with
    | none =>
      rcases hch with rfl | rfl | rfl
      · simp [writeFrame, hx, hv]
      · simp [writeFrame, hx, hv]
      · simp [writeFrame, hx, hv]
    | some v =>
      rcases hch with rfl | rfl | rfl
      · simp [writeFrame, storeFrame, hx, hv]
      · simp [writeFrame, storeFrame, hx, hv]
      · simp [writeFrame, storeFrame, hx, hv]

theorem getAt_set_ne {α : Type} (l : List α) (k : Nat) (v : α) (j : Int)
    (h : j.toNat ≠ k) : getAt (l.set k v) j = getAt l j := by
  unfold getAt
  split
  · rw [List.getElem?_set_ne (Ne.symm h)]
  · rfl

theorem windowTail_value {window : Option (List ℚ)} {i : Int} {a sig' : List ℚ}
    {b smp' : List Int} {x : ℚ} (hx : a[i.toNat]? = some x) (h0 : 0 ≤ i)
    (h : (match window with
      | some w =>
        (getAt a i).bind fun x =>
          (getAt w i).bind fun c => (setAt a i (x * c)).bind fun r => some (r, b)
      | none => some (a, b)) = some (sig', smp')) :
    smp' = b ∧ sig'.length = a.length ∧
    (∀ j : Nat, j ≠ i.toNat → sig'[j]? = a[j]?) ∧
    ∃ y, (match window with
        | some w => (getAt w i).map fun c => x * c
        | none => some x) = some y ∧ sig'[i.toNat]? = some y := by
  cases window with
  | none =>
    simp only [Option.some.injEq, Prod.mk.injEq] at h
    obtain ⟨rfl, rfl⟩ := h
    exact ⟨rfl, rfl, fun _ _ => rfl, x, rfl, hx⟩
  | some w =>
    simp only [Option.bind_eq_some, Option.some.injEq, Prod.mk.injEq] at h
    obtain ⟨x', hx', c, hc, r, hr, rfl, rfl⟩ := h
    have e : x' = x := by
      have := (getAt_eq_some hx').2
      rw [hx] at this
      exact (Option.some.inj this).symm
    subst e
    obtain ⟨-, hlt, rfl⟩ := setAt_eq_some hr
    refine ⟨rfl, by simp, fun j hj => List.getElem?_set_ne (Ne.symm hj), x' * c, by simp [hc], ?_⟩
    rw [List.getElem?_set_self (by omega)]

theorem setAt_value {α : Type} {l l' : List α} {i : Int} {v : α} (h : setAt l i v = some l') :
    l'[i.toNat]? = some v := by
  obtain ⟨h0, hlt, rfl⟩ := setAt_eq_some h
  rw [List.getElem?_set_self (by omega)]

theorem mixFrame_value {channel : Char} (hch : channel = 'l' ∨ channel = 'r' ∨ channel = 's')
    {AudioChannels : Int} {window : Option (List ℚ)} {i : Int} {sig sig' : List ℚ}
    {smp smp' : List Int}
    (h : mixFrame channel AudioChannels window i (sig, smp) = some (sig', smp')) :
    0 ≤ i ∧ i < sig.length ∧ sig'.length = sig.length ∧
    (∀ j : Nat, j ≠ i.toNat → sig'[j]? = sig[j]?) ∧
    (∃ x, windowedSample channel AudioChannels window smp i = some x ∧
      sig'[i.toNat]? = some x) ∧
    (∀ j : Int, j ≠ i → 0 ≤ j →
      channelSample channel AudioChannels smp' j =
        channelSample channel AudioChannels smp j) := by
  rcases hch with rfl | rfl | rfl
  · simp [mixFrame] at h
    simp only [Option.bind_eq_some] at h
    obtain ⟨a, ha, sig1, hs1, h⟩ := h
    obtain ⟨h0, hlt, e1⟩ := setAt_eq_some hs1
    have hv := setAt_value hs1
    have hcs : channelSample 'l' AudioChannels smp i = some (a : ℚ) := by
      simp [channelSample, ha]
    by_cases hac : AudioChannels = 2
    · subst hac
      rw [if_pos rfl, Option.bind_eq_some] at h
      obtain ⟨smp1, hm1, h⟩ := h
      obtain ⟨e, hl, hj, y, hy, hy'⟩ := windowTail_value hv h0 h
      obtain ⟨-, -, e2⟩ := setAt_eq_some hm1
      refine ⟨h0, hlt, by rw [hl, e1]; simp, fun j hj' => ?_, ⟨y, ?_, hy'⟩, fun j hji hj0 => ?_⟩
      · rw [hj j hj', e1, List.getElem?_set_ne (Ne.symm hj')]
      · simp only [windowedSample, hcs, Option.some_bind]
        exact hy
      · rw [e, e2]
        simp only [channelSample, if_true]
        rw [getAt_set_ne _ _ _ _ (by omega)]
    · rw [if_neg hac] at h
      obtain ⟨e, hl, hj, y, hy, hy'⟩ := windowTail_value hv h0 h
      refine ⟨h0, hlt, by rw [hl, e1]; simp, fun j hj' => ?_, ⟨y, ?_, hy'⟩, fun j hji hj0 => ?_⟩
      · rw [hj j hj', e1, List.getElem?_set_ne (Ne.symm hj')]
      · simp only [windowedSample, hcs, Option.some_bind]
        exact hy
      · rw [e]
  · simp [mixFrame] at h
    simp only [Option.bind_eq_some] at h
    obtain ⟨a, ha, sig1, hs1, smp1, hm1, h⟩ := h
    obtain ⟨h0, hlt, e1⟩ := setAt_eq_some hs1
    have hv := setAt_value hs1
    have hcs : channelSample 'r' AudioChannels smp i = some (a : ℚ) := by
      simp [channelSample, ha]
    obtain ⟨e, hl, hj, y, hy, hy'⟩ := windowTail_value hv h0 h
    obtain ⟨-, -, e2⟩ := setAt_eq_some hm1
    refine ⟨h0, hlt, by rw [hl, e1]; simp, fun j hj' => ?_, ⟨y, ?_, hy'⟩, fun j hji hj0 => ?_⟩
    · rw [hj j hj', e1, List.getElem?_set_ne (Ne.symm hj')]
    · simp only [windowedSample, hcs, Option.some_bind]
      exact hy
    · rw [e, e2]
      simp only [channelSample, Char.reduceEq, if_false, if_true]
      rw [getAt_set_ne _ _ _ _ (by omega)]
  · simp [mixFrame] at h
    simp only [Option.bind_eq_some] at h
    obtain ⟨L, hL, R, hR, sig1, hs1, mixed, hmx, stored, hst, smp1, hw1, smp2, hw2, h⟩ := h
    obtain ⟨h0, hlt, e1⟩ := setAt_eq_some hs1
    have hv := setAt_value hs1
    have hcs : channelSample 's' AudioChannels smp i = some (((L : ℚ) + (R : ℚ)) / 2) := by
      simp [channelSample, hL, hR]
    obtain ⟨e, hl, hj, y, hy, hy'⟩ := windowTail_value hv h0 h
    obtain ⟨-, -, e2⟩ := setAt_eq_some hw1
    obtain ⟨-, -, e3⟩ := setAt_eq_some hw2
    refine ⟨h0, hlt, by rw [hl, e1]; simp, fun j hj' => ?_, ⟨y, ?_, hy'⟩, fun j hji hj0 => ?_⟩
    · rw [hj j hj', e1, List.getElem?_set_ne (Ne.symm hj')]
    · simp only [windowedSample, hcs, Option.some_bind]
      exact hy
    · rw [e, e3, e2]
      simp only [channelSample, Char.reduceEq, if_false]
      rw [getAt_set_ne _ _ _ _ (by omega), getAt_set_ne _ _ _ _ (by omega),
        getAt_set_ne _ _ _ _ (by omega), getAt_set_ne _ _ _ _ (by omega)]

theorem mixLoop_values {channel : Char} (hch : channel = 'l' ∨ channel = 'r' ∨ channel = 's')
    (AudioChannels : Int) (window : Option (List ℚ)) (n : Nat) :
    ∀ (s : Nat) (sig : List ℚ) (smp : List Int) (sig' : List ℚ) (smp' : List Int),
      loopFrom (mixFrame channel AudioChannels window) n s (sig, smp) = some (sig', smp') →
      sig'.length = sig.length ∧
      (∀ j : Nat, j < s ∨ s + n ≤ j → sig'[j]? = sig[j]?) ∧
      (∀ j : Nat, s ≤ j → j < s + n →
        ∃ x, windowedSample channel AudioChannels window smp j = some x ∧
          sig'[j]? = some x) := by
  induction n with
  | zero =>
    intro s sig smp sig' smp' h
    simp only [loopFrom, Option.some.injEq, Prod.mk.injEq] at h
    obtain ⟨rfl, rfl⟩ := h
    exact ⟨rfl, fun _ _ => rfl, fun j h1 h2 => by omega⟩
  | succ n ih =>
    intro s sig smp sig' smp' h
    simp only [loopFrom, Option.bind_eq_some] at h
    obtain ⟨⟨sig1, smp1⟩, h1, h2⟩ := h
    have h2' : loopFrom (mixFrame channel AudioChannels window) n ((s + 1 : Nat) : Int)
        (sig1, smp1) = some (sig', smp') := by
      rw [← h2]; congr 1
    obtain ⟨hl, hout, hin⟩ := ih (s + 1) sig1 smp1 sig' smp' h2'
    obtain ⟨-, -, hl1, hother, ⟨x, hx, hx'⟩, hkeep⟩ := mixFrame_value hch h1
    have t : ((s : Int)).toNat = s := by omega
    rw [t] at hother hx'
    refine ⟨hl.trans hl1, fun j hj => ?_, fun j hj1 hj2 => ?_⟩
    · rw [hout j (by omega), hother j (by omega)]
    · by_cases hjs : j = s
      · subst hjs
        exact ⟨x, hx, by rw [hout j (by omega)]; exact hx'⟩
      · obtain ⟨y, hy, hy'⟩ := hin j (by omega) (by omega)
        refine ⟨y, ?_, hy'⟩
        rw [← hy]
        unfold windowedSample
        rw [hkeep (j : Int) (by omega) (by omega)]

theorem blankLoop_count (eng : Engine) (config : parameters) (Signal : AudioSignal)
    (mono startBin endBin : Int) (cutoff : ℚ) (n : Nat) :
    ∀ (i : Int) (sp : List (ℚ × ℚ)) (c : Int) (sp' : List (ℚ × ℚ)) (c' : Int),
      loopFrom (blankBin eng config Signal mono startBin endBin cutoff) n i (sp, c) =
        some (sp', c') →
      c ≤ c' ∧ (c' = c → sp' = sp) := by
  induction n with
  | zero =>
    intro i sp c sp' c' h
    simp only [loopFrom, Option.some.injEq, Prod.mk.injEq] at h
    obtain ⟨rfl, rfl⟩ := h
    exact ⟨le_refl _, fun _ => rfl⟩
  | succ n ih =>
    intro i sp c sp' c' h
    simp only [loopFrom, Option.bind_eq_some] at h
    obtain ⟨⟨sp1, c1⟩, h1, h2⟩ := h
    obtain ⟨hle, heq⟩ := ih _ _ _ _ _ h2
    have hstep : (c1 = c ∧ sp1 = sp) ∨ c1 = c + 1 := by
      simp [blankBin] at h1
      simp only [Option.bind_eq_some] at h1
      obtain ⟨z, -, h1⟩ := h1
      split at h1
      · simp only [Option.bind_eq_some, Option.some.injEq, Prod.mk.injEq] at h1
        obtain ⟨s2, -, -, hc⟩ := h1
        exact Or.inr hc.symm
      · simp only [Option.some.injEq, Prod.mk.injEq] at h1
        exact Or.inl ⟨h1.2.symm, h1.1.symm⟩
    rcases hstep with ⟨e1, e2⟩ | e1
    · subst e1 e2
      exact ⟨hle, heq⟩
    · exact ⟨by omega, fun h => by omega⟩

theorem writeBack_eq (window : Option (List ℚ)) (config : parameters) (Signal : AudioSignal)
    (mono zp : Int) (signal : List ℚ) (samples : List Int) :
    writeBack window config Signal mono zp signal samples =
      loopFrom (writeFrame (writeChannel window config Signal) Signal.AudioChannels mono signal)
        (mono - zp).toNat 0 samples := by
  cases window <;> rfl

theorem writeChannel_cases {window : Option (List ℚ)} {config : parameters}
    {Signal : AudioSignal}
    (hch : config.channel = 'l' ∨ config.channel = 'r' ∨ config.channel = 's') :
    (selectedChannel Signal config = 'l' ∨ selectedChannel Signal config = 'r' ∨
      selectedChannel Signal config = 's') ∧
    (writeChannel window config Signal = 'l' ∨ writeChannel window config Signal = 'r' ∨
      writeChannel window config Signal = 's') := by
  have hs : selectedChannel Signal config = 'l' ∨ selectedChannel Signal config = 'r' ∨
      selectedChannel Signal config = 's' := by
    unfold selectedChannel
    split
    · exact Or.inl rfl
    · exact hch
  refine ⟨hs, ?_⟩
  cases window with
  | none => exact hch
  | some w => exact hs

/-! ## The command line -/

/-- C22: evaluation of the code at the failing input. The default window is
`t`, and `commandline_wave` stores each of the kinds `n`, `t`, `h` and `f`
given with `-w` and returns 1; but for the kind `m`, which the usage text
lists as Hamming, it returns 0 at that option and leaves the window at its
default. -/
theorem commandline_wave_window_m :
    (CleanParameters testLimits).window = 't' ∧
    (∀ kind ∈ ['n', 't', 'h', 'f'],
      (commandline_wave testLimits [optReference, optWindow kind] 0 true true).1 = 1 ∧
      (commandline_wave testLimits [optReference, optWindow kind] 0 true true).2.window =
        kind) ∧
    (commandline_wave testLimits [optReference] 0 true true).1 = 1 ∧
    (waveOption testLimits (optWindow 'm')
      ⟨CleanParameters testLimits, 1, false⟩).1 = false ∧
    (commandline_wave testLimits [optReference, optWindow 'm'] 0 true true).1 = 0 ∧
    (commandline_wave testLimits [optReference, optWindow 'm'] 0 true true).2.window =
      't' := by
  decide!

theorem commandline_wave_range (lim : Limits) (options : List CliOption) (extra : Nat)
    (opens logOpens : Bool) (c : parameters)
    (h : commandline_wave lim options extra opens logOpens = (1, c)) :
    c.startHz < c.endHz := by
  unfold commandline_wave at h
  revert h
  lift_lets
  intro c0 cfg0 parsed config h
  split_ifs at h with h1 h2 h3 h4 h5 h6
  all_goals simp only [Prod.mk.injEq] at h
  all_goals first
    | exact absurd h.1 (by decide)
    | (rw [← h.2]; exact not_le.mp h4)

/-- C27: evaluation of the code at the failing input. With `-s 12000` the
command line succeeds and leaves `startHz = 12000 < endHz = 20000`; a file
sampled at 22050 Hz then makes `LoadFile` clamp `endHz` to 11025 while
`startHz` stays, so `startHz < endHz` no longer holds and, for a block of one
second, `startBin = 12000 > endBin = 11025`. Whenever the command line
succeeds it leaves `startHz < endHz`. -/
theorem LoadFile_range_inverts :
    (∀ (lim : Limits) (options : List CliOption) (extra : Nat) (opens logOpens : Bool)
      (c : parameters), commandline_wave lim options extra opens logOpens = (1, c) →
      c.startHz < c.endHz) ∧
    (commandline_wave testLimits [optReference, optStart 12000] 0 true true).1 = 1 ∧
    (commandline_wave testLimits [optReference, optStart 12000] 0 true true).2.startHz <
      (commandline_wave testLimits [optReference, optStart 12000] 0 true true).2.endHz ∧
    (LoadFile_range (testSignal 22050 [])
      (commandline_wave testLimits [optReference, optStart 12000] 0 true true).2).2.startHz =
      12000 ∧
    (LoadFile_range (testSignal 22050 [])
      (commandline_wave testLimits [optReference, optStart 12000] 0 true true).2).2.endHz =
      11025 ∧
    ⌊(LoadFile_range (testSignal 22050 [])
      (commandline_wave testLimits [optReference, optStart 12000] 0 true true).2).2.endHz * 1⌋ <
    ⌊(LoadFile_range (testSignal 22050 [])
      (commandline_wave testLimits [optReference, optStart 12000] 0 true true).2).2.startHz * 1⌋ := by
  refine ⟨commandline_wave_range, ?_⟩
  decide!

/-! ## Bounds of the block moves -/

theorem memRead_defined (buf : List Int) (src n : Int)
    (h : 0 ≤ src ∧ 0 ≤ n ∧ src + n ≤ buf.length) :
    ∃ d, memRead buf src n = some d ∧ (d.length : Int) = n := by
  have e : memRead buf src n = some ((buf.drop src.toNat).take n.toNat) := by
    unfold memRead
    rw [if_pos h]
  exact ⟨_, e, memRead_length e⟩

theorem memWrite_defined (buf : List Int) (dst : Int) (data : List Int)
    (h : 0 ≤ dst ∧ dst + data.length ≤ buf.length) :
    ∃ b, memWrite buf dst data = some b ∧ b.length = buf.length := by
  have e : memWrite buf dst data =
      some (buf.take dst.toNat ++ data ++ buf.drop (dst.toNat + data.length)) := by
    unfold memWrite
    rw [if_pos h]
  exact ⟨_, e, memWrite_length e⟩

theorem memset_defined (buf : List Int) (dst c n : Int)
    (h : 0 ≤ dst ∧ 0 ≤ n ∧ dst + n ≤ buf.length) :
    ∃ b, memset buf dst c n = some b ∧ b.length = buf.length := by
  unfold memset
  rw [if_pos h.2.1]
  apply memWrite_defined
  rw [List.length_replicate]
  refine ⟨h.1, ?_⟩
  have : ((n.toNat : Nat) : Int) = n := Int.toNat_of_nonneg h.2.1
  omega

theorem blockBytes_le (lib : Lib) (S : AudioSignal) (element pos : Int) (config : parameters) :
    pos + blockBytes lib S element pos config ≤ S.header.data.DataSize := by
  unfold blockBytes
  lift_lets
  intro bytes
  split <;> omega

theorem movedBytes_bounds (lib : Lib) (S : AudioSignal) (element pos skip padding : Int)
    (config : parameters) (hpad : padding ≤ skip)
    (hlt : skip < blockBytes lib S element pos config) :
    0 < movedBytes lib S element pos skip padding config ∧
    pos + skip + movedBytes lib S element pos skip padding config ≤
      S.header.data.DataSize := by
  have hb := blockBytes_le lib S element pos config
  unfold movedBytes
  lift_lets
  intro bytes bytes2
  have e : bytes2 = if pos + skip + bytes - padding > S.header.data.DataSize
      then S.header.data.DataSize - (pos + skip) + padding else bytes := rfl
  have hbytes : bytes = blockBytes lib S element pos config := rfl
  rw [e]
  split <;> omega

/-- C23. For `pos >= 0`, `skip >= 0` and `0 <= padding <= skip`, on a sample
buffer that holds `DataSize` bytes, `MoveSampleBlockInternal` and
`MoveSampleBlockExternal` are defined, so every byte they access is inside
the buffer; and once the test `bytes <= skip` has passed, the sizes they
compute are strictly positive and bounded by `DataSize`: the internal move
reads `[pos+skip, pos+bytes)`, zeroes `[pos, pos+bytes)` and writes
`[pos, pos+bytes-skip)`; the external move reads and zeroes
`[pos+skip, pos+skip+n)` and writes `[pos, pos+n)` for its buffer size `n`.
A call that returns 1 has passed that test. -/
theorem MoveSampleBlock_in_bounds (lib : Lib) (S : AudioSignal)
    (element pos skip padding : Int) (config : parameters)
    (hpos : 0 ≤ pos) (hskip : 0 ≤ skip) (hpad : 0 ≤ padding ∧ padding ≤ skip)
    (hdata : (S.header.data.DataSize : Int) ≤ S.Samples.length) :
    (∃ r, MoveSampleBlockInternal lib S element pos skip config = some r ∧
      (r.1 = 1 → skip < blockBytes lib S element pos config)) ∧
    (∃ r, MoveSampleBlockExternal lib S element pos skip padding config = some r ∧
      (r.1 = 1 → skip < blockBytes lib S element pos config)) ∧
    (skip < blockBytes lib S element pos config →
      0 < blockBytes lib S element pos config - skip ∧
      0 ≤ pos + skip ∧
      pos + skip + (blockBytes lib S element pos config - skip) ≤ S.header.data.DataSize ∧
      pos + blockBytes lib S element pos config ≤ S.header.data.DataSize ∧
      pos + (blockBytes lib S element pos config - skip) ≤ S.header.data.DataSize ∧
      0 < movedBytes lib S element pos skip padding config ∧
      pos + skip + movedBytes lib S element pos skip padding config ≤
        S.header.data.DataSize ∧
      pos + movedBytes lib S element pos skip padding config ≤ S.header.data.DataSize) := by
  have hb := blockBytes_le lib S element pos config
  refine ⟨?_, ?_, fun hlt => ?_⟩
  · rw [MoveSampleBlockInternal_eq]
    split
    · exact ⟨_, rfl, fun h => by simp at h⟩
    · split
      · exact ⟨_, rfl, fun h => by simp at h⟩
      · rename_i hlt
        have hlt' := not_le.mp hlt
        split
        · exact ⟨_, rfl, fun h => by simp at h⟩
        · obtain ⟨tmp, h1, hl⟩ := memRead_defined S.Samples (pos + skip)
            (blockBytes lib S element pos config - skip) ⟨by omega, by omega, by omega⟩
          obtain ⟨zeroed, h2, hz⟩ := memset_defined S.Samples pos 0
            (blockBytes lib S element pos config) ⟨hpos, by omega, by omega⟩
          obtain ⟨stored, h3, -⟩ := memWrite_defined zeroed pos tmp ⟨hpos, by omega⟩
          rw [h1, Option.some_bind, h2, Option.some_bind, h3, Option.some_bind]
          exact ⟨_, rfl, fun _ => hlt'⟩
  · rw [MoveSampleBlockExternal_eq]
    split
    · exact ⟨_, rfl, fun h => by simp at h⟩
    · split
      · exact ⟨_, rfl, fun h => by simp at h⟩
      · rename_i hlt
        have hlt' := not_le.mp hlt
        obtain ⟨hm1, hm2⟩ := movedBytes_bounds lib S element pos skip padding config
          hpad.2 hlt'
        split
        · exact ⟨_, rfl, fun h => by simp at h⟩
        · obtain ⟨tmp, h1, hl⟩ := memRead_defined S.Samples (pos + skip)
            (movedBytes lib S element pos skip padding config) ⟨by omega, by omega, by omega⟩
          obtain ⟨zeroed, h2, hz⟩ := memset_defined S.Samples (pos + skip) 0
            (movedBytes lib S element pos skip padding config) ⟨by omega, by omega, by omega⟩
          obtain ⟨stored, h3, -⟩ := memWrite_defined zeroed pos tmp ⟨hpos, by omega⟩
          rw [h1, Option.some_bind, h2, Option.some_bind, h3, Option.some_bind]
          exact ⟨_, rfl, fun _ => hlt'⟩
  · obtain ⟨hm1, hm2⟩ := movedBytes_bounds lib S element pos skip padding config
      hpad.2 hlt
    exact ⟨by omega, by omega, by omega, hb, by omega, hm1, hm2, by omega⟩

theorem MoveSampleBlock_in_bounds_witness :
    ∃ r, MoveSampleBlockInternal (testLib 5 0 (0, 0) 0 0 0 0 0 true)
        (testSignal 1 [1, 2, 3, 4, 5, 6]) 0 2 1 testConfig = some r ∧
      (r.1 = 1 → 1 < blockBytes (testLib 5 0 (0, 0) 0 0 0 0 0 true)
        (testSignal 1 [1, 2, 3, 4, 5, 6]) 0 2 testConfig) :=
  (MoveSampleBlock_in_bounds (testLib 5 0 (0, 0) 0 0 0 0 0 true)
    (testSignal 1 [1, 2, 3, 4, 5, 6]) 0 2 1 1 testConfig (by decide) (by decide)
    (by decide) (by decide)).1

/-! ## The rest of the buffer, the two blanking passes, the sync toggle -/

/-- C24: evaluation of the code at the failing input. The only block of the
timeline ends exactly at `DataSize = 8` and the byte conversion discards two
bytes after it: the test `pos + loadedBlockSize > DataSize` passes, the
second loop ends with `pos = 10 > DataSize`, and the clear of the rest of the
buffer, `memset(Samples + pos, 0, DataSize - pos)`, is called with the length
`-2`, so `ProcessFile` has no defined result. -/
theorem ProcessFile_reverse_pos_past_end :
    exactSignal.header.data.DataSize = 8 ∧
    (blocksLoop (reverseBlock fileLib discardEngine oneConfig) 1 0
      (ProcessFile_start fileLib discardEngine exactSignal oneConfig 8)).map
        (fun r => (r.1, r.2.pos)) = some (Flow.next, 10) ∧
    memset exactSignal.Samples 10 0 (8 - 10) = none ∧
    ProcessFile_reverse fileLib discardEngine oneConfig
      (ProcessFile_start fileLib discardEngine exactSignal oneConfig 8) = none ∧
    ProcessFile fileLib discardEngine exactSignal oneConfig = none := by
  decide!

/-- C26. `ProcessInternal` is a two-state toggle. Called with the flag set it
returns 1 and leaves the flag clear, the signal and the advance counter as
they were. Called with the flag clear it leaves the flag set whatever it
returns. So after a call with the flag clear that returns 1, the next call
only clears the flag. -/
theorem ProcessInternal_toggle (lib : Lib) (S : AudioSignal)
    (element pos si adv k : Int) (config : parameters) :
    (si ≠ 0 →
      ProcessInternal lib S element pos si adv k config = some ⟨1, S, 0, adv⟩) ∧
    (si = 0 → ∀ r, ProcessInternal lib S element pos si adv k config = some r →
      r.syncinternal = 1 ∧
      ∀ element2 pos2 k2 : Int,
        ProcessInternal lib r.Signal element2 pos2 r.syncinternal r.advanceFrames k2 config =
          some ⟨1, r.Signal, 0, r.advanceFrames⟩) := by
  have hset : ∀ (S : AudioSignal) (element pos si adv k : Int), si ≠ 0 →
      ProcessInternal lib S element pos si adv k config = some ⟨1, S, 0, adv⟩ := by
    intro S element pos si adv k hsi
    simp only [ProcessInternal, ne_eq, hsi, not_false_eq_true, if_true]
  refine ⟨hset S element pos si adv k, fun hsi r h => ?_⟩
  subst hsi
  have hflag : r.syncinternal = 1 := by
    by_cases hk : k = 0
    · subst hk
      rw [ProcessInternal_unknown_eq] at h
      split at h
      · simp only [Option.some.injEq] at h; subst h; rfl
      · split at h
        · simp only [Option.some.injEq] at h; subst h; rfl
        · exact (finishInternal_some h).choose_spec.2.2.1
    · rw [ProcessInternal_known_eq lib S element pos adv k config hk] at h
      split at h
      · simp only [Option.some.injEq] at h; subst h; rfl
      · split at h
        · simp only [Option.some.injEq] at h; subst h; rfl
        · exact (finishInternal_some h).choose_spec.2.2.1
  refine ⟨hflag, fun element2 pos2 k2 => hset _ _ _ _ _ _ ?_⟩
  rw [hflag]
  decide

/-! ## Flattening a profile -/

theorem sumPeriod_loop (periodArray : List AveragedFrequencies) (n : Nat) :
    ∀ (s : Nat) (ma : AveragedFrequencies), s + n ≤ periodArray.length →
      ∃ ma', loopFrom (sumPeriod periodArray) n s ma = some ma' ∧
        ma'.avgfreq = ma.avgfreq +
          (((periodArray.drop s).take n).map fun d => d.avgfreq).sum ∧
        ma'.avgvol = ma.avgvol +
          (((periodArray.drop s).take n).map fun d => d.avgvol).sum := by
  induction n with
  | zero => intro s ma _; exact ⟨ma, rfl, by simp, by simp⟩
  | succ n ih =>
    intro s ma hs
    have hlt : s < periodArray.length := by omega
    have hg : getAt periodArray (s : Int) = some periodArray[s] := by
      unfold getAt
      rw [if_pos (by omega)]
      simp [hlt]
    obtain ⟨ma', h1, h2, h3⟩ := ih (s + 1)
      ⟨ma.avgfreq + periodArray[s].avgfreq, ma.avgvol + periodArray[s].avgvol⟩ (by omega)
    have e : (periodArray.drop s).take (n + 1) =
        periodArray[s] :: (periodArray.drop (s + 1)).take n := by
      rw [List.drop_eq_getElem_cons hlt, List.take_succ_cons]
    refine ⟨ma', ?_, ?_, ?_⟩
    · simp only [loopFrom, sumPeriod, hg, Option.map_some', Option.some_bind]
      rw [← h1]
      congr 1
    · rw [h2, e, List.map_cons, List.sum_cons]
      ring
    · rw [h3, e, List.map_cons, List.sum_cons]
      ring

theorem sum_map_set {α : Type} (f : α → ℚ) (v : α) :
    ∀ (l : List α) (c : Nat) (x : α), l[c]? = some x →
      ((l.set c v).map f).sum = (l.map f).sum - f x + f v := by
  intro l
  induction l with
  | nil => intro c x h; simp at h
  | cons a l ih =>
    intro c x h
    cases c with
    | zero =>
      simp only [List.getElem?_cons_zero, Option.some.injEq] at h
      subst h
      simp only [List.set_cons_zero, List.map_cons, List.sum_cons]
      ring
    | succ c =>
      simp only [List.getElem?_cons_succ] at h
      simp only [List.set_cons_succ, List.map_cons, List.sum_cons, ih c x h]
      ring

theorem sum_map_div {α : Type} (f : α → ℚ) (c : ℚ) (l : List α) :
    (l.map fun d => f d / c).sum = (l.map f).sum / c := by
  induction l with
  | nil => simp
  | cons a l ih =>
    simp only [List.map_cons, List.sum_cons, ih]
    ring

theorem window_succ {α : Type} (g : α → ℚ) (data : List α) (i p : Nat) (d : α)
    (hp : 1 ≤ p) (hd : data[i]? = some d) :
    (((data.take (i + 1)).drop (i + 1 - p)).map g).sum =
      (((data.take i).drop (i - p)).map g).sum -
        (if p ≤ i then ((data[i - p]?).map g).getD 0 else 0) + g d := by
  have hlt : i < data.length := by
    by_contra hge
    rw [List.getElem?_eq_none (by omega)] at hd
    simp at hd
  have htake : data.take (i + 1) = data.take i ++ [d] := by
    rw [List.take_succ, hd]
    rfl
  have hlen : (data.take i).length = i := by
    rw [List.length_take]
    omega
  by_cases hpi : p ≤ i
  · rw [if_pos hpi, htake, List.drop_append_of_le_length (by rw [hlen]; omega)]
    have hx : i - p < (data.take i).length := by rw [hlen]; omega
    have e : (data.take i).drop (i - p) =
        (data.take i)[i - p] :: (data.take i).drop (i + 1 - p) := by
      rw [List.drop_eq_getElem_cons hx]
      congr 2
      omega
    have e2 : data[i - p]? = some (data.take i)[i - p] := by
      rw [List.getElem_take, List.getElem?_eq_getElem]
    rw [e, e2]
    simp only [List.map_append, List.map_cons, List.map_nil, List.sum_append, List.sum_cons,
      List.sum_nil, Option.map_some', Option.getD_some]
    ring
  · rw [if_neg hpi, htake]
    have e1 : i + 1 - p = 0 := by omega
    have e2 : i - p = 0 := by omega
    rw [e1, e2]
    simp only [List.drop_zero, List.map_append, List.map_cons, List.map_nil, List.sum_append,
      List.sum_cons, List.sum_nil]
    ring

theorem getAt_natCast {α : Type} (l : List α) (n : Nat) : getAt l (n : Int) = l[n]? := by
  unfold getAt
  rw [if_pos (by omega), Int.toNat_ofNat]

theorem setAt_natCast {α : Type} (l : List α) (n : Nat) (v : α) (h : n < l.length) :
    setAt l (n : Int) v = some (l.set n v) := by
  unfold setAt
  rw [if_pos ⟨by omega, by omega⟩, Int.toNat_ofNat]

theorem mod_ne_of_near {m i p : Nat} (h1 : m < i) (h2 : i < m + p) : m % p ≠ i % p := by
  intro h
  have h3 : (i - m) % p = 0 := Nat.sub_mod_eq_zero_of_mod_eq h.symm
  have h4 : (i - m) % p = i - m := Nat.mod_eq_of_lt (by omega)
  omega

theorem window_eq (data : List AveragedFrequencies) (i p : Nat) (hp : p ≤ i) :
    (data.take (i + 1)).drop (i + 1 - p) = (data.drop (i - p + 1)).take p := by
  rw [List.drop_take]
  have e1 : i + 1 - (i + 1 - p) = p := by omega
  have e2 : i + 1 - p = i - p + 1 := by omega
  rw [e1, e2]

theorem averageStep_inv {data averages0 : List AveragedFrequencies} {p i : Nat}
    {st : AverageState} (hp : 1 ≤ p) (hi : i < data.length)
    (hcap : i < p ∨ i - p < averages0.length) (inv : AverageInv data averages0 p i st) :
    ∃ st', averageStep data (p : Int) (i : Int) st = some st' ∧
      AverageInv data averages0 p (i + 1) st' := by
  have hd : data[i]? = some data[i] := List.getElem?_eq_getElem hi
  have hmod : i % p < p := Nat.mod_lt _ (by omega)
  obtain ⟨x, hx, hxf, hxv⟩ : ∃ x, st.periodArray[i % p]? = some x ∧
      x.avgfreq = (if p ≤ i then ((data[i - p]?).map fun d =>
        d.avgfreq / ((p : Int) : ℚ)).getD 0 else 0) ∧
      x.avgvol = (if p ≤ i then ((data[i - p]?).map fun d =>
        d.avgvol / ((p : Int) : ℚ)).getD 0 else 0) := by
    by_cases hpi : p ≤ i
    · have hm : i - p < data.length := by omega
      have hr := inv.recent (i - p) data[i - p] (by omega) (by omega)
        (List.getElem?_eq_getElem hm)
      have e : (i - p) % p = i % p := by
        have e0 : i = (i - p) + p := by omega
        conv_rhs => rw [e0, Nat.add_mod_right]
      rw [e] at hr
      refine ⟨_, hr, ?_, ?_⟩ <;> simp [hpi, List.getElem?_eq_getElem hm]
    · have hf := inv.fresh i le_rfl (by omega)
      rw [Nat.mod_eq_of_lt (by omega)]
      exact ⟨_, hf, by simp [hpi], by simp [hpi]⟩
  let v : AveragedFrequencies := ⟨data[i].avgfreq / ((p : Int) : ℚ), data[i].avgvol / ((p : Int) : ℚ)⟩
  let pa := st.periodArray.set (i % p) v
  have hlen : pa.length = p := by simp [pa, inv.len]
  have hsumf : (pa.map fun d => d.avgfreq).sum =
      (((data.take (i + 1)).drop (i + 1 - p)).map fun d => d.avgfreq / ((p : Int) : ℚ)).sum := by
    rw [sum_map_set _ v _ _ x hx, inv.sumf,
      window_succ (fun d => d.avgfreq / ((p : Int) : ℚ)) data i p _ hp hd, hxf]
  have hsumv : (pa.map fun d => d.avgvol).sum =
      (((data.take (i + 1)).drop (i + 1 - p)).map fun d => d.avgvol / ((p : Int) : ℚ)).sum := by
    rw [sum_map_set _ v _ _ x hx, inv.sumv,
      window_succ (fun d => d.avgvol / ((p : Int) : ℚ)) data i p _ hp hd, hxv]
  obtain ⟨ma, hma, hmaf, hmav⟩ := sumPeriod_loop pa p 0 ⟨0, 0⟩ (by omega)
  rw [List.drop_zero, List.take_of_length_le (by omega), zero_add] at hmaf hmav
  rw [Nat.cast_zero] at hma
  have hidx : Int.tmod (((i % p : Nat) : Int) + 1) (p : Int) = (((i + 1) % p : Nat) : Int) := by
    rw [Int.tmod_eq_emod (by omega) (by omega)]
    have e : (((i % p : Nat) : Int) + 1) = ((i % p + 1 : Nat) : Int) := by push_cast; rfl
    rw [e, ← Int.natCast_mod, Nat.mod_add_mod]
  have hset : setAt st.periodArray ((i % p : Nat) : Int) v = some pa :=
    setAt_natCast _ _ _ (by rw [inv.len]; exact hmod)
  have hrecent : ∀ (m : Nat) (d : AveragedFrequencies), m < i + 1 → i + 1 ≤ m + p →
      data[m]? = some d →
      pa[m % p]? = some ⟨d.avgfreq / ((p : Int) : ℚ), d.avgvol / ((p : Int) : ℚ)⟩ := by
    intro m d h1 h2 h3
    by_cases hmi : m = i
    · subst hmi
      rw [hd] at h3
      simp only [Option.some.injEq] at h3
      subst h3
      exact List.getElem?_set_self (by rw [inv.len]; exact hmod)
    · have hne := mod_ne_of_near (show m < i by omega) (show i < m + p by omega)
      show (st.periodArray.set (i % p) v)[m % p]? = _
      rw [List.getElem?_set_ne (Ne.symm hne)]
      exact inv.recent m d (by omega) (by omega) h3
  have hfresh : ∀ j : Nat, i + 1 ≤ j → j < p → pa[j]? = some ⟨0, 0⟩ := by
    intro j h1 h2
    show (st.periodArray.set (i % p) v)[j]? = _
    rw [List.getElem?_set_ne (by rw [Nat.mod_eq_of_lt (by omega)]; omega)]
    exact inv.fresh j (by omega) h2
  unfold averageStep
  rw [getAt_natCast, hd, Option.some_bind, inv.idx, hset, Option.some_bind, Int.toNat_ofNat, hma,
    Option.some_bind]
  have hp0 : ¬ (p : Int) = 0 := by omega
  by_cases hpi : p ≤ i
  · have hpos : i - p < st.averages.length := by
      rw [inv.alen]
      omega
    rw [if_pos (by omega : (i : Int) ≥ (p : Int)), inv.pos, setAt_natCast _ _ _ hpos,
      Option.map_some', Option.some_bind, if_neg hp0, hidx]
    refine ⟨_, rfl, ⟨hlen, rfl, hrecent, hfresh, hsumf, hsumv, ?_, ?_, ?_, ?_⟩⟩
    · show ((i - p : Nat) : Int) + 1 = ((i + 1 - p : Nat) : Int)
      omega
    · show (st.averages.set (i - p) ma).length = _
      rw [List.length_set, inv.alen]
    · intro k hk
      show (st.averages.set (i - p) ma)[k]? = _
      by_cases hki : k = i - p
      · subst hki
        rw [List.getElem?_set_self hpos]
        congr 1
        have ef : ma.avgfreq = (windowMean data (p : Int) (i - p)).avgfreq := by
          rw [hmaf, hsumf, window_eq data i p hpi, sum_map_div]
          simp [windowMean]
        have ev : ma.avgvol = (windowMean data (p : Int) (i - p)).avgvol := by
          rw [hmav, hsumv, window_eq data i p hpi, sum_map_div]
          simp [windowMean]
        cases ma
        cases hw : windowMean data (p : Int) (i - p)
        rw [hw] at ef ev
        simp only at ef ev
        rw [ef, ev]
      · rw [List.getElem?_set_ne (by omega)]
        exact inv.done k (by omega)
    · intro k hk
      show (st.averages.set (i - p) ma)[k]? = _
      rw [List.getElem?_set_ne (by omega)]
      exact inv.rest k (by omega)
  · rw [if_neg (by omega : ¬ (i : Int) ≥ (p : Int)), Option.some_bind, if_neg hp0, hidx]
    refine ⟨_, rfl, ⟨hlen, rfl, hrecent, hfresh, hsumf, hsumv, ?_, inv.alen, ?_, ?_⟩⟩
    · show st.pos = ((i + 1 - p : Nat) : Int)
      rw [inv.pos]
      omega
    · intro k hk
      omega
    · intro k hk
      exact inv.rest k (by omega)

theorem averageLoop_inv {data averages0 : List AveragedFrequencies} {p : Nat} (hp : 1 ≤ p)
    (n : Nat) :
    ∀ (i : Nat) (st : AverageState), i + n ≤ data.length → i + n ≤ p + averages0.length →
      AverageInv data averages0 p i st →
      ∃ st', loopFrom (averageStep data (p : Int)) n (i : Int) st = some st' ∧
        AverageInv data averages0 p (i + n) st' := by
  induction n with
  | zero => intro i st _ _ inv; exact ⟨st, rfl, inv⟩
  | succ n ih =>
    intro i st h1 h2 inv
    obtain ⟨st1, e1, inv1⟩ := averageStep_inv hp (show i < data.length by omega)
      (show i < p ∨ i - p < averages0.length by omega) inv
    obtain ⟨st2, e2, inv2⟩ := ih (i + 1) st1 (by omega) (by omega) inv1
    refine ⟨st2, ?_, ?_⟩
    · show (averageStep data (p : Int) (i : Int) st).bind _ = _
      rw [e1, Option.some_bind]
      rw [← e2]
      norm_cast
    · rw [show i + (n + 1) = i + 1 + n by omega]
      exact inv2

theorem averageInv_start (data averages : List AveragedFrequencies) (p : Nat) :
    AverageInv data averages p 0 ⟨List.replicate p ⟨0, 0⟩, 0, averages, 0⟩ where
  len := List.length_replicate _ _
  idx := by simp
  recent := fun m d h _ _ => absurd h (Nat.not_lt_zero m)
  fresh := fun j _ h => by
    show (List.replicate p _)[j]? = _
    rw [List.getElem?_replicate, if_pos h]
  sumf := by simp
  sumv := by simp
  pos := by simp
  alen := rfl
  done := fun k h => absurd h (by omega)
  rest := fun _ _ => rfl

theorem movingAverage_spec (malloc : Int → Bool) (data averages : List AveragedFrequencies)
    (size period : Int) (hp : 1 ≤ period) (hsize : (data.length : Int) = size)
    (hm : malloc (16 * period) = true) (hcap : size - period ≤ averages.length) :
    ∃ out, movingAverage malloc data averages size period = some (max (size - period) 0, out) ∧
      out.length = averages.length ∧
      (∀ k : Nat, (k : Int) < size - period → out[k]? = some (windowMean data period k)) ∧
      ∀ k : Nat, size - period ≤ (k : Int) → out[k]? = averages[k]? := by
  obtain ⟨p, rfl⟩ := Int.eq_ofNat_of_zero_le (show 0 ≤ period by omega)
  subst hsize
  obtain ⟨st, e, inv⟩ := averageLoop_inv (show 1 ≤ p by omega) data.length 0
    ⟨List.replicate p ⟨0, 0⟩, 0, averages, 0⟩ (by omega) (by omega)
    (averageInv_start data averages p)
  refine ⟨st.averages, ?_, inv.alen, ?_, ?_⟩
  · unfold movingAverage
    rw [hm]
    simp only [Bool.not_true, Bool.false_eq_true, if_false, Int.toNat_ofNat]
    rw [Nat.cast_zero] at e
    rw [e, Option.map_some', inv.pos]
    congr 2
    omega
  · intro k hk
    exact inv.done k (by omega)
  · intro k hk
    exact inv.rest k (by omega)

theorem windowMean_tail (data data' : List AveragedFrequencies) (period : Int) (k : Nat)
    (h : data'.drop 1 = data.drop 1) : windowMean data' period k = windowMean data period k := by
  have e : data'.drop (k + 1) = data.drop (k + 1) := by
    rw [Nat.add_comm, ← List.drop_drop, ← List.drop_drop, h]
  unfold windowMean
  rw [e]

/-- C29. For a period of at least one, a data array of `size` elements and an
output array with room for `size - period` entries, `movingAverage` (once its
buffer is allocated) returns `max (size - period) 0`; for every `k` below that
count `averages[k]` is the mean, in both fields, of the `period` elements
`data[k+1] .. data[k+period]`, the later entries are as they were, and a data
array that differs only in element 0 gives the same result. -/
theorem movingAverage_window_means (malloc : Int → Bool)
    (data averages : List AveragedFrequencies) (size period : Int) (hp : 1 ≤ period)
    (hsize : (data.length : Int) = size) (hm : malloc (16 * period) = true)
    (hcap : size - period ≤ averages.length) :
    (∃ out, movingAverage malloc data averages size period =
        some (max (size - period) 0, out) ∧
      out.length = averages.length ∧
      (∀ k : Nat, (k : Int) < size - period →
        out[k]? = some ⟨(((data.drop (k + 1)).take period.toNat).map fun d => d.avgfreq).sum /
            (period : ℚ),
          (((data.drop (k + 1)).take period.toNat).map fun d => d.avgvol).sum / (period : ℚ)⟩) ∧
      ∀ k : Nat, size - period ≤ (k : Int) → out[k]? = averages[k]?) ∧
    ∀ data' : List AveragedFrequencies, data'.length = data.length →
      data'.drop 1 = data.drop 1 →
      movingAverage malloc data' averages size period =
        movingAverage malloc data averages size period := by
  obtain ⟨out, e, hl, hd, hr⟩ := movingAverage_spec malloc data averages size period hp hsize
    hm hcap
  refine ⟨⟨out, e, hl, hd, hr⟩, ?_⟩
  intro data' hlen htail
  obtain ⟨out', e', hl', hd', hr'⟩ := movingAverage_spec malloc data' averages size period hp
    (by rw [hlen]; exact hsize) hm hcap
  rw [e, e']
  congr 2
  apply List.ext_getElem?
  intro k
  by_cases hk : (k : Int) < size - period
  · rw [hd k hk, hd' k hk, windowMean_tail data data' period k htail]
  · rw [hr k (by omega), hr' k (by omega)]

theorem movingAverage_window_means_witness :
    movingAverage (fun _ => true) testData (List.replicate 3 ⟨0, 0⟩) 4 2 =
        some (2, [⟨3, 6⟩, ⟨5, 10⟩, ⟨0, 0⟩]) ∧
      movingAverage (fun _ => true) (testData.set 0 ⟨0, 0⟩) (List.replicate 3 ⟨0, 0⟩) 4 2 =
        movingAverage (fun _ => true) testData (List.replicate 3 ⟨0, 0⟩) 4 2 :=
  ⟨by decide!,
    (movingAverage_window_means (fun _ => true) testData (List.replicate 3 ⟨0, 0⟩) 4 2
      (by decide) (by decide) rfl (by decide)).2 (testData.set 0 ⟨0, 0⟩) (by decide) (by decide)⟩

/-! ## Insertion into the flat frequency array -/

theorem shiftLoop_spec (m : Nat) :
    ∀ (k : Nat) (Freqs : List FlatFrequency), m ≤ k → k < Freqs.length →
      ∃ F, shiftLoop m (k : Int) Freqs = some F ∧ F.length = Freqs.length ∧
        ∀ x : Nat, F[x]? = if k - m < x ∧ x ≤ k then Freqs[x - 1]? else Freqs[x]? := by
  induction m with
  | zero =>
    intro k Freqs _ _
    refine ⟨Freqs, rfl, rfl, fun x => ?_⟩
    rw [if_neg (by omega)]
  | succ m ih =>
    intro k Freqs hmk hk
    have hk1 : k - 1 < Freqs.length := by omega
    have e : ((k : Int) - 1) = ((k - 1 : Nat) : Int) := by omega
    obtain ⟨F, hF, hlen, hget⟩ := ih (k - 1) (Freqs.set k Freqs[k - 1]) (by omega)
      (by rw [List.length_set]; exact hk1)
    refine ⟨F, ?_, ?_, fun x => ?_⟩
    · show (getAt Freqs ((k : Int) - 1)).bind _ = _
      rw [e, getAt_natCast, List.getElem?_eq_getElem hk1, Option.some_bind,
        setAt_natCast _ _ _ hk, Option.some_bind]
      exact hF
    · rw [hlen, List.length_set]
    · rw [hget x]
      by_cases hx : k - 1 - m < x ∧ x ≤ k - 1
      · rw [if_pos hx, if_pos (by omega), List.getElem?_set_ne (by omega)]
      · rw [if_neg hx]
        by_cases hxk : x = k
        · subst hxk
          rw [if_pos (by omega), List.getElem?_set_self hk, List.getElem?_eq_getElem hk1]
        · rw [if_neg (by omega), List.getElem?_set_ne (by omega)]

theorem insertedAt_set (Freqs : List FlatFrequency) (Element : FlatFrequency) (n : Nat)
    (h : n < Freqs.length) : InsertedAt Freqs (Freqs.set n Element) Element n n := by
  intro k
  by_cases hk : k = n
  · subst hk
    rw [List.getElem?_set_self h, if_neg (by omega), if_pos rfl]
  · rw [List.getElem?_set_ne (by omega)]
    split_ifs <;> first | rfl | omega

theorem descending_inserted {Freqs F : List FlatFrequency} {Element : FlatFrequency}
    {n j : Nat} (hj : j ≤ n) (hord : Descending Freqs n)
    (hF : InsertedAt Freqs F Element n j)
    (hbefore : ∀ (a : Nat) (fa : FlatFrequency), a < j → Freqs[a]? = some fa →
      Element.hertz ≤ fa.hertz)
    (hafter : ∀ (b : Nat) (fb : FlatFrequency), j ≤ b → b < n → Freqs[b]? = some fb →
      fb.hertz ≤ Element.hertz) : Descending F (n + 1) := by
  intro a b fa fb hab hb ha hb'
  rw [hF a] at ha
  rw [hF b] at hb'
  by_cases haj : a < j
  · rw [if_pos haj] at ha
    by_cases hbj : b < j
    · rw [if_pos hbj] at hb'
      exact hord a b fa fb hab (by omega) ha hb'
    · rw [if_neg hbj] at hb'
      by_cases hbe : b = j
      · rw [if_pos hbe] at hb'
        simp only [Option.some.injEq] at hb'
        subst hb'
        exact hbefore a fa haj ha
      · rw [if_neg hbe, if_pos (by omega)] at hb'
        exact hord a (b - 1) fa fb (by omega) (by omega) ha hb'
  · rw [if_neg haj] at ha
    rw [if_neg (by omega)] at hb'
    by_cases hae : a = j
    · rw [if_pos hae] at ha
      simp only [Option.some.injEq] at ha
      subst ha
      by_cases hbe : b = j
      · rw [if_pos hbe] at hb'
        simp only [Option.some.injEq] at hb'
        subst hb'
        exact le_rfl
      · rw [if_neg hbe, if_pos (by omega)] at hb'
        exact hafter (b - 1) fb (by omega) (by omega) hb'
    · rw [if_neg hae, if_pos (by omega)] at ha
      rw [if_neg (by omega), if_pos (by omega)] at hb'
      exact hord (a - 1) (b - 1) fa fb (by omega) (by omega) ha hb'

theorem descending_set {Freqs : List FlatFrequency} {n j : Nat} {f g : FlatFrequency}
    (hord : Descending Freqs n) (hf : Freqs[j]? = some f) (hg : g.hertz = f.hertz) :
    Descending (Freqs.set j g) n := by
  have key : ∀ (a : Nat) (fa : FlatFrequency), (Freqs.set j g)[a]? = some fa →
      ∃ fa', Freqs[a]? = some fa' ∧ fa'.hertz = fa.hertz := by
    intro a fa ha
    by_cases haj : a = j
    · subst haj
      have hlt : a < Freqs.length := by
        by_contra hge
        rw [List.getElem?_eq_none (by omega)] at hf
        simp at hf
      rw [List.getElem?_set_self hlt] at ha
      simp only [Option.some.injEq] at ha
      subst ha
      exact ⟨f, hf, hg.symm⟩
    · rw [List.getElem?_set_ne (by omega)] at ha
      exact ⟨fa, ha, rfl⟩
  intro a b fa fb hab hb ha hb'
  obtain ⟨fa', ha1, ha2⟩ := key a fa ha
  obtain ⟨fb', hb1, hb2⟩ := key b fb hb'
  rw [← ha2, ← hb2]
  exact hord a b fa' fb' hab hb ha1 hb1

theorem set_same {α : Type} (l : List α) (j : Nat) (h : j < l.length) : l.set j l[j] = l := by
  apply List.ext_getElem?
  intro k
  by_cases hk : k = j
  · subst hk
    rw [List.getElem?_set_self h, List.getElem?_eq_getElem h]
  · rw [List.getElem?_set_ne (by omega)]

theorem insertLoop_spec {Freqs : List FlatFrequency} {Element : FlatFrequency} {n : Nat}
    (hcap : n < Freqs.length) (hord : Descending Freqs n) {last : FlatFrequency}
    (hn : 1 ≤ n) (hlast : Freqs[n - 1]? = some last) (hlt : last.hertz < Element.hertz)
    (m : Nat) :
    ∀ j : Nat, j + m = n →
      (∀ (a : Nat) (fa : FlatFrequency), a < j → Freqs[a]? = some fa →
        Element.hertz ≤ fa.hertz) →
      ∃ r, insertLoop Element (n : Int) m (j : Int) Freqs = some r ∧
        InsertOutcome Freqs Element n r := by
  induction m with
  | zero =>
    intro j hj hbefore
    have h := hbefore (n - 1) last (by omega) hlast
    exact absurd hlt (not_lt.mpr h)
  | succ m ih =>
    intro j hj hbefore
    have hjl : j < Freqs.length := by omega
    have hf : Freqs[j]? = some Freqs[j] := List.getElem?_eq_getElem hjl
    simp only [insertLoop]
    rw [getAt_natCast, hf, Option.some_bind]
    by_cases hmatch : Element.type = Freqs[j].type ∧ Element.hertz = Freqs[j].hertz
    · rw [if_pos hmatch]
      by_cases hamp : Freqs[j].amplitude > Element.amplitude
      · rw [if_pos hamp]
        refine ⟨_, rfl, rfl, rfl, Or.inr ⟨rfl, hord, j, Freqs[j], by omega, hf, hmatch.1,
          hmatch.2, ?_⟩⟩
        show Freqs = _
        rw [max_eq_left (le_of_lt hamp)]
        exact (set_same Freqs j hjl).symm
      · rw [if_neg hamp, setAt_natCast _ _ _ hjl, Option.map_some']
        refine ⟨_, rfl, rfl, List.length_set _ _ _, Or.inr ⟨rfl, descending_set hord hf rfl, j,
          Freqs[j], by omega, hf, hmatch.1, hmatch.2, ?_⟩⟩
        show Freqs.set j _ = _
        rw [max_eq_right (not_lt.mp hamp)]
    · rw [if_neg hmatch]
      by_cases hgt : Element.hertz > Freqs[j].hertz
      · rw [if_pos hgt]
        have e : ((n : Int) - (j : Int)).toNat = n - j := by omega
        obtain ⟨F1, hF1, hlen1, hget1⟩ := shiftLoop_spec (n - j) n Freqs (by omega) hcap
        rw [e, hF1, Option.some_bind, setAt_natCast _ _ _ (by rw [hlen1]; exact hjl),
          Option.map_some']
        have hins : InsertedAt Freqs (F1.set j Element) Element n j := by
          intro k
          by_cases hk : k = j
          · subst hk
            rw [List.getElem?_set_self (by rw [hlen1]; exact hjl), if_neg (by omega), if_pos rfl]
          · rw [List.getElem?_set_ne (by omega), hget1 k]
            split_ifs <;> first | rfl | omega
        refine ⟨_, rfl, rfl, by show (F1.set j Element).length = _; rw [List.length_set, hlen1],
          Or.inl ⟨rfl, descending_inserted (by omega) hord hins hbefore ?_, j, by omega, hins⟩⟩
        intro b fb hb1 hb2 hb3
        exact le_trans (hord j b Freqs[j] fb hb1 hb2 hf hb3) (le_of_lt hgt)
      · rw [if_neg hgt]
        have e : ((j : Int) + 1) = ((j + 1 : Nat) : Int) := by push_cast; rfl
        rw [e]
        apply ih (j + 1) (by omega)
        intro a fa ha hfa
        by_cases haj : a = j
        · subst haj
          rw [hf] at hfa
          simp only [Option.some.injEq] at hfa
          subst hfa
          exact not_lt.mp hgt
        · exact hbefore a fa (by omega) hfa

theorem InsertElementInPlace_spec (Freqs : List FlatFrequency) (Element : FlatFrequency)
    (n : Nat) (hcap : n < Freqs.length) (hord : Descending Freqs n) :
    ∃ r, InsertElementInPlace Freqs Element (n : Int) = some r ∧
      InsertOutcome Freqs Element n r := by
  unfold InsertElementInPlace
  by_cases hn : n = 0
  · subst hn
    rw [if_pos (by rfl)]
    have e := setAt_natCast Freqs 0 Element hcap
    rw [Nat.cast_zero] at e
    rw [e, Option.map_some']
    have hins := insertedAt_set Freqs Element 0 hcap
    refine ⟨_, rfl, rfl, List.length_set _ _ _, Or.inl ⟨rfl,
      descending_inserted le_rfl hord hins ?_ ?_, 0, le_rfl, hins⟩⟩
    · intro a fa ha
      omega
    · intro b fb _ hb
      omega
  · rw [if_neg (by omega)]
    have hl : n - 1 < Freqs.length := by omega
    have hlast : Freqs[n - 1]? = some Freqs[n - 1] := List.getElem?_eq_getElem hl
    have e : ((n : Int) - 1) = ((n - 1 : Nat) : Int) := by omega
    rw [e, getAt_natCast, hlast, Option.some_bind]
    by_cases hge : Freqs[n - 1].hertz ≥ Element.hertz
    · rw [if_pos hge, setAt_natCast _ _ _ hcap, Option.map_some']
      have hins := insertedAt_set Freqs Element n hcap
      refine ⟨_, rfl, rfl, List.length_set _ _ _, Or.inl ⟨rfl,
        descending_inserted le_rfl hord hins ?_ ?_, n, le_rfl, hins⟩⟩
      · intro a fa ha hfa
        exact le_trans hge (hord a (n - 1) fa Freqs[n - 1] (by omega) (by omega) hfa hlast)
      · intro b fb h1 h2
        omega
    · rw [if_neg hge, Int.toNat_ofNat]
      have h := insertLoop_spec hcap hord (by omega) hlast (not_le.mp hge) n 0 (by omega)
        (fun a fa ha _ => absurd ha (Nat.not_lt_zero a))
      rw [Nat.cast_zero] at h
      exact h

theorem testFreqs_descending : Descending testFreqs 3 := by
  intro a b fa fb hab hb ha hb'
  have h3 : b = 0 ∨ b = 1 ∨ b = 2 := by omega
  have h4 : a = 0 ∨ a = 1 ∨ a = 2 := by omega
  rcases h3 with rfl | rfl | rfl <;> rcases h4 with rfl | rfl | rfl <;>
    first
    | omega
    | (simp only [testFreqs, List.getElem?_cons_zero, List.getElem?_cons_succ,
        Option.some.injEq] at ha hb'
       subst ha
       subst hb'
       norm_num)

/-- C30. When `Freqs` has room for one more entry and its first `currentsize`
entries are in non-increasing order of `hertz`, `InsertElementInPlace` never
reaches the "No match found" warning and leaves the allocation as long as it
was. It returns 1 exactly when the element was put in at some index `j`, the
old entries from `j` on moving up by one, and then the first `currentsize + 1`
entries are in non-increasing order. It returns 0 only when some entry has the
type and frequency of the element; that entry takes the larger of the two
amplitudes, nothing else changes, and the first `currentsize` entries are
still in non-increasing order. -/
theorem InsertElementInPlace_keeps_order (Freqs : List FlatFrequency)
    (Element : FlatFrequency) (currentsize : Nat) (hcap : currentsize < Freqs.length)
    (hord : Descending Freqs currentsize) :
    ∃ r, InsertElementInPlace Freqs Element (currentsize : Int) = some r ∧
      r.warned = false ∧ r.Freqs.length = Freqs.length ∧
      ((r.ret = 1 ∧ Descending r.Freqs (currentsize + 1) ∧
          ∃ j : Nat, j ≤ currentsize ∧ ∀ k : Nat, r.Freqs[k]? =
            if k < j then Freqs[k]? else if k = j then some Element
            else if k ≤ currentsize then Freqs[k - 1]? else Freqs[k]?) ∨
        (r.ret = 0 ∧ Descending r.Freqs currentsize ∧
          ∃ (j : Nat) (f : FlatFrequency), j < currentsize ∧ Freqs[j]? = some f ∧
            Element.type = f.type ∧ Element.hertz = f.hertz ∧
            r.Freqs =
              Freqs.set j { f with amplitude := max f.amplitude Element.amplitude })) :=
  InsertElementInPlace_spec Freqs Element currentsize hcap hord

theorem InsertElementInPlace_keeps_order_witness :
    (InsertElementInPlace testFreqs ⟨250, -5, 2, 0⟩ 3).map (fun r => (r.ret, r.warned)) =
        some (1, false) ∧
      (InsertElementInPlace testFreqs ⟨250, -5, 2, 0⟩ 3).map
          (fun r => r.Freqs.map fun f => f.hertz) = some [300, 250, 200, 100] ∧
      (InsertElementInPlace testFreqs ⟨200, -5, 1, 0⟩ 3).map
          (fun r => (r.ret, r.Freqs.map fun f => f.amplitude)) =
        some (0, [-10, -5, -30, 0]) ∧
      ∃ r, InsertElementInPlace testFreqs ⟨250, -5, 2, 0⟩ ((3 : Nat) : Int) = some r ∧
        r.warned = false :=
  ⟨by decide!, by decide!, by decide!,
    (InsertElementInPlace_keeps_order testFreqs ⟨250, -5, 2, 0⟩ 3 (by decide)
      testFreqs_descending).imp fun _ h => ⟨h.1, h.2.1⟩⟩

/-! ## The frame rate the first loop measures with -/

theorem ExecuteMDWave_load_rates {lib : Lib} {host : Host} {config : parameters} {invert : Int}
    {Signal : AudioSignal} {c : parameters}
    (hbal : ∀ S b c, (host.CheckBalance S b c).1.framerate = S.framerate ∧
      (host.CheckBalance S b c).2.referenceFramerate = c.referenceFramerate)
    (h : ExecuteMDWave_load lib host config invert = .ready Signal c) :
    c.referenceFramerate = Signal.framerate ∧
    ∃ (reference : WavFile) (created : AudioSignal),
      host.reference = some reference ∧
      host.CreateAudioSignal (if invert ≠ 0 then { config with invert := 1 } else config) =
        some created ∧
      (LoadFile lib (some reference)
        { created with
          role := host.role (if invert ≠ 0 then { config with invert := 1 } else config) }
        (if invert ≠ 0 then { config with invert := 1 } else config)
        host.referenceFile).ret ≠ 0 ∧
      Signal.framerate = (LoadFile lib (some reference)
        { created with
          role := host.role (if invert ≠ 0 then { config with invert := 1 } else config) }
        (if invert ≠ 0 then { config with invert := 1 } else config)
        host.referenceFile).Signal.framerate := by
  unfold ExecuteMDWave_load at h
  revert h
  lift_lets
  intro cfg0 h
  split at h
  · cases h
  · rename_i reference href
    split at h
    · cases h
    · rename_i created hcreated
      revert h
      lift_lets
      intro S1 loaded S2 lc cfg1 h
      split at h
      · cases h
      · rename_i hret
        split at h
        · simp only [Prepared.ready.injEq] at h
          obtain ⟨rfl, rfl⟩ := h
          have hb := hbal S2 (host.GetFirstMonoIndex cfg1) cfg1
          exact ⟨by rw [hb.1, hb.2], reference, created, href, hcreated, hret, hb.1⟩
        · simp only [Prepared.ready.injEq] at h
          obtain ⟨rfl, rfl⟩ := h
          exact ⟨rfl, reference, created, href, hcreated, hret, rfl⟩

/-- C20. `ExecuteMDWave` stores the frame rate of the signal it has loaded in
`config->referenceFramerate` before it calls `ProcessFile` with that signal
and that configuration. The first loop of `ProcessFile` measures a block with
`Signal->framerate` while `syncinternal` is clear and with
`config->referenceFramerate` while it is set, and neither changes in the
loop: so every block the loop segments and copies, and the block it is at
when it ends, is measured with `config->referenceFramerate`, the rate of the
loaded signal, whether an internal sync is open or not. `CheckBalance` and
`CompareFrameRates`, which are not among the sources, are taken to leave the
two rates alone. -/
theorem forward_pass_framerate (lib : Lib) (eng : Engine) (host : Host) (config : parameters)
    (invert : Int) (Signal : AudioSignal) (c : parameters) (buffersize : Int) (n : Nat)
    (r : Flow × FileState)
    (hbal : ∀ S b c, (host.CheckBalance S b c).1.framerate = S.framerate ∧
      (host.CheckBalance S b c).2.referenceFramerate = c.referenceFramerate)
    (hcmp : ∀ a b c, (eng.CompareFrameRates a b c).referenceFramerate = c.referenceFramerate)
    (hload : ExecuteMDWave_load lib host config invert = .ready Signal c)
    (h : blocksLoop (forwardBlock lib eng c) n 0
      (ProcessFile_start lib eng Signal c buffersize) = some r) :
    c.referenceFramerate = Signal.framerate ∧
    (∃ (reference : WavFile) (created : AudioSignal),
      host.reference = some reference ∧
      host.CreateAudioSignal (if invert ≠ 0 then { config with invert := 1 } else config) =
        some created ∧
      c.referenceFramerate = (LoadFile lib (some reference)
        { created with
          role := host.role (if invert ≠ 0 then { config with invert := 1 } else config) }
        (if invert ≠ 0 then { config with invert := 1 } else config)
        host.referenceFile).Signal.framerate) ∧
    (∀ st : FileState,
      (st.syncinternal = 0 → blockFramerate st = st.Signal.framerate) ∧
      (st.syncinternal ≠ 0 → blockFramerate st = st.config.referenceFramerate)) ∧
    (∀ b ∈ r.2.copied, b.framerate = c.referenceFramerate) ∧
    r.2.Signal.framerate = c.referenceFramerate ∧
    r.2.config.referenceFramerate = c.referenceFramerate ∧
    blockFramerate r.2 = c.referenceFramerate := by
  obtain ⟨href, reference, created, hopen, hcreated, -, hrate⟩ :=
    ExecuteMDWave_load_rates hbal hload
  have hf := blocksLoop_follows (fun i st r hb => (forwardBlock_inv hb).1) n 0 _ r h
  have hs : (ProcessFile_start lib eng Signal c buffersize).Signal.framerate =
      Signal.framerate := rfl
  have hr : (ProcessFile_start lib eng Signal c buffersize).config.referenceFramerate =
      c.referenceFramerate := hcmp _ _ _
  have e1 : r.2.Signal.framerate = Signal.framerate := hf.framerate.trans hs
  have e2 : r.2.config.referenceFramerate = c.referenceFramerate := hf.reference.trans hr
  have e3 : r.2.Signal.framerate = r.2.config.referenceFramerate := by rw [e1, e2, href]
  refine ⟨href, ⟨reference, created, hopen, hcreated, by rw [href, hrate]⟩, fun st => ?_,
    fun b hb => ?_, by rw [e1, href], e2, (blockFramerate_eq e3).trans e2⟩
  · unfold blockFramerate
    exact ⟨fun h0 => by rw [if_pos h0], fun h0 => by rw [if_neg h0]⟩
  · obtain ⟨more, hmore, hbound⟩ := hf.copied
    have hmem : b ∈ more := by
      rw [hmore] at hb
      simpa [ProcessFile_start] using hb
    rcases (hbound b hmem).2.2.2 with hx | hx
    · rw [hx, hs, href]
    · rw [hx, hr]

theorem forward_pass_framerate_witness :
    unsetConfig.referenceFramerate = 0 ∧ hostConfig.referenceFramerate = 1000 ∧
    ((blocksLoop (forwardBlock fileLib syncTimeline hostConfig) 2 0
      (ProcessFile_start fileLib syncTimeline hostSignal hostConfig 8)).map
        fun r => (r.2.syncinternal, r.2.copied)) =
      some (1, [⟨0, 1000, 0, 8⟩, ⟨1, 1000, 8, 8⟩]) ∧
    ∀ b ∈ ((blocksLoop (forwardBlock fileLib syncTimeline hostConfig) 2 0
      (ProcessFile_start fileLib syncTimeline hostSignal hostConfig 8)).getD
        (Flow.fail, syncStart)).2.copied, b.framerate = hostConfig.referenceFramerate :=
  ⟨by decide!, by decide!, by decide!,
   (forward_pass_framerate fileLib syncTimeline testHost unsetConfig 0 hostSignal hostConfig 8 2
      ((blocksLoop (forwardBlock fileLib syncTimeline hostConfig) 2 0
        (ProcessFile_start fileLib syncTimeline hostSignal hostConfig 8)).getD
          (Flow.fail, syncStart))
      (fun _ _ _ => ⟨rfl, rfl⟩) (fun _ _ _ => rfl) (by decide!) (by decide!)).2.2.2.1⟩

/-! ## The round trip through the transforms, up to the error of the transforms -/

theorem round_nearest (y : ℚ) :
    ∃ v : Int, round y = (v : ℚ) ∧ |(v : ℚ) - y| ≤ 1 / 2 ∧
      (|(v : ℚ) - y| = 1 / 2 → |y| < |(v : ℚ)|) := by
  unfold round
  by_cases h0 : 0 ≤ y
  · rw [if_pos h0]
    refine ⟨⌊y + 1 / 2⌋, rfl, ?_, ?_⟩
    · have h1 := Int.floor_le (y + 1 / 2)
      have h2 := Int.lt_floor_add_one (y + 1 / 2)
      rw [abs_le]
      constructor <;> linarith
    · intro he
      have h1 := Int.floor_le (y + 1 / 2)
      have h2 := Int.lt_floor_add_one (y + 1 / 2)
      have h3 : ((⌊y + 1 / 2⌋ : Int) : ℚ) - y = 1 / 2 := by
        rcases abs_eq (by norm_num : (0 : ℚ) ≤ 1 / 2) |>.mp he with h | h
        · exact h
        · linarith
      have h4 : (0 : ℚ) ≤ ((⌊y + 1 / 2⌋ : Int) : ℚ) := by linarith
      rw [abs_of_nonneg h0, abs_of_nonneg h4]
      linarith
  · rw [if_neg h0]
    have hneg : y < 0 := not_le.mp h0
    refine ⟨⌈y - 1 / 2⌉, rfl, ?_, ?_⟩
    · have h1 := Int.le_ceil (y - 1 / 2)
      have h2 := Int.ceil_lt_add_one (y - 1 / 2)
      rw [abs_le]
      constructor <;> linarith
    · intro he
      have h1 := Int.le_ceil (y - 1 / 2)
      have h2 := Int.ceil_lt_add_one (y - 1 / 2)
      have h3 : ((⌈y - 1 / 2⌉ : Int) : ℚ) - y = -(1 / 2) := by
        rcases abs_eq (by norm_num : (0 : ℚ) ≤ 1 / 2) |>.mp he with h | h
        · linarith
        · exact h
      have h4 : ((⌈y - 1 / 2⌉ : Int) : ℚ) < 0 := by linarith
      rw [abs_of_neg hneg, abs_of_neg h4]
      linarith

theorem toInt16_intCast {v w : Int} (h : toInt16 (v : ℚ) = some w) : w = v := by
  unfold toInt16 at h
  simp only [Int.floor_intCast, Int.ceil_intCast, ite_self] at h
  split at h
  · exact (Option.some.inj h).symm
  · cases h

theorem writeFrame_value {channel : Char}
    (hch : channel = 'l' ∨ channel = 'r' ∨ channel = 's')
    (AudioChannels mono : Int) (signal : List ℚ) (i : Int) (samples : List Int) :
    writeFrame channel AudioChannels mono signal i samples =
      (writtenValue mono signal i).bind fun v =>
      storeFrame channel AudioChannels v i samples := by
  rw [writeFrame_eq hch]
  unfold writtenValue
  cases getAt signal i <;> rfl

theorem loopFrom_defined {σ : Type} (body : Int → σ → Option σ) (n : Nat) :
    ∀ (i : Int) (st st' : σ), loopFrom body n i st = some st' →
      ∀ k : Nat, k < n → ∃ s s', body (i + k) s = some s' := by
  induction n with
  | zero => intro i st st' _ k hk; omega
  | succ n ih =>
    intro i st st' h k hk
    simp only [loopFrom, Option.bind_eq_some] at h
    obtain ⟨s1, h1, h2⟩ := h
    cases k with
    | zero => exact ⟨st, s1, by simpa using h1⟩
    | succ k =>
      obtain ⟨s, s', hs⟩ := ih (i + 1) s1 st' h2 k (by omega)
      exact ⟨s, s', by rw [← hs]; congr 1; push_cast; ring⟩

/-- C21, counterexample. A mono block of four frames `10, 21, -31, 40` under
the window `1, 1/2, 1/2, 1` has the windowed samples `10, 10.5, -15.5, 40`,
whose roundings are `10, 11, -16, 40`. With a transform pair whose round trip
is `2^-40` below the input, as a floating-point transform is exact only up to
rounding errors, no bin is blanked and the reconstruction pass writes back
`10, 10, -16, 40`: frame 1 is not the rounded windowed sample. With the exact
transform pair it is. -/
theorem inexact_transform_off_by_one :
    (List.range 4).map (fun i =>
      (windowedSample (selectedChannel (testSignal 4 []) narrowConfig) 1
        (some [1, 1 / 2, 1 / 2, 1]) [10, 21, -31, 40, 50, 60, 70, 80] i).map round) =
      [some 10, some 11, some (-16), some 40] ∧
    (List.range 4).map (fun i =>
      (driftEngine.fftw_execute_c2r 4
        (driftEngine.fftw_execute_r2c 4 [10, 21 / 2, -31 / 2, 40, 0]))[i]?.map
          fun o => (o / 4 - [10, 21 / 2, -31 / 2, 40][i]?.getD 0 : ℚ)) =
      [some (-1 / 2 ^ 40), some (-1 / 2 ^ 40), some (-1 / 2 ^ 40), some (-1 / 2 ^ 40)] ∧
    (ProcessSamples fileLib driftEngine emptyBlock [10, 21, -31, 40, 50, 60, 70, 80] 4 4
      (some [1, 1 / 2, 1 / 2, 1]) narrowConfig 1 (testSignal 4 [])).map
        (fun r => (r.ret, r.samples, r.config.maxBlanked)) =
      some (1, [10, 10, -16, 40, 50, 60, 70, 80], 0) ∧
    (blankLoop driftEngine narrowConfig (testSignal 4 []) 4 4 1
      (CutOff emptyBlock narrowConfig (testSignal 4 []))
      (driftEngine.fftw_execute_r2c 4 [10, 21 / 2, -31 / 2, 40, 0])).map Prod.snd = some 0 ∧
    (ProcessSamples fileLib (testEngine []) emptyBlock [10, 21, -31, 40, 50, 60, 70, 80] 4 4
      (some [1, 1 / 2, 1 / 2, 1]) narrowConfig 1 (testSignal 4 [])).map
        (fun r => (r.ret, r.samples, r.config.maxBlanked)) =
      some (1, [10, 11, -16, 40, 50, 60, 70, 80], 0) := by
  decide!

/-- C21, amended. When the blanking loop of the reconstruction pass blanks no
bin and the backward transform of the forward transform, divided by the
transform size, is within `eps` of every windowed input sample, the
write-back stores for every frame `i` below `monoSignalSize - zeropadding`
the value `v` that is the rounding to the nearest integer, halves away from
zero, of a value `y` within `eps` of the windowed sample `x` of the selected
channel. So `v` differs from `x` by at most `1/2 + eps`, and it is the
rounded windowed sample when the round trip is exact (`eps = 0`). The stores
are those of the write-back body for `v`, at the sample positions of the
channel the write-back arm tests. -/
theorem ProcessSamples_round_trip (eng : Engine) (AudioArray : AudioBlocks)
    (samples : List Int) (samplerate : Int) (window : Option (List ℚ)) (config : parameters)
    (Signal : AudioSignal) (mono zp : Int) (boxsize eps : ℚ) (signal sig : List ℚ)
    (mixed : List Int) (sp : List (ℚ × ℚ)) (r : SamplesResult)
    (hch : config.channel = 'l' ∨ config.channel = 'r' ∨ config.channel = 's')
    (hmix : mixLoop (selectedChannel Signal config) Signal.AudioChannels window mono zp
      signal samples = some (sig, mixed))
    (hfft : ∀ (i : Nat) (s : ℚ), (i : Int) < mono - zp → sig[i]? = some s →
      ∃ o, (eng.fftw_execute_c2r mono (eng.fftw_execute_r2c mono sig))[i]? = some o ∧
        |o / (mono : ℚ) - s| ≤ eps)
    (hblank : blankLoop eng config Signal mono samplerate boxsize
      (CutOff AudioArray config Signal) (eng.fftw_execute_r2c mono sig) = some (sp, 0))
    (h : ProcessSamples_reverse eng AudioArray mixed samplerate window config Signal mono zp
      boxsize (eng.fftw_execute_r2c mono sig) = some r) :
    r.ret = 1 ∧
    some r.samples =
      loopFrom (fun i s =>
        (writtenValue mono (eng.fftw_execute_c2r mono (eng.fftw_execute_r2c mono sig)) i).bind
          fun v => storeFrame (writeChannel window config Signal) Signal.AudioChannels v i s)
        (mono - zp).toNat 0 mixed ∧
    ∀ i : Nat, (i : Int) < mono - zp →
      ∃ (x y : ℚ) (v : Int),
        windowedSample (selectedChannel Signal config) Signal.AudioChannels window
          samples i = some x ∧
        |y - x| ≤ eps ∧
        writtenValue mono (eng.fftw_execute_c2r mono (eng.fftw_execute_r2c mono sig)) i =
          some v ∧
        |(v : ℚ) - y| ≤ 1 / 2 ∧
        (|(v : ℚ) - y| = 1 / 2 → |y| < |(v : ℚ)|) ∧
        |(v : ℚ) - x| ≤ 1 / 2 + eps ∧
        (eps = 0 → (v : ℚ) =
          if 0 ≤ x then ((⌊x + 1 / 2⌋ : Int) : ℚ) else ((⌈x - 1 / 2⌉ : Int) : ℚ)) := by
  obtain ⟨hsel, hwr⟩ := @writeChannel_cases window config Signal hch
  have hsp : sp = eng.fftw_execute_r2c mono sig := by
    unfold blankLoop at hblank
    exact (blankLoop_count eng config Signal mono _ _ _ _ _ _ _ _ _ hblank).2 rfl
  subst hsp
  unfold ProcessSamples_reverse at h
  rw [hblank, Option.some_bind] at h
  simp only [Option.bind_eq_some, Option.some.injEq] at h
  obtain ⟨out, hout, rfl⟩ := h
  rw [writeBack_eq] at hout
  have hloop : loopFrom (fun i s =>
      (writtenValue mono (eng.fftw_execute_c2r mono (eng.fftw_execute_r2c mono sig)) i).bind
        fun v => storeFrame (writeChannel window config Signal) Signal.AudioChannels v i s)
      (mono - zp).toNat 0 mixed = some out := by
    rw [← hout]
    apply loopFrom_congr
    intro j _ _ s
    exact (writeFrame_value hwr _ _ _ _ _).symm
  refine ⟨rfl, hloop.symm, fun i hi => ?_⟩
  unfold mixLoop at hmix
  obtain ⟨-, -, hval⟩ := mixLoop_values hsel Signal.AudioChannels window _ 0 _ _ _ _ hmix
  obtain ⟨x, hx, hx'⟩ := hval i (by omega) (by omega)
  obtain ⟨o, ho, herr⟩ := hfft i x hi hx'
  obtain ⟨s, s', hs⟩ := loopFrom_defined _ _ _ _ _ hloop i (by omega)
  rw [zero_add] at hs
  have hget : getAt (eng.fftw_execute_c2r mono (eng.fftw_execute_r2c mono sig)) (i : Int) =
      some o := by
    rw [getAt_natCast]
    exact ho
  obtain ⟨w, hw⟩ : ∃ w, toInt16 (round (o / (mono : ℚ))) = some w := by
    simp only [writtenValue, hget, Option.some_bind] at hs
    cases hv : toInt16 (round (o / (mono : ℚ))) with
    | none => rw [hv] at hs; simp at hs
    | some w => exact ⟨w, rfl⟩
  obtain ⟨v, hv, hnear, htie⟩ := round_nearest (o / (mono : ℚ))
  rw [hv] at hw
  have hwv := toInt16_intCast hw
  subst hwv
  refine ⟨x, o / (mono : ℚ), w, hx, herr, ?_, hnear, htie, ?_, fun h0 => ?_⟩
  · simp only [writtenValue, hget, Option.some_bind, hv, hw]
  · have e : (w : ℚ) - x = ((w : ℚ) - o / (mono : ℚ)) + (o / (mono : ℚ) - x) := by ring
    rw [e]
    exact le_trans (abs_add _ _) (add_le_add hnear herr)
  · have hyx : o / (mono : ℚ) = x := by
      rw [h0] at herr
      have := abs_nonpos_iff.mp herr
      linarith
    rw [← hv, hyx]
    rfl

theorem ProcessSamples_round_trip_witness :
    ∃ (x y : ℚ) (v : Int),
      windowedSample (selectedChannel (testSignal 4 []) narrowConfig)
        (testSignal 4 []).AudioChannels (some [1, 1 / 2, 1 / 2, 1])
        [10, 21, -31, 40, 50, 60, 70, 80] 1 = some x ∧
      |y - x| ≤ 1 / 2 ^ 40 ∧
      writtenValue 4 (driftEngine.fftw_execute_c2r 4
        (driftEngine.fftw_execute_r2c 4 [10, 21 / 2, -31 / 2, 40, 0])) 1 = some v ∧
      |(v : ℚ) - y| ≤ 1 / 2 ∧ |(v : ℚ) - x| ≤ 1 / 2 + 1 / 2 ^ 40 :=
  let ⟨x, y, v, h1, h2, h3, h4, _, h6, _⟩ :=
    (ProcessSamples_round_trip driftEngine emptyBlock [10, 21, -31, 40, 50, 60, 70, 80] 4
      (some [1, 1 / 2, 1 / 2, 1]) narrowConfig (testSignal 4 []) 4 0 1 (1 / 2 ^ 40)
      [0, 0, 0, 0, 0] [10, 21 / 2, -31 / 2, 40, 0] [10, 21, -31, 40, 50, 60, 70, 80]
      [(45, 0), (51 / 2, 59 / 2), (-56, 0)]
      ⟨1, emptyBlock, [10, 10, -16, 40, 50, 60, 70, 80], narrowConfig⟩
      (by decide!) (by decide!)
      (fun i s hi hs => by
        have hi' : i < 4 := by omega
        interval_cases i <;>
          (simp only [List.getElem?_cons_zero, List.getElem?_cons_succ,
            Option.some.injEq] at hs
           refine ⟨4 * s - 1 / 2 ^ 38, ?_, ?_⟩ <;> (subst hs; decide!)))
      (by decide!) (by decide!)).2.2 1 (by decide)
  ⟨x, y, v, h1, h2, h3, h4, h6⟩

/-! ## The ranges of the sample buffer that `ProcessFile` writes -/

theorem spliceRegions_kind {lib : Lib} {S : AudioSignal} {i pos known : Int}
    {config : parameters} {reg : Region}
    (h : reg ∈ spliceRegions lib S i pos known config) : reg.kind = RegionKind.splice := by
  unfold spliceRegions at h
  split at h <;>
    (simp only [List.mem_cons, List.mem_singleton, List.not_mem_nil, or_false] at h
     rcases h with rfl | rfl <;> rfl)

theorem internalCall_regions {lib : Lib} {i k : Int} {st : FileState} {r : Flow × FileState}
    (h : internalCall lib i k st = some r) :
    r.2.pos = st.pos ∧ r.2.Signal = { st.Signal with Samples := r.2.Signal.Samples } ∧
    (r.2.written = st.written ∨
      ∃ res, ProcessInternal lib st.Signal i st.pos 0 st.syncAdvance k st.config = some res ∧
        res.ret ≠ 0 ∧
        r.2.written = st.written ++ spliceRegions lib st.Signal i st.pos k st.config) := by
  obtain ⟨-, -, hS, -, -, hp⟩ := internalCall_inv h
  refine ⟨hp, hS, ?_⟩
  unfold internalCall at h
  simp only [Option.bind_eq_some, Option.some.injEq] at h
  obtain ⟨res, hres, h⟩ := h
  subst h
  simp only
  by_cases hc : st.syncinternal = 0 ∧ res.ret ≠ 0
  · rw [if_pos hc]
    rw [hc.1] at hres
    exact Or.inr ⟨res, hres, hc.2, rfl⟩
  · rw [if_neg hc]
    exact Or.inl rfl

theorem internalSyncs_regions {lib : Lib} {eng : Engine} {i type : Int} {st : FileState}
    {r : Flow × FileState} (h : internalSyncs lib eng i type st = some r) :
    ∃ added, r.2.written = st.written ++ added ∧
      ∀ reg ∈ added, reg.kind = RegionKind.splice ∧
        ∃ (S : AudioSignal) (cfg : parameters) (adv known : Int) (res : InternalResult),
          S = { st.Signal with Samples := S.Samples } ∧
          ProcessInternal lib S i st.pos 0 adv known cfg = some res ∧ res.ret ≠ 0 ∧
          reg ∈ spliceRegions lib S i st.pos known cfg := by
  have one : ∀ (k : Int) (a b : FileState) (f : Flow),
      internalCall lib i k a = some (f, b) →
      b.pos = a.pos ∧ b.Signal = { a.Signal with Samples := b.Signal.Samples } ∧
      ∃ added, b.written = a.written ++ added ∧
        ∀ reg ∈ added, reg.kind = RegionKind.splice ∧
          ∃ (cfg : parameters) (adv known : Int) (res : InternalResult),
            ProcessInternal lib a.Signal i a.pos 0 adv known cfg = some res ∧ res.ret ≠ 0 ∧
            reg ∈ spliceRegions lib a.Signal i a.pos known cfg := by
    intro k a b f hk
    obtain ⟨hp, hS, hw⟩ := internalCall_regions hk
    refine ⟨hp, hS, ?_⟩
    rcases hw with hw | ⟨res, hres, hret, hw⟩
    · exact ⟨[], by simpa using hw, by simp⟩
    · exact ⟨_, hw, fun reg hreg =>
        ⟨spliceRegions_kind hreg, _, _, _, res, hres, hret, hreg⟩⟩
  unfold internalSyncs at h
  split at h
  · simp only [Option.some.injEq] at h
    subst h
    exact ⟨[], by simp, by simp⟩
  · simp only [Option.bind_eq_some] at h
    obtain ⟨r1, h1, h2⟩ := h
    have first : r1.2.pos = st.pos ∧
        r1.2.Signal = { st.Signal with Samples := r1.2.Signal.Samples } ∧
        ∃ added, r1.2.written = st.written ++ added ∧
          ∀ reg ∈ added, reg.kind = RegionKind.splice ∧
            ∃ (cfg : parameters) (adv known : Int) (res : InternalResult),
              ProcessInternal lib st.Signal i st.pos 0 adv known cfg = some res ∧
              res.ret ≠ 0 ∧ reg ∈ spliceRegions lib st.Signal i st.pos known cfg := by
      split at h1
      · exact one 1 st r1.2 r1.1 h1
      · simp only [Option.some.injEq] at h1
        subst h1
        exact ⟨rfl, rfl, [], by simp, by simp⟩
    obtain ⟨fp, fS, add1, fw, fj⟩ := first
    have lift1 : ∀ reg ∈ add1, reg.kind = RegionKind.splice ∧
        ∃ (S : AudioSignal) (cfg : parameters) (adv known : Int) (res : InternalResult),
          S = { st.Signal with Samples := S.Samples } ∧
          ProcessInternal lib S i st.pos 0 adv known cfg = some res ∧ res.ret ≠ 0 ∧
          reg ∈ spliceRegions lib S i st.pos known cfg := by
      intro reg hreg
      obtain ⟨hk, cfg, adv, known, res, hres, hret, hmem⟩ := fj reg hreg
      exact ⟨hk, st.Signal, cfg, adv, known, res, rfl, hres, hret, hmem⟩
    split at h2
    · simp only [Option.some.injEq] at h2
      subst h2
      exact ⟨add1, fw, lift1⟩
    · split at h2
      · obtain ⟨sp, sS, add2, sw, sj⟩ := one 0 r1.2 r.2 r.1 h2
        refine ⟨add1 ++ add2, by rw [sw, fw, List.append_assoc], fun reg hreg => ?_⟩
        rcases List.mem_append.mp hreg with hreg | hreg
        · exact lift1 reg hreg
        · obtain ⟨hk, cfg, adv, known, res, hres, hret, hmem⟩ := sj reg hreg
          rw [fp] at hres hmem
          refine ⟨hk, r1.2.Signal, cfg, adv, known, res, ?_, hres, hret, hmem⟩
          rw [fS]
      · simp only [Option.some.injEq] at h2
        subst h2
        exact ⟨add1, fw, lift1⟩

theorem forwardBlock_regions {lib : Lib} {eng : Engine} {wcfg : parameters} {i : Int}
    {st : FileState} {r : Flow × FileState}
    (h : forwardBlock lib eng wcfg i st = some r) :
    ∃ added, r.2.written = st.written ++ added ∧
      ∀ reg ∈ added, reg.kind = RegionKind.splice ∧ SpliceOf lib eng i st reg := by
  obtain ⟨block, blocks, st3, loaded, hb, hset, hS, hc, hp, hcp, hw, hbuf, hcar, hload,
    hcases⟩ := forwardBlock_cases h
  have hf : blockFramerate st = st3.Signal.framerate ∨
      blockFramerate st = st3.config.referenceFramerate := by
    rw [hS, hc]
    unfold blockFramerate
    split
    · exact Or.inl rfl
    · exact Or.inr rfl
  obtain ⟨-, lS, -, lp, lcar, -, -, lw, -, -, -⟩ := loadBlock_follows hload hf
  have none : ∀ s : FileState, s.written = st.written →
      ∃ added, s.written = st.written ++ added ∧
        ∀ reg ∈ added, reg.kind = RegionKind.splice ∧ SpliceOf lib eng i st reg :=
    fun s hs => ⟨[], by simpa using hs, by simp⟩
  rcases hcases with ⟨-, rfl⟩ | ⟨-, processed, hproc, hrest⟩
  · exact none _ (lw.trans hw)
  · have hp2 : processed.2.written = st.written ∧ processed.2.pos = st.pos ∧
        processed.2.carry = blockCarry lib eng (blockFramerate st) i st ∧
        processed.2.Signal = { st.Signal with Blocks := processed.2.Signal.Blocks } := by
      rcases hproc with rfl | ⟨d, hs⟩
      · exact ⟨lw.trans hw, lp.trans hp, lcar.trans hcar, by
          show loaded.2.Signal = _
          rw [lS, hS]⟩
      · obtain ⟨-, sS, -, -, sp, scar, -, -, sw, -, -⟩ := samplesCall_inv hs
        exact ⟨sw.trans (lw.trans hw), sp.trans (lp.trans hp), scar.trans (lcar.trans hcar), by
          rw [sS, lS, hS]⟩
    rcases hrest with ⟨-, rfl⟩ | ⟨-, rfl | hsync⟩
    · exact none _ hp2.1
    · exact none _ hp2.1
    · obtain ⟨added, hadd, hj⟩ := internalSyncs_regions hsync
      refine ⟨added, by rw [hadd]; exact congrArg (· ++ added) hp2.1, fun reg hreg => ?_⟩
      obtain ⟨hk, S, cfg, adv, known, res, hshape, hres, hret, hmem⟩ := hj reg hreg
      have hpos : processed.2.pos + blockSize lib eng (blockFramerate st) i st +
          processed.2.carry.2.1 =
          st.pos + blockSize lib eng (blockFramerate st) i st +
            (blockCarry lib eng (blockFramerate st) i st).2.1 := by
        rw [hp2.2.1, hp2.2.2.1]
      have hres' : ProcessInternal lib S i
          (processed.2.pos + blockSize lib eng (blockFramerate st) i st +
            processed.2.carry.2.1) 0 adv known cfg = some res := hres
      have hmem' : reg ∈ spliceRegions lib S i
          (processed.2.pos + blockSize lib eng (blockFramerate st) i st +
            processed.2.carry.2.1) known cfg := hmem
      rw [hpos] at hres' hmem'
      refine ⟨hk, S, cfg, adv, known, res, ?_, hres', hret, hmem'⟩
      have hshape' : S = { processed.2.Signal with Samples := S.Samples } := hshape
      rw [hshape', hp2.2.2.2]

theorem reverseBlock_regions {lib : Lib} {eng : Engine} {wcfg : parameters} {i : Int}
    {st : FileState} {r : Flow × FileState}
    (h : reverseBlock lib eng wcfg i st = some r) :
    r.2.written = st.written ∨
    r.2.written = st.written ++
      [⟨RegionKind.rewrite, st.pos, blockSize lib eng st.Signal.framerate i st⟩] := by
  obtain ⟨block, st3, loaded, hb, hS, hc, hp, hcp, hw, hbuf, hload, hcases⟩ :=
    reverseBlock_cases h
  have hf : st.Signal.framerate = st3.Signal.framerate ∨
      st.Signal.framerate = st3.config.referenceFramerate := Or.inl (by rw [hS])
  obtain ⟨-, -, -, lp, -, -, -, lw, -, -, -⟩ := loadBlock_follows hload hf
  rcases hcases with ⟨-, rfl⟩ | ⟨-, rewritten, hrew, hrest⟩
  · exact Or.inl (lw.trans hw)
  · have hr2 : rewritten.2.written = st.written ∨
        rewritten.2.written = st.written ++
          [⟨RegionKind.rewrite, st.pos, blockSize lib eng st.Signal.framerate i st⟩] := by
      rcases hrew with rfl | ⟨d, processed, hs, hcase⟩
      · exact Or.inl (lw.trans hw)
      · obtain ⟨-, -, -, -, sp, -, -, -, sw, -, -⟩ := samplesCall_inv hs
        rcases hcase with ⟨-, rfl⟩ | ⟨-, rebuilt, stored, -, -, rfl⟩
        · exact Or.inl (sw.trans (lw.trans hw))
        · right
          show processed.2.written ++ [⟨RegionKind.rewrite, processed.2.pos, _⟩] = _
          rw [sw, lw, hw, sp, lp, hp]
    rcases hrest with ⟨-, rfl⟩ | ⟨-, -, hr⟩
    · exact hr2
    · rw [hr]
      exact hr2

theorem blocksLoop_regions {body : Int → FileState → Option (Flow × FileState)}
    (J : Int → FileState → Region → Prop)
    (hstep : ∀ i st r, body i st = some r →
      ∃ added, r.2.written = st.written ++ added ∧ ∀ reg ∈ added, J i st reg) (n : Nat) :
    ∀ (i : Int) (st : FileState) (r : Flow × FileState),
      blocksLoop body n i st = some r →
      ∃ added, r.2.written = st.written ++ added ∧
        ∀ reg ∈ added, ∃ (k : Nat) (s : FileState), k < n ∧
          blocksLoop body k i st = some (Flow.next, s) ∧ J (i + k) s reg := by
  induction n with
  | zero =>
    intro i st r h
    simp only [blocksLoop, Option.some.injEq] at h
    subst h
    exact ⟨[], by simp, by simp⟩
  | succ n ih =>
    intro i st r h
    simp only [blocksLoop, Option.bind_eq_some] at h
    obtain ⟨r1, h1, h2⟩ := h
    obtain ⟨add1, hw1, hj1⟩ := hstep i st r1 h1
    have here : ∀ reg ∈ add1, ∃ (k : Nat) (s : FileState), k < n + 1 ∧
        blocksLoop body k i st = some (Flow.next, s) ∧ J (i + k) s reg :=
      fun reg hreg => ⟨0, st, by omega, rfl, by simpa using hj1 reg hreg⟩
    obtain ⟨f1, s1⟩ := r1
    cases f1 with
    | next =>
      obtain ⟨add2, hw2, hj2⟩ := ih (i + 1) s1 r h2
      refine ⟨add1 ++ add2, by rw [hw2]; show s1.written ++ add2 = _; rw [hw1, List.append_assoc],
        fun reg hreg => ?_⟩
      rcases List.mem_append.mp hreg with hreg | hreg
      · exact here reg hreg
      · obtain ⟨k, s, hk, hrun, hj⟩ := hj2 reg hreg
        refine ⟨k + 1, s, by omega, ?_, ?_⟩
        · simp only [blocksLoop, h1, Option.some_bind]
          exact hrun
        · have e : i + ((k + 1 : Nat) : Int) = i + 1 + (k : Int) := by push_cast; ring
          rw [e]
          exact hj
    | stop =>
      simp only [Option.some.injEq] at h2
      subst h2
      exact ⟨add1, hw1, here⟩
    | fail =>
      simp only [Option.some.injEq] at h2
      subst h2
      exact ⟨add1, hw1, here⟩

theorem ProcessFile_reverse_regions {lib : Lib} {eng : Engine} {wcfg : parameters}
    {st : FileState} {r : Flow × FileState}
    (h : ProcessFile_reverse lib eng wcfg st = some r) :
    ∃ added tail, r.2.written = st.written ++ added ++ tail ∧
      (∀ reg ∈ added, ∃ (i : Nat) (s : FileState),
        i < st.config.totalChunks.toNat ∧
        blocksLoop (reverseBlock lib eng wcfg) i 0
          { st with pos := st.Signal.startOffset, carry := (0, 0, 0), copied := [] } =
          some (Flow.next, s) ∧
        reg = ⟨RegionKind.rewrite, s.pos, blockSize lib eng s.Signal.framerate i s⟩) ∧
      (tail = [] ∨ ∃ fin : Flow × FileState,
        blocksLoop (reverseBlock lib eng wcfg) st.config.totalChunks.toNat 0
          { st with pos := st.Signal.startOffset, carry := (0, 0, 0), copied := [] } =
          some fin ∧
        tail = [⟨RegionKind.clear, fin.2.pos,
          fin.2.Signal.header.data.DataSize - fin.2.pos⟩]) := by
  unfold ProcessFile_reverse at h
  split at h
  · simp only [Option.some.injEq] at h
    subst h
    exact ⟨[], [], by simp, by simp, Or.inl rfl⟩
  · revert h
    lift_lets
    intro st0 h
    rw [Option.bind_eq_some] at h
    obtain ⟨looped, hloop, h⟩ := h
    obtain ⟨added, hadded, hj⟩ := blocksLoop_regions
      (fun i s reg => reg = ⟨RegionKind.rewrite, s.pos, blockSize lib eng s.Signal.framerate i s⟩)
      (fun i s r hb => by
        rcases reverseBlock_regions hb with hw | hw
        · exact ⟨[], by simpa using hw, by simp⟩
        · exact ⟨_, hw, fun reg hreg => List.mem_singleton.mp hreg⟩)
      _ 0 st0 looped hloop
    have hadded' : looped.2.written = st.written ++ added := hadded
    have hj' : ∀ reg ∈ added, ∃ (i : Nat) (s : FileState),
        i < st.config.totalChunks.toNat ∧
        blocksLoop (reverseBlock lib eng wcfg) i 0 st0 = some (Flow.next, s) ∧
        reg = ⟨RegionKind.rewrite, s.pos, blockSize lib eng s.Signal.framerate i s⟩ := by
      intro reg hreg
      obtain ⟨k, s, hk, hrun, hreg'⟩ := hj reg hreg
      refine ⟨k, s, hk, hrun, ?_⟩
      rw [zero_add] at hreg'
      exact hreg'
    split at h
    · simp only [Option.some.injEq] at h
      subst h
      exact ⟨added, [], by simp [hadded'], hj', Or.inl rfl⟩
    · revert h
      lift_lets
      intro st1 S1 h
      rw [Option.bind_eq_some] at h
      obtain ⟨cleared, hclear, h⟩ := h
      revert h
      lift_lets
      intro st2 h
      have key : r.2 = st2 := by
        split at h <;> (simp only [Option.some.injEq] at h; subst h; rfl)
      rw [key]
      refine ⟨added,
        [⟨RegionKind.clear, looped.2.pos, looped.2.Signal.header.data.DataSize - looped.2.pos⟩],
        ?_, hj', Or.inr ⟨looped, hloop, rfl⟩⟩
      show looped.2.written ++ _ = _
      rw [hadded']

theorem ProcessFile_regions {lib : Lib} {eng : Engine} {Signal : AudioSignal}
    {config : parameters} {r : FileResult}
    (h : ProcessFile lib eng Signal config = some r) :
    ∀ reg ∈ r.state.written,
      (reg.kind = RegionKind.splice ∧ ∃ (i : Nat) (st : FileState),
        i < (forwardStart lib eng Signal config).config.totalChunks.toNat ∧
        blocksLoop (forwardBlock lib eng config) i 0 (forwardStart lib eng Signal config) =
          some (Flow.next, st) ∧
        SpliceOf lib eng i st reg) ∨
      (∃ (looped : Flow × FileState) (i : Nat) (st : FileState),
        forwardLoop lib eng Signal config = some looped ∧
        i < (reverseStart eng looped.2).config.totalChunks.toNat ∧
        blocksLoop (reverseBlock lib eng config) i 0 (reverseStart eng looped.2) =
          some (Flow.next, st) ∧
        reg = ⟨RegionKind.rewrite, st.pos, blockSize lib eng st.Signal.framerate i st⟩) ∨
      (∃ (looped fin : Flow × FileState),
        forwardLoop lib eng Signal config = some looped ∧
        reverseLoop lib eng config looped.2 = some fin ∧
        reg = ⟨RegionKind.clear, fin.2.pos,
          fin.2.Signal.header.data.DataSize - fin.2.pos⟩) := by
  unfold ProcessFile at h
  revert h
  lift_lets
  intro longest idleState buffersize st0 h
  split at h
  · simp only [Option.some.injEq] at h
    subst h
    intro reg hreg
    exact absurd hreg (List.not_mem_nil reg)
  · split at h
    · simp only [Option.some.injEq] at h
      subst h
      intro reg hreg
      exact absurd hreg (List.not_mem_nil reg)
    · split at h
      · simp only [Option.some.injEq] at h
        subst h
        intro reg hreg
        exact absurd hreg (List.not_mem_nil reg)
      · rw [Option.bind_eq_some] at h
        obtain ⟨looped, hloop, h⟩ := h
        have hfl : forwardLoop lib eng Signal config = some looped := hloop
        obtain ⟨added, hadded, hj⟩ := blocksLoop_regions
          (fun i s reg => reg.kind = RegionKind.splice ∧ SpliceOf lib eng i s reg)
          (fun i s r hb => forwardBlock_regions hb) _ 0 st0 looped hloop
        have hadded' : looped.2.written = added := by
          rw [hadded]
          show [] ++ added = added
          rfl
        have first : ∀ reg ∈ added,
            reg.kind = RegionKind.splice ∧ ∃ (i : Nat) (st : FileState),
              i < (forwardStart lib eng Signal config).config.totalChunks.toNat ∧
              blocksLoop (forwardBlock lib eng config) i 0 (forwardStart lib eng Signal config) =
                some (Flow.next, st) ∧
              SpliceOf lib eng i st reg := by
          intro reg hreg
          obtain ⟨k, s, hk, hrun, hkind, hsp⟩ := hj reg hreg
          rw [zero_add] at hsp
          exact ⟨hkind, k, s, hk, hrun, hsp⟩
        revert h
        lift_lets
        intro st1 h
        split at h
        · simp only [Option.some.injEq] at h
          subst h
          intro reg hreg
          exact Or.inl (first reg (by rw [← hadded']; exact hreg))
        · rw [Option.bind_eq_some] at h
          obtain ⟨rebuilt, hrev, h⟩ := h
          obtain ⟨added2, tail, hw2, hj2, htail⟩ := ProcessFile_reverse_regions hrev
          have hw1 : st1.written = looped.2.written := by
            show (ProcessFile_analysis eng looped.2).written = _
            unfold ProcessFile_analysis
            split <;> rfl
          have key : r.state = rebuilt.2 := by
            split at h <;> (simp only [Option.some.injEq] at h; subst h; rfl)
          rw [key, hw2, hw1, hadded']
          intro reg hreg
          rcases List.mem_append.mp hreg with hreg | hreg
          · rcases List.mem_append.mp hreg with hreg | hreg
            · exact Or.inl (first reg hreg)
            · obtain ⟨i, s, hi, hrun, hreg'⟩ := hj2 reg hreg
              exact Or.inr (Or.inl ⟨looped, i, s, hfl, hi, hrun, hreg'⟩)
          · rcases htail with rfl | ⟨fin, hfin, rfl⟩
            · exact absurd hreg (List.not_mem_nil reg)
            · exact Or.inr (Or.inr ⟨looped, fin, hfl, hfin, List.mem_singleton.mp hreg⟩)

/-- C19, amended. `ProcessFile` changes a byte of the sample buffer only inside
a range it wrote, and every such range is one of three kinds. It is a range
of an internal-sync splice: `ProcessInternal`, called after a block `i` of
the first loop at the position that follows the block, returned non-zero and
zeroed or copied to the range. Or it is the range `[pos, pos+loadedBlockSize)`
of a block of the second loop, `pos` being the running position when the loop
reached the block and `loadedBlockSize` the byte length computed for it. Or
it is the rest of the buffer `[pos, DataSize)` from the position the second
loop ended at, which line 943 clears. Every other byte is the same as before,
the buffer keeps its length, and a `ProcessSamples` call of either loop
leaves the sample buffer and the list of written ranges as they are. The
helpers of `freq.c` that analyse the signal are assumed to keep
`AnalysisContract`. -/
theorem ProcessFile_frame (lib : Lib) (eng : Engine) (Signal : AudioSignal)
    (config : parameters) (r : FileResult) (hana : AnalysisContract eng)
    (h : ProcessFile lib eng Signal config = some r) :
    r.state.Signal.Samples.length = Signal.Samples.length ∧
    (∀ k : Nat, (∀ reg ∈ r.state.written, ¬ reg.covers k) →
      r.state.Signal.Samples[k]? = Signal.Samples[k]?) ∧
    (∀ reg ∈ r.state.written,
      (reg.kind = RegionKind.splice ∧ ∃ (i : Nat) (st : FileState),
        i < (forwardStart lib eng Signal config).config.totalChunks.toNat ∧
        blocksLoop (forwardBlock lib eng config) i 0 (forwardStart lib eng Signal config) =
          some (Flow.next, st) ∧
        SpliceOf lib eng i st reg) ∨
      (∃ (looped : Flow × FileState) (i : Nat) (st : FileState),
        forwardLoop lib eng Signal config = some looped ∧
        i < (reverseStart eng looped.2).config.totalChunks.toNat ∧
        blocksLoop (reverseBlock lib eng config) i 0 (reverseStart eng looped.2) =
          some (Flow.next, st) ∧
        reg = ⟨RegionKind.rewrite, st.pos, blockSize lib eng st.Signal.framerate i st⟩) ∨
      (∃ (looped fin : Flow × FileState),
        forwardLoop lib eng Signal config = some looped ∧
        reverseLoop lib eng config looped.2 = some fin ∧
        reg = ⟨RegionKind.clear, fin.2.pos,
          fin.2.Signal.header.data.DataSize - fin.2.pos⟩)) ∧
    (∀ (i size d reverse : Int) (st : FileState) (p : Flow × FileState),
      samplesCall lib eng i size d reverse st = some p →
      p.2.Signal.Samples = st.Signal.Samples ∧ p.2.written = st.written) := by
  obtain ⟨hlen, body, tail, hw, -, -, hframe⟩ := ProcessFile_written hana h
  refine ⟨hlen, fun k hk => hframe k (fun reg hr => hk reg (by rw [hw]; exact hr)),
    ProcessFile_regions h, fun i size d reverse st p hp => ?_⟩
  obtain ⟨-, hS, -, -, -, -, -, -, hw', -, -⟩ := samplesCall_inv hp
  exact ⟨by rw [hS], hw'⟩

theorem ProcessFile_frame_witness :
    (ProcessFile fileLib twoBlocks shortSignal twoConfig).map (fun r => r.state.written) =
      some [⟨RegionKind.rewrite, 0, 8⟩, ⟨RegionKind.clear, 8, 4⟩] ∧
    (blocksLoop (reverseBlock fileLib twoBlocks twoConfig) 0 0
      (reverseStart twoBlocks ((forwardLoop fileLib twoBlocks shortSignal twoConfig).getD
        (Flow.fail, shortStart)).2)).map (fun p => (p.2.pos,
          blockSize fileLib twoBlocks p.2.Signal.framerate 0 p.2)) = some (0, 8) ∧
    ((reverseLoop fileLib twoBlocks twoConfig
      ((forwardLoop fileLib twoBlocks shortSignal twoConfig).getD
        (Flow.fail, shortStart)).2).map fun p => p.2.pos) = some 8 ∧
    ((ProcessFile fileLib twoBlocks shortSignal twoConfig).getD
      ⟨0, shortStart⟩).state.Signal.Samples.length = shortSignal.Samples.length :=
  ⟨by decide!, by decide!, by decide!,
    (ProcessFile_frame fileLib twoBlocks shortSignal twoConfig
      ((ProcessFile fileLib twoBlocks shortSignal twoConfig).getD ⟨0, shortStart⟩)
      (fun _ _ => ⟨rfl, rfl, rfl⟩) (by decide!)).1⟩

end MDWave
